import Mathlib

/-!
# AGNT-NES-Emulator: cartridge loader, MMC1 mapper, bus and CPU step

A shallow embedding of `cart.h`, `mappers/MMC1.h`, `mappers/delegator.h`,
`mmu.h` and `cpu.h`.

Conventions.
* Machine integers are natural numbers.  A `uint8_t` register holds a value
  below 256 and a `uint16_t` one a value below 65536; where the C arithmetic
  can leave that range the reduction is written out (`% 256`, `% 65536`,
  `% 2 ^ 64` for `size_t`).
* A byte buffer is a `List Nat`; an element is read as a `uint8_t`, that is
  modulo 256.
* `printf` output is not part of the state.
* A function that can `abort()` or return `NULL` returns an `Except`.
-/

namespace NES

deriving instance DecidableEq for Except

/-! ## cart.h -/

inductive ROM_types where
  | iNES
  | oldiNES
  | iNES07
  | NES2
  deriving DecidableEq, Repr

inductive system_types where
  | NESFAMI
  | NINVS
  | NINPS10
  | EXTN
  deriving DecidableEq, Repr

inductive timing_modes where
  | RP2C02
  | RP2C07
  | MULTI
  | UA6538
  deriving DecidableEq, Repr

/-- The `CART` struct of `cart.h`, field for field, as it lies in memory where
pointers and `size_t` take 8 bytes and an `enum` 4: `ROM_contents` at offset 0,
`type` at 8, `filesize` at 16.  `padding` is the four bytes at offsets 12-15,
between `type` and the aligned `filesize`; no statement of the program assigns
them, so they keep what the allocator left there. -/
structure CART where
  ROM_contents : List Nat
  type : ROM_types
  padding : Nat
  filesize : Nat
  PRG_ROM_len : Nat
  CHR_ROM_len : Nat
  mapper : Nat
  submapper : Nat
  mirroring : Bool
  has_PRG_RAM : Bool
  trainer_present : Bool
  ignore_mirroring_bit : Bool
  sys_type : system_types
  NES2_fmt_override : Bool
  PRG_RAM_size : Nat
  PRG_NVRAM_size : Nat
  CHR_RAM_size : Nat
  CHR_NVRAM_size : Nat
  timing_type : timing_modes
  VS_PPU_type : Nat
  VS_HW_type : Nat
  extended_console_type : Nat
  misc_rom_count : Nat
  default_expn_device : Nat
  TV_system : Nat
  bus_conflicts_specified : Bool
  PRG_RAM_present : Bool
  uncertain_type : Bool
  deriving DecidableEq, Repr

/-- The ways `new_cart` returns `NULL`, named after the message it prints:
"failed to read file" (`IoFailure`), "missing magic number" (`InvalidImage`),
"stated ROM size exceeded filesize. ROM is likely corrupt" (`CorruptImage`). -/
inductive LoadError where
  | IoFailure
  | InvalidImage
  | CorruptImage
  deriving DecidableEq, Repr

/-- The byte `ROM_contents[i]` as `new_cart` reads it.  The buffer is
`malloc(filesize)` filled by `fread`, and `new_cart` indexes it without
looking at `filesize`: an index past the end of the file reads whatever the
allocator left behind the buffer, which is the parameter `heap`. -/
def rom_byte (file : List Nat) (heap : Nat → Nat) (i : Nat) : Nat :=
  match file[i]? with
  | some b => b % 256
  | none => heap i % 256

/-- The first four bytes `new_cart` compares with the signature:
`*(uint32_t*)out->ROM_contents` on a little-endian host. -/
def magic_word (file : List Nat) (heap : Nat → Nat) : List Nat :=
  [rom_byte file heap 0, rom_byte file heap 1, rom_byte file heap 2, rom_byte file heap 3]

/-- The signature `0x1A53454E`, in file order. -/
def magic : List Nat := [0x4E, 0x45, 0x53, 0x1A]

/-- `PRG_ROM_len = ROM_contents[4] + ((uint16_t)(ROM_contents[9] & 0xF) << 8)`. -/
def nes2_PRG_ROM_len (file : List Nat) (heap : Nat → Nat) : Nat :=
  (rom_byte file heap 4 + (((rom_byte file heap 9 &&& 0xF) <<< 8) % 65536)) % 65536

/-- `CHR_ROM_len = ROM_contents[5] + ((uint16_t)(ROM_contents[9] >> 4) << 8)`. -/
def nes2_CHR_ROM_len (file : List Nat) (heap : Nat → Nat) : Nat :=
  (rom_byte file heap 5 + (((rom_byte file heap 9 >>> 4) <<< 8) % 65536)) % 65536

/-- `filesize_pred = 512 + 8192*CHR_ROM_len + 16384*PRG_ROM_len`. -/
def filesize_pred (file : List Nat) (heap : Nat → Nat) : Nat :=
  512 + 8192 * nes2_CHR_ROM_len file heap + 16384 * nes2_PRG_ROM_len file heap

/-- The first `switch` of `new_cart`, on `ROM_contents[7] & 0x0C`: it sets
`type`, `PRG_ROM_len`, `CHR_ROM_len` and `uncertain_type`. -/
def new_cart_type_switch (file : List Nat) (heap : Nat → Nat) (out : CART) : CART :=
  let b := rom_byte file heap
  let out := { out with uncertain_type := false }
  if b 7 &&& 0x0C = 0x08 then
    if out.filesize < filesize_pred file heap then
      { out with type := .iNES, PRG_ROM_len := b 4, CHR_ROM_len := b 5 }
    else
      { out with type := .NES2, PRG_ROM_len := nes2_PRG_ROM_len file heap,
                 CHR_ROM_len := nes2_CHR_ROM_len file heap }
  else if b 7 &&& 0x0C = 0x04 then
    { out with type := .oldiNES, PRG_ROM_len := b 4, CHR_ROM_len := b 5 }
  else if b 7 &&& 0x0C = 0x00 then
    if b 12 = 0 ∧ b 13 = 0 ∧ b 14 = 0 ∧ b 15 = 0 then
      { out with type := .iNES, PRG_ROM_len := b 4, CHR_ROM_len := b 5 }
    else
      { out with type := .oldiNES, PRG_ROM_len := b 4, CHR_ROM_len := b 5,
                 uncertain_type := true }
  else
    { out with type := .oldiNES, PRG_ROM_len := b 4, CHR_ROM_len := b 5,
               uncertain_type := true }

/-- The `switch(out->ROM_contents[7] & 3)` that sets `sys_type`. -/
def new_cart_sys_type (b7 : Nat) (old : system_types) : system_types :=
  if b7 &&& 3 = 0 then .NESFAMI
  else if b7 &&& 3 = 1 then .NINVS
  else if b7 &&& 3 = 2 then .NINPS10
  else if b7 &&& 3 = 3 then .EXTN
  else old

/-- The `switch(out->ROM_contents[12] & 3)` that sets `timing_type` for NES 2.0. -/
def new_cart_nes2_timing (b12 : Nat) (old : timing_modes) : timing_modes :=
  if b12 &&& 3 = 0 then .RP2C02
  else if b12 &&& 3 = 1 then .RP2C07
  else if b12 &&& 3 = 2 then .MULTI
  else if b12 &&& 3 = 3 then .UA6538
  else old

/-- The timing of a legacy header: the guess from byte 9 bit 0, then the
`switch(out->ROM_contents[10] & 3)`. -/
def new_cart_legacy_timing (b9 b10 : Nat) : timing_modes :=
  let timing_type : timing_modes := if b9 &&& 1 ≠ 0 then .RP2C07 else .RP2C02
  if b10 &&& 3 = 0 then
    if timing_type ≠ .RP2C02 then .RP2C02 else timing_type
  else if b10 &&& 3 = 2 then
    .RP2C07
  else
    .RP2C02

/-- The branch `if(out->type == NES2) ... else ...` that ends `new_cart`. -/
def new_cart_tail (file : List Nat) (heap : Nat → Nat) (out : CART) : CART :=
  let b := rom_byte file heap
  if out.type = .NES2 then
    let out := { out with submapper := b 8 >>> 4 }
    let out := { out with mapper := (out.mapper + (((b 8 &&& 0xF) <<< 8) % 65536)) % 65536 }
    let out := { out with PRG_RAM_size := b 10 &&& 0xF, PRG_NVRAM_size := b 10 >>> 4,
                          CHR_RAM_size := b 11 &&& 0xF, CHR_NVRAM_size := b 11 >>> 4 }
    let out := { out with timing_type := new_cart_nes2_timing (b 12) out.timing_type }
    let out :=
      if out.sys_type = .NINVS then
        { out with VS_PPU_type := b 13 &&& 0xF, VS_HW_type := b 13 >>> 4 }
      else if out.sys_type = .EXTN then
        { out with extended_console_type := b 14 &&& 0xF }
      else out
    { out with misc_rom_count := b 14 &&& 3, default_expn_device := b 15 &&& 0x3F }
  else
    let out := { out with PRG_RAM_size := if b 8 = 0 then 1 else b 8 }
    let out := { out with timing_type := new_cart_legacy_timing (b 9) (b 10) }
    { out with mapper := out.mapper &&& 0xFF }

/-- The block of `new_cart` that sets `NES2_fmt_override` and, when it is set,
runs the size check again: the only `return NULL` after the signature check. -/
def new_cart_override (file : List Nat) (heap : Nat → Nat) (out : CART) :
    Except LoadError CART :=
  let b := rom_byte file heap
  let out := { out with NES2_fmt_override := decide ((b 7 >>> 2) &&& 3 = 2) }
  if out.NES2_fmt_override = true then
    let out := { out with type := .NES2 }
    if out.filesize < filesize_pred file heap then
      -- "Fatal: NES2 override bit set, but stated ROM size exceeded filesize."
      .error .CorruptImage
    else
      .ok { out with type := .NES2, PRG_ROM_len := nes2_PRG_ROM_len file heap,
                     CHR_ROM_len := nes2_CHR_ROM_len file heap }
  else
    .ok out

/-- The function `new_cart` of `cart.h`, from the point where the file is open.
`file` is the content of the ROM image, `heap` the bytes behind the
buffer it is read into (see `rom_byte`), `raw` the freshly allocated `CART`,
whose fields hold indeterminate values until they are assigned. -/
def new_cart (file : List Nat) (heap : Nat → Nat) (raw : CART) : Except LoadError CART :=
  let b := rom_byte file heap
  let filesize := file.length
  let out := { raw with ROM_contents := file, filesize := filesize }
  -- size_t read_len = fread(...); if(read_len == 0) return NULL
  if filesize = 0 then .error .IoFailure
  -- if(*(uint32_t*)out->ROM_contents != 0x1A53454E) return NULL
  else if magic_word file heap ≠ magic then .error .InvalidImage
  else
    let out := new_cart_type_switch file heap out
    let out := { out with mirroring := decide (b 6 &&& 1 ≠ 0),
                          has_PRG_RAM := decide (b 6 &&& 2 ≠ 0),
                          trainer_present := decide (b 6 &&& 4 ≠ 0),
                          ignore_mirroring_bit := decide (b 6 &&& 8 ≠ 0) }
    let out := { out with mapper := b 6 >>> 4 }
    let out := { out with sys_type := new_cart_sys_type (b 7) out.sys_type }
    match new_cart_override file heap out with
    | .error e => .error e
    | .ok out =>
      let out := { out with mapper := (out.mapper + (b 7 &&& 0xF0)) % 65536 }
      .ok (new_cart_tail file heap out)

/-- A `CART` with every field zero: one of the values a fresh allocation can hold. -/
def CART.blank : CART :=
  { ROM_contents := [], type := .iNES, padding := 0, filesize := 0, PRG_ROM_len := 0,
    CHR_ROM_len := 0,
    mapper := 0, submapper := 0, mirroring := false, has_PRG_RAM := false,
    trainer_present := false, ignore_mirroring_bit := false, sys_type := .NESFAMI,
    NES2_fmt_override := false, PRG_RAM_size := 0, PRG_NVRAM_size := 0, CHR_RAM_size := 0,
    CHR_NVRAM_size := 0, timing_type := .RP2C02, VS_PPU_type := 0, VS_HW_type := 0,
    extended_console_type := 0, misc_rom_count := 0, default_expn_device := 0,
    TV_system := 0, bus_conflicts_specified := false, PRG_RAM_present := false,
    uncertain_type := false }

/-! ## mappers/MMC1.h -/

/-- The struct `MMC1_ctx`.  `fp` is the battery file: `none` is the `NULL`
handle, `some bytes` an open file with that content.  In memory `cart` lies at
offset 0, `fp` at 8 and the five registers at 16, 17, 18, 19 and 20. -/
structure MMC1_ctx where
  cart : CART
  fp : Option (List Nat)
  shift_register : Nat
  control : Nat
  chr_bank_0 : Nat
  chr_bank_1 : Nat
  prg_bank : Nat
  deriving DecidableEq, Repr

/-- What stops the emulator while the CPU runs. -/
inductive Fault where
  /-- The `default:` of `tick_cpu`: the message "Unknown opcode encountered!"
  with the address, the opcode and the two bytes that follow, then `abort()`. -/
  | IllegalOpcode (address opcode next0 next1 : Nat)
  /-- The `assert(prg_address < ctx->cart->filesize)` of `MMC1_cart_cpu_read` fails. -/
  | MapperAddressOverflow
  /-- The `new_address %= ctx->cart->PRG_ROM_len * 0x4000` with `PRG_ROM_len` zero. -/
  | DivideByZero
  /-- The read `ROM_contents[prg_address]` falls outside the buffer. -/
  | OutOfBounds
  /-- The calls `fseek(ctx->fp, ...)` and `fputc(value, ctx->fp)` are made on a
  pointer that is no stream.  It happens below `mmu_write`, which hands
  `cpu_write` the mapper context where it takes the `MMC`: `MMC1_cart_cpu_write`
  then runs on the `CART` and reads `type` and the padding as its `fp`. -/
  | BadMapperHandle
  deriving DecidableEq, Repr

/-- A downward scan `for(int i = n - 1; i > -1; i--)` for the character `tgt`:
the index of its last appearance among the first `n` characters. -/
def scan_down (s : List Char) (tgt : Char) : Nat → Option Nat
  | 0 => none
  | i + 1 => if s[i]? = some tgt then some i else scan_down s tgt i

/-- The function `strip_before`: the characters of `subj` after the last
appearance of `tgt`; `none` is its `NULL`. -/
def strip_before (subj : List Char) (tgt : Char) : Option (List Char) :=
  let old_len := subj.length + 1
  if old_len < 3 ∨ subj[old_len - 2]? = some tgt then none
  else
    match scan_down subj tgt (old_len - 1) with
    | none => none
    | some i => some (subj.drop (i + 1))

/-- The name of the battery file that `MMC1_new_ctx` builds from the name of
the ROM image: the part after the last slash, its extension replaced by `sav`. -/
def sav_filename (filename : List Char) : List Char :=
  let fn := match strip_before filename '/' with
    | none => filename
    | some fn => fn
  let len := fn.length + 1
  match scan_down fn '.' len with
  | none => fn ++ ['.'] ++ ['s', 'a', 'v']
  | some index_of => fn.take (index_of + 1) ++ ['s', 'a', 'v']

/-- The function `MMC1_new_ctx`.  The parameter `fopen` is the file system as
`fopen(fn, "r+")` sees it: the content of the file of that name, `none` when
it cannot be opened. -/
def MMC1_new_ctx (cart : CART) (filename : List Char)
    (fopen : List Char → Option (List Nat)) : MMC1_ctx :=
  { cart := cart,
    fp := if cart.has_PRG_RAM = true ∧ cart.PRG_RAM_size ≠ 0 then fopen (sav_filename filename)
          else none,
    shift_register := 0, control := 0, chr_bank_0 := 0, chr_bank_1 := 0, prg_bank := 0 }

/-- The calls `fseek(fp, off, SEEK_SET); fgetc(fp)` with the result returned as a
`uint8_t`: the byte at `off`, and past the end of the file `EOF`, that is `0xFF`. -/
def fgetc_at (f : List Nat) (off : Nat) : Nat :=
  match f[off]? with
  | some b => b % 256
  | none => 0xFF

/-- The calls `fseek(fp, off, SEEK_SET); fputc(value, fp)`: the byte at `off` is
replaced; a write past the end extends the file, the gap reading as zero. -/
def fputc_at (f : List Nat) (off value : Nat) : List Nat :=
  if off < f.length then f.set off (value % 256)
  else f ++ List.replicate (off - f.length) 0 ++ [value % 256]

/-- The function `MMC1_cart_cpu_write`. -/
def MMC1_cart_cpu_write (address value : Nat) (ctx : MMC1_ctx) : MMC1_ctx :=
  if 0x6000 ≤ address ∧ address ≤ 0x7FFF then
    match ctx.fp with
    | some f => { ctx with fp := some (fputc_at f (address - 0x6000) value) }
    | none => ctx
  else if 0x8000 ≤ address then
    if value &&& 0x80 = 0x80 then
      let ctx :=
        if 0x8000 ≤ address ∧ address ≤ 0x9FFF then
          { ctx with control := ctx.shift_register &&& 0x1F }
        else if 0xA000 ≤ address ∧ address ≤ 0xBFFF then
          { ctx with chr_bank_0 := ctx.shift_register &&& 0x1F }
        else if 0xC000 ≤ address ∧ address ≤ 0xDFFF then
          { ctx with chr_bank_1 := ctx.shift_register &&& 0x1F }
        else if 0xE000 ≤ address then
          { ctx with prg_bank := ctx.shift_register &&& 0x1F }
        else ctx
      { ctx with shift_register := 0 }
    else
      let ctx := { ctx with shift_register := (ctx.shift_register <<< 1) % 256 }
      { ctx with shift_register := ctx.shift_register ||| (value &&& 1) }
  else ctx

/-- The start of the PRG ROM in the file: `size_t prg_address = 16`, and 512
more when `trainer_present`. -/
def prg_base (cart : CART) : Nat :=
  if cart.trainer_present = true then 16 + 512 else 16

/-- The end of both PRG branches of `MMC1_cart_cpu_read`:
`assert(prg_address < ctx->cart->filesize); return ctx->cart->ROM_contents[prg_address]`. -/
def prg_fetch (cart : CART) (prg_address : Nat) : Except Fault Nat :=
  if prg_address < cart.filesize then
    match cart.ROM_contents[prg_address]? with
    | some b => .ok (b % 256)
    | none => .error .OutOfBounds
  else .error .MapperAddressOverflow

/-- The offset into the file that `MMC1_cart_cpu_read` computes for an address
of the first window, `0x8000 <= address <= 0xBFFF`. -/
def prg_address_lo (address : Nat) (ctx : MMC1_ctx) : Except Fault Nat :=
  let prg_address := prg_base ctx.cart
  let mode := (ctx.control >>> 2) &&& 0x3
  if mode = 0 ∨ mode = 1 then
    let new_address := (ctx.prg_bank &&& 0xE) * 0x8000
    let new_address := new_address + (address - 0x8000)
    if ctx.cart.PRG_ROM_len * 0x4000 = 0 then .error .DivideByZero
    else .ok (prg_address + new_address % (ctx.cart.PRG_ROM_len * 0x4000))
  else if mode = 2 then
    .ok (prg_address + (address - 0x8000))
  else if mode = 3 then
    let new_address := (ctx.prg_bank &&& 0xF) * 0x4000
    let new_address := new_address + (address - 0x8000)
    if ctx.cart.PRG_ROM_len * 0x4000 = 0 then .error .DivideByZero
    else .ok (prg_address + new_address % (ctx.cart.PRG_ROM_len * 0x4000))
  else .ok prg_address

/-- The offset into the file that `MMC1_cart_cpu_read` computes for an address
of the second window, `0xC000 <= address`.  In case 3 the term
`(address - 0xC000) + ((PRG_ROM_len-1) * 0x4000)` is an `int`, negative when
`PRG_ROM_len` is zero, and it is added to the `size_t` modulo `2 ^ 64`. -/
def prg_address_hi (address : Nat) (ctx : MMC1_ctx) : Except Fault Nat :=
  let prg_address := prg_base ctx.cart
  let mode := (ctx.control >>> 2) &&& 0x3
  if mode = 0 ∨ mode = 1 then
    let new_address := (ctx.prg_bank &&& 0xE) * 0x8000
    let new_address := new_address + (address - 0x8000)
    if ctx.cart.PRG_ROM_len * 0x4000 = 0 then .error .DivideByZero
    else .ok (prg_address + new_address % (ctx.cart.PRG_ROM_len * 0x4000))
  else if mode = 2 then
    let new_address := (ctx.prg_bank &&& 0xF) * 0x4000
    let new_address := new_address + (address - 0xC000)
    if ctx.cart.PRG_ROM_len * 0x4000 = 0 then .error .DivideByZero
    else .ok (prg_address + new_address % (ctx.cart.PRG_ROM_len * 0x4000))
  else if mode = 3 then
    let term : Int := ((address : Int) - 0xC000) + (((ctx.cart.PRG_ROM_len : Int) - 1) * 0x4000)
    .ok (((prg_address : Int) + term) % 2 ^ 64).toNat
  else .ok prg_address

/-- The function `MMC1_cart_cpu_read`. -/
def MMC1_cart_cpu_read (address : Nat) (ctx : MMC1_ctx) : Except Fault Nat :=
  if address < 0x6000 then
    .ok 0xFF
  else if 0x6000 ≤ address ∧ address ≤ 0x7FFF then
    match ctx.fp with
    | some f => .ok (fgetc_at f (address - 0x6000))
    | none => .ok 0xFF
  else if 0x8000 ≤ address ∧ address ≤ 0xBFFF then
    match prg_address_lo address ctx with
    | .ok prg_address => prg_fetch ctx.cart prg_address
    | .error e => .error e
  else if 0xC000 ≤ address then
    match prg_address_hi address ctx with
    | .ok prg_address => prg_fetch ctx.cart prg_address
    | .error e => .error e
  else .ok 0

/-! ## mappers/delegator.h -/

inductive MMC_TYPES where
  | MMC1
  deriving DecidableEq, Repr

/-- The struct `MMC`: the context and the tag the delegator switches on. -/
structure MMC where
  ctx : MMC1_ctx
  type : MMC_TYPES
  deriving DecidableEq, Repr

/-- The way `new_MMC` stops: the `default:` of its switch on the mapper number
prints "Fatal: unsupported mapper found" with the number and aborts. -/
inductive MapperError where
  | UnsupportedMapper (mapper : Nat)
  deriving DecidableEq, Repr

/-- The function `new_MMC`. -/
def new_MMC (cart : CART) (filename : List Char)
    (fopen : List Char → Option (List Nat)) : Except MapperError MMC :=
  if cart.mapper = 1 then
    .ok { ctx := MMC1_new_ctx cart filename fopen, type := .MMC1 }
  else .error (.UnsupportedMapper cart.mapper)

/-- The function `cpu_read` of the delegator. -/
def cpu_read (address : Nat) (mmc : MMC) : Except Fault Nat :=
  match mmc.type with
  | .MMC1 => MMC1_cart_cpu_read address mmc.ctx

/-- The function `cpu_write` of the delegator. -/
def cpu_write (address value : Nat) (mmc : MMC) : MMC :=
  match mmc.type with
  | .MMC1 => { mmc with ctx := MMC1_cart_cpu_write address value mmc.ctx }

/-- The function `cpu_read16`: two mapper reads, at `address` and at
`address + 1` (a `uint16_t` argument), put together on a little-endian host. -/
def cpu_read16 (address : Nat) (mmc : MMC) : Except Fault Nat :=
  match mmc.type with
  | .MMC1 =>
    match MMC1_cart_cpu_read address mmc.ctx with
    | .error e => .error e
    | .ok lo =>
      match MMC1_cart_cpu_read ((address + 1) % 65536) mmc.ctx with
      | .error e => .error e
      | .ok hi => .ok (lo + 256 * hi)

/-! ## mmu.h -/

/-- The struct `MMU`: the 2 KiB of work RAM (cell `i` for `i < 0x800`) and the mapper. -/
structure MMU where
  ram : Nat → Nat
  mmc : MMC

/-- The function `mmu_read`. -/
def mmu_read (address : Nat) (mmu : MMU) : Except Fault Nat :=
  if address ≤ 0x1FFF then
    .ok (mmu.ram (address % 0x800) % 256)
  else if 0x2000 ≤ address ∧ address ≤ 0x3FFF then
    .ok 0xFF
  else if 0x4000 ≤ address ∧ address ≤ 0x4017 then
    .ok 0xFF
  else if 0x4018 ≤ address ∧ address ≤ 0x401F then
    .ok 0xFF
  else
    cpu_read address mmu.mmc

/-- The value of a `ROM_types` constant: `iNES` is 0, `oldiNES` 1, `iNES07` 2,
`NES2` 3. -/
def ROM_types.code : ROM_types → Nat
  | .iNES => 0
  | .oldiNES => 1
  | .iNES07 => 2
  | .NES2 => 3

/-- The eight bytes at offset 8 of a `CART`, read as a pointer: `type` in the
low half, the padding in the high half.  This is what `ctx->fp` reads when the
`CART` stands in the place of an `MMC1_ctx`. -/
def cart_fp_word (cart : CART) : Nat :=
  cart.type.code + 4294967296 * (cart.padding % 4294967296)

/-- A `CART` read as an `MMC1_ctx`: the registers `shift_register`, `control`,
`chr_bank_0`, `chr_bank_1`, `prg_bank` at offsets 16-20 are the bytes 0-4 of
`filesize` (little-endian, at offset 16).  The fields `cart` and `fp` of the
view are not looked at by the register writes. -/
def cart_as_ctx (cart : CART) : MMC1_ctx :=
  { cart := cart, fp := none,
    shift_register := cart.filesize % 256,
    control := cart.filesize / 256 % 256,
    chr_bank_0 := cart.filesize / 65536 % 256,
    chr_bank_1 := cart.filesize / 16777216 % 256,
    prg_bank := cart.filesize / 4294967296 % 256 }

/-- The `CART` after the registers of the view `v` are stored back: bytes 0-4
of `filesize` are the five registers, the bytes above stay. -/
def ctx_into_cart (cart : CART) (v : MMC1_ctx) : CART :=
  { cart with filesize :=
      v.shift_register % 256 + 256 * (v.control % 256) + 65536 * (v.chr_bank_0 % 256)
        + 16777216 * (v.chr_bank_1 % 256) + 4294967296 * (v.prg_bank % 256)
        + 1099511627776 * (cart.filesize / 1099511627776) }

/-- The call `MMC1_cart_cpu_write(address, value, (MMC1_ctx*)p)` where `p`
points at a `CART`.  In the save-RAM window `ctx->fp != NULL` tests the eight
bytes `cart_fp_word`; when they are not zero `fseek` and `fputc` are called on
them.  From `0x8000` up the register writes go to the bytes of `filesize`. -/
def MMC1_cart_cpu_write_on_cart (address value : Nat) (cart : CART) : Except Fault CART :=
  if 0x6000 ≤ address ∧ address ≤ 0x7FFF then
    if cart_fp_word cart ≠ 0 then .error .BadMapperHandle
    else .ok cart
  else if 0x8000 ≤ address then
    .ok (ctx_into_cart cart (MMC1_cart_cpu_write address value (cart_as_ctx cart)))
  else .ok cart

/-- The call `cpu_write(address, value, mmu->mmc->ctx)` of `mmu_write`:
`cpu_write` takes an `MMC*` and is handed the pointer to the `MMC1_ctx`.  Its
`mmc->ctx` then reads offset 0 of the context, the pointer `cart`, and its
`mmc->type` reads the four bytes at offset 8, the low half of the pointer `fp`.
With `fp == NULL` the tag reads 0, the value of `MMC1`, and the `case` calls
`MMC1_cart_cpu_write` on the `CART`.  With a stream open the tag reads the low
half of the address of the stream; that half is taken to be other than zero, so
no `case` matches and `cpu_write` returns at once (a stream placed at a multiple
of `2^32` would read as `MMC1` and go the way of `NULL`; it is left out). -/
def cpu_write_on_ctx (address value : Nat) (ctx : MMC1_ctx) : Except Fault MMC1_ctx :=
  match ctx.fp with
  | some _ => .ok ctx
  | none =>
    match MMC1_cart_cpu_write_on_cart address value ctx.cart with
    | .ok cart => .ok { ctx with cart := cart }
    | .error f => .error f

/-- The function `mmu_write`.  Its last branch is the call
`cpu_write(address, value, mmu->mmc->ctx)`, see `cpu_write_on_ctx`. -/
def mmu_write (address value : Nat) (mmu : MMU) : Except Fault MMU :=
  if address ≤ 0x1FFF then
    .ok { mmu with ram := fun i => if i = address % 0x800 then value else mmu.ram i }
  else if 0x2000 ≤ address ∧ address ≤ 0x3FFF then
    .ok mmu
  else if 0x4000 ≤ address ∧ address ≤ 0x4017 then
    .ok mmu
  else if 0x4018 ≤ address ∧ address ≤ 0x401F then
    .ok mmu
  else
    match cpu_write_on_ctx address value mmu.mmc.ctx with
    | .ok ctx => .ok { mmu with mmc := { mmu.mmc with ctx := ctx } }
    | .error f => .error f

/-! ## cpu.h -/

/-- The struct `CPU`. -/
structure CPU where
  A : Nat
  X : Nat
  Y : Nat
  F : Nat
  SP : Nat
  PC : Nat
  mmu : MMU
  wait_cycles : Nat

/-- The end of a run: the fault and the CPU as it stands when the emulator stops. -/
structure Halt where
  fault : Fault
  cpu : CPU

/-- The expression `mmu_read(cpu->PC++, cpu->mmu)`: the program counter is
advanced before the read is made. -/
def mmu_read_pc (cpu : CPU) : Except Halt (Nat × CPU) :=
  let address := cpu.PC
  let cpu := { cpu with PC := (cpu.PC + 1) % 65536 }
  match mmu_read address cpu.mmu with
  | .ok value => .ok (value, cpu)
  | .error f => .error ⟨f, cpu⟩

/-- The expression `cpu_read(cpu->PC++, cpu->mmu->mmc)`. -/
def cpu_read_pc (cpu : CPU) : Except Halt (Nat × CPU) :=
  let address := cpu.PC
  let cpu := { cpu with PC := (cpu.PC + 1) % 65536 }
  match cpu_read address cpu.mmu.mmc with
  | .ok value => .ok (value, cpu)
  | .error f => .error ⟨f, cpu⟩

/-- The expression `cpu_read16(cpu->PC++, cpu->mmu->mmc)`. -/
def cpu_read16_pc (cpu : CPU) : Except Halt (Nat × CPU) :=
  let address := cpu.PC
  let cpu := { cpu with PC := (cpu.PC + 1) % 65536 }
  match cpu_read16 address cpu.mmu.mmc with
  | .ok value => .ok (value, cpu)
  | .error f => .error ⟨f, cpu⟩

/-- A bus read made while the CPU stands at `cpu`. -/
def mmu_read_at (address : Nat) (cpu : CPU) : Except Halt Nat :=
  match mmu_read address cpu.mmu with
  | .ok value => .ok value
  | .error f => .error ⟨f, cpu⟩

/-- The function `zpg_read`. -/
def zpg_read (cpu : CPU) : Except Halt (Nat × CPU) :=
  match mmu_read_pc cpu with
  | .error h => .error h
  | .ok (addr, cpu) =>
    match mmu_read_at addr cpu with
    | .error h => .error h
    | .ok value => .ok (value, cpu)

/-- The function `zpg_read_offset`. -/
def zpg_read_offset (cpu : CPU) (offset : Nat) : Except Halt (Nat × CPU) :=
  match mmu_read_pc cpu with
  | .error h => .error h
  | .ok (addr, cpu) =>
    let addr := (addr + offset) % 65536
    match mmu_read_at addr cpu with
    | .error h => .error h
    | .ok value => .ok (value, cpu)

/-- The function `JMP`. -/
def JMP (cpu : CPU) (is_absolute : Bool) : Except Halt CPU :=
  match mmu_read_pc cpu with
  | .error h => .error h
  | .ok (b0, cpu) =>
    match mmu_read_pc cpu with
    | .error h => .error h
    | .ok (b1, cpu) =>
      if is_absolute = true then
        .ok { cpu with PC := b0 + 256 * b1 }
      else
        let location := b0 + 256 * b1
        match mmu_read_at location cpu with
        | .error h => .error h
        | .ok c0 =>
          match mmu_read_at ((location + 1) % 65536) cpu with
          | .error h => .error h
          | .ok c1 => .ok { cpu with PC := c0 + 256 * c1 }

/-- The function `SEI`. -/
def SEI (cpu : CPU) : CPU :=
  { cpu with F := cpu.F ||| 4 }

/-- The function `CLD`. -/
def CLD (cpu : CPU) : CPU :=
  { cpu with F := cpu.F &&& 0xF7 }

/-- The function `STA`; its `address` parameter is a `uint16_t`. -/
def STA (cpu : CPU) (address : Nat) : Except Halt CPU :=
  match mmu_write (address % 65536) cpu.A cpu.mmu with
  | .ok mmu => .ok { cpu with mmu := mmu }
  | .error f => .error ⟨f, cpu⟩

/-- The function `LDA`. -/
def LDA (cpu : CPU) (value : Nat) : CPU :=
  let cpu := { cpu with A := value }
  let cpu := { cpu with F := cpu.F &&& (0x7F ||| (cpu.A &&& 0x80)) }
  { cpu with F := cpu.F &&& (0xFD ||| (if cpu.A ≠ 0 then 0 else 0x2)) }

/-- The function `STX`; its `address` parameter is a `uint16_t`. -/
def STX (cpu : CPU) (address : Nat) : Except Halt CPU :=
  match mmu_write (address % 65536) cpu.X cpu.mmu with
  | .ok mmu => .ok { cpu with mmu := mmu }
  | .error f => .error ⟨f, cpu⟩

/-- The function `LDX`. -/
def LDX (cpu : CPU) (value : Nat) : CPU :=
  let cpu := { cpu with X := value }
  let cpu := { cpu with F := cpu.F &&& (0x7F ||| (cpu.X &&& 0x80)) }
  { cpu with F := cpu.F &&& (0xFD ||| (if cpu.X ≠ 0 then 0 else 0x2)) }

/-- The function `TXS`. -/
def TXS (cpu : CPU) : CPU :=
  { cpu with SP := cpu.X }

/-- The function `EOR`. -/
def EOR (cpu : CPU) (value : Nat) : CPU :=
  let cpu := { cpu with A := cpu.A ^^^ value }
  let cpu := { cpu with F := cpu.F &&& (0x7F ||| (cpu.A &&& 0x80)) }
  { cpu with F := cpu.F &&& (0xFD ||| (if cpu.A ≠ 0 then 0 else 0x2)) }

/-- The function `ORA`. -/
def ORA (cpu : CPU) (value : Nat) : CPU :=
  let cpu := { cpu with A := cpu.A ||| value }
  let cpu := { cpu with F := cpu.F &&& (0x7F ||| (cpu.A &&& 0x80)) }
  { cpu with F := cpu.F &&& (0xFD ||| (if cpu.A ≠ 0 then 0 else 0x2)) }

/-- The opcodes that have a `case` in the `switch` of `tick_cpu`. -/
def supported_opcodes : List Nat :=
  [0x05, 0x49, 0x4C, 0x78, 0x85, 0x8D, 0x95, 0x99, 0x9A, 0x9D,
   0xA2, 0xA5, 0xA6, 0xA9, 0xAD, 0xB5, 0xB6, 0xB9, 0xBD, 0xD8]

/-- The `switch(inst)` of `tick_cpu`, entered after the fetch.  In the
`default:` the two `mmu_read` calls are arguments of the `printf`: they are
made before the message is printed. -/
def tick_cpu_switch (inst : Nat) (cpu : CPU) : Except Halt CPU :=
  if inst = 0x05 then do
    let (value, cpu) ← zpg_read cpu
    pure { ORA cpu value with wait_cycles := 2 }
  else if inst = 0x49 then do
    let (value, cpu) ← mmu_read_pc cpu
    pure { EOR cpu value with wait_cycles := 1 }
  else if inst = 0x4C then do
    let cpu ← JMP cpu true
    pure { cpu with wait_cycles := 2 }
  else if inst = 0x78 then
    pure { SEI cpu with wait_cycles := 1 }
  else if inst = 0x85 then do
    let (address, cpu) ← zpg_read cpu
    let cpu ← STA cpu address
    pure { cpu with wait_cycles := 2 }
  else if inst = 0x8D then do
    let (address, cpu) ← cpu_read16_pc cpu
    let cpu ← STA cpu address
    pure { cpu with PC := (cpu.PC + 1) % 65536 }
  else if inst = 0x95 then do
    let (address, cpu) ← zpg_read_offset cpu cpu.X
    let cpu ← STA cpu address
    pure { cpu with wait_cycles := 3 }
  else if inst = 0x99 then do
    let (address, cpu) ← cpu_read16_pc cpu
    let cpu ← STA cpu (address + cpu.Y)
    pure { cpu with PC := (cpu.PC + 1) % 65536, wait_cycles := 4 }
  else if inst = 0x9A then
    pure { TXS cpu with wait_cycles := 1 }
  else if inst = 0x9D then do
    let (address, cpu) ← cpu_read16_pc cpu
    let cpu ← STA cpu (address + cpu.X)
    pure { cpu with PC := (cpu.PC + 1) % 65536, wait_cycles := 4 }
  else if inst = 0xA2 then do
    let (value, cpu) ← cpu_read_pc cpu
    pure { LDX cpu value with wait_cycles := 1 }
  else if inst = 0xA5 then do
    let (value, cpu) ← zpg_read cpu
    pure { LDA cpu value with wait_cycles := 2 }
  else if inst = 0xA6 then do
    let (value, cpu) ← zpg_read cpu
    pure { LDX cpu value with wait_cycles := 2 }
  else if inst = 0xA9 then do
    let (value, cpu) ← mmu_read_pc cpu
    pure { LDA cpu value with wait_cycles := 1 }
  else if inst = 0xAD then do
    let (address, cpu) ← cpu_read16_pc cpu
    let value ← mmu_read_at (address % 65536) cpu
    let cpu := LDA cpu value
    pure { cpu with PC := (cpu.PC + 1) % 65536, wait_cycles := 3 }
  else if inst = 0xB5 then do
    let (value, cpu) ← zpg_read_offset cpu cpu.X
    pure { LDA cpu value with wait_cycles := 3 }
  else if inst = 0xB6 then do
    let (value, cpu) ← zpg_read_offset cpu cpu.Y
    pure { LDX cpu value with wait_cycles := 3 }
  else if inst = 0xB9 then do
    let (address, cpu) ← cpu_read16_pc cpu
    let value ← mmu_read_at ((address + cpu.Y) % 65536) cpu
    let cpu := LDA cpu value
    pure { cpu with PC := (cpu.PC + 1) % 65536, wait_cycles := 3 }
  else if inst = 0xBD then do
    let (address, cpu) ← cpu_read16_pc cpu
    let value ← mmu_read_at ((address + cpu.X) % 65536) cpu
    let cpu := LDA cpu value
    pure { cpu with PC := (cpu.PC + 1) % 65536, wait_cycles := 3 }
  else if inst = 0xD8 then
    pure { CLD cpu with wait_cycles := 1 }
  else do
    let next0 ← mmu_read_at cpu.PC cpu
    let next1 ← mmu_read_at ((cpu.PC + 1) % 65536) cpu
    throw ⟨.IllegalOpcode cpu.PC inst next0 next1, cpu⟩

/-- The function `tick_cpu`: the fetch `uint8_t inst = mmu_read(cpu->PC++, cpu->mmu)`,
then the `switch`. -/
def tick_cpu (cpu : CPU) : Except Halt CPU :=
  match mmu_read_pc cpu with
  | .error h => .error h
  | .ok (inst, cpu) => tick_cpu_switch inst cpu

/-! ## Concrete images and states -/

/-- A heap that reads as zero behind every buffer. -/
def zero_heap : Nat → Nat := fun _ => 0

/-- A 512-byte image: the signature, no PRG or CHR bank, mapper 1, and byte 7
equal to `0x0C`, bits 2 and 3 both set. -/
def both_bits_image : List Nat :=
  [0x4E, 0x45, 0x53, 0x1A, 0x00, 0x00, 0x10, 0x0C, 0, 0, 0, 0, 0, 0, 0, 0] ++ List.replicate 496 0

/-- A 16-byte image, a header and nothing else: the signature, one PRG bank,
mapper 1, and byte 7 equal to `0x08`, the NES 2.0 identifier. -/
def nes2_header_only : List Nat :=
  [0x4E, 0x45, 0x53, 0x1A, 0x01, 0x00, 0x10, 0x08, 0, 0, 0, 0, 0, 0, 0, 0]

/-- A 16-byte image, a header and nothing else: the signature, one PRG bank,
mapper 1, no dialect bit in byte 7. -/
def header_only : List Nat :=
  [0x4E, 0x45, 0x53, 0x1A, 0x01, 0x00, 0x10, 0x00, 0, 0, 0, 0, 0, 0, 0, 0]

/-- An 8-byte image: the first half of `header_only`. -/
def half_header : List Nat :=
  [0x4E, 0x45, 0x53, 0x1A, 0x01, 0x00, 0x10, 0x00]

/-- The mapper as `MMC1_new_ctx` leaves it for the cartridge `cart` when no
battery file can be opened. -/
def MMC1_ctx.fresh (cart : CART) : MMC1_ctx :=
  MMC1_new_ctx cart [] (fun _ => none)

/-- The cartridge `new_cart` returns for `header_only` (`CART.blank` where it
assigns nothing). -/
def header_only_cart : CART :=
  { CART.blank with ROM_contents := header_only, type := .iNES, filesize := 16,
                    PRG_ROM_len := 1, mapper := 1, PRG_RAM_size := 1 }

/-- A CPU about to fetch from `0x7FFF`, the last address of the save-RAM
window, on the cartridge `header_only_cart` without a battery file. -/
def cpu_at_7FFF : CPU :=
  { A := 0x11, X := 0x22, Y := 0x33, F := 0x44, SP := 0x55, PC := 0x7FFF,
    mmu := { ram := fun _ => 0, mmc := { ctx := MMC1_ctx.fresh header_only_cart, type := .MMC1 } },
    wait_cycles := 0 }

/-- The fault of a halted step, `none` when the step returns. -/
def halt_fault (r : Except Halt CPU) : Option Fault :=
  match r with
  | .error h => some h.fault
  | .ok _ => none

/-- A NES 2.0 image of 512 bytes: the signature, no PRG or CHR bank, mapper 1,
byte 7 equal to `0x08`. -/
def nes2_image : List Nat :=
  [0x4E, 0x45, 0x53, 0x1A, 0x00, 0x00, 0x10, 0x08, 0, 0, 0, 0, 0, 0, 0, 0]
    ++ List.replicate 496 0

/-- A CPU about to fetch from work RAM, where the byte `0xFF` stands at
address 0 and zero everywhere else. -/
def cpu_in_ram : CPU :=
  { A := 0x11, X := 0x22, Y := 0x33, F := 0x44, SP := 0x55, PC := 0x0000,
    mmu := { ram := fun i => if i = 0 then 0xFF else 0x00,
             mmc := { ctx := MMC1_ctx.fresh header_only_cart, type := .MMC1 } },
    wait_cycles := 0 }

/-- A CPU whose program counter `0x0200` stands before the operand bytes
`FF 00` of an indirect jump, the pointer `0x00FF`; work RAM holds `0x34` at
`0x00FF`, `0x12` at `0x0100` and `0x56` at `0x0000`. -/
def cpu_jmp_indirect : CPU :=
  { A := 0x11, X := 0x22, Y := 0x33, F := 0x44, SP := 0x55, PC := 0x0200,
    mmu := { ram := fun i =>
               if i = 0x200 then 0xFF else if i = 0x201 then 0x00
               else if i = 0x0FF then 0x34 else if i = 0x100 then 0x12
               else if i = 0x000 then 0x56 else 0x00,
             mmc := { ctx := MMC1_ctx.fresh header_only_cart, type := .MMC1 } },
    wait_cycles := 0 }

/-- A CPU at `0x0000` in work RAM before the bytes `4C 34 12`, an absolute jump
to `0x1234`. -/
def cpu_jmp_absolute : CPU :=
  { A := 0x11, X := 0x22, Y := 0x33, F := 0x44, SP := 0x55, PC := 0x0000,
    mmu := { ram := fun i =>
               if i = 0 then 0x4C else if i = 1 then 0x34 else if i = 2 then 0x12 else 0x00,
             mmc := { ctx := MMC1_ctx.fresh header_only_cart, type := .MMC1 } },
    wait_cycles := 0 }

/-- A 16-byte iNES header whose byte 9 says NTSC (bit 0 clear) and whose byte 10
says PAL (bits 0-1 equal to 2). -/
def ntsc_pal_header : List Nat :=
  [0x4E, 0x45, 0x53, 0x1A, 0x01, 0x00, 0x10, 0x00, 0, 0x00, 0x02, 0, 0, 0, 0, 0]

/-- A 16-byte iNES header whose byte 9 says PAL (bit 0 set) and whose byte 10
says NTSC (bits 0-1 equal to 0). -/
def pal_ntsc_header : List Nat :=
  [0x4E, 0x45, 0x53, 0x1A, 0x01, 0x00, 0x10, 0x00, 0, 0x01, 0x00, 0, 0, 0, 0, 0]

/-- A CPU at `0x6000` in the save-RAM window, where the battery file holds the
bytes `8D 00 02`, a store of the accumulator at `0x0200`; its wait-cycle counter
holds `w`. -/
def cpu_sta_absolute (w : Nat) : CPU :=
  { A := 0x11, X := 0x22, Y := 0x33, F := 0x44, SP := 0x55, PC := 0x6000,
    mmu := { ram := fun _ => 0,
             mmc := { ctx := { MMC1_ctx.fresh header_only_cart with fp := some [0x8D, 0x00, 0x02] },
                      type := .MMC1 } },
    wait_cycles := w }

/-- The cycle cost that the `case` of an opcode assigns to `wait_cycles`;
`none` for `0x8D`, whose case assigns nothing, and for an opcode without a case. -/
def cycle_cost (inst : Nat) : Option Nat :=
  if inst = 0x05 then some 2
  else if inst = 0x49 then some 1
  else if inst = 0x4C then some 2
  else if inst = 0x78 then some 1
  else if inst = 0x85 then some 2
  else if inst = 0x8D then none
  else if inst = 0x95 then some 3
  else if inst = 0x99 then some 4
  else if inst = 0x9A then some 1
  else if inst = 0x9D then some 4
  else if inst = 0xA2 then some 1
  else if inst = 0xA5 then some 2
  else if inst = 0xA6 then some 2
  else if inst = 0xA9 then some 1
  else if inst = 0xAD then some 3
  else if inst = 0xB5 then some 3
  else if inst = 0xB6 then some 3
  else if inst = 0xB9 then some 3
  else if inst = 0xBD then some 3
  else if inst = 0xD8 then some 1
  else none

/-- A cartridge whose file holds a 16-byte header and one whole PRG bank, every
byte `0xEA`: `PRG_ROM_len = 1`, no trainer, 16400 bytes. -/
def one_bank_cart : CART :=
  { CART.blank with ROM_contents := List.replicate 16400 0xEA, filesize := 16400,
                    PRG_ROM_len := 1, mapper := 1, PRG_RAM_size := 1 }

/-- The header `4E 45 53 1A 02 01 00 00` followed by zeros, 16 bytes: two PRG
banks, one CHR bank, no flags. -/
def two_one_header : List Nat :=
  [0x4E, 0x45, 0x53, 0x1A, 0x02, 0x01, 0x00, 0x00, 0, 0, 0, 0, 0, 0, 0, 0]

/-- A NES 2.0 image of 512 bytes with mapper nibbles in bytes 6, 7 and 8:
byte 6 is `0x10`, byte 7 is `0x28` (the identifier and high nibble 2), byte 8 is
`0x31` (submapper 3, mapper bits 8-11 equal to 1). -/
def nes2_mapper_image : List Nat :=
  [0x4E, 0x45, 0x53, 0x1A, 0x00, 0x00, 0x10, 0x28, 0x31, 0, 0, 0, 0, 0, 0, 0]
    ++ List.replicate 496 0

/-- A cartridge of three PRG banks behind a 16-byte header, no trainer: the
bytes of bank 0 are `0xA0`, of bank 1 `0xA1`, of bank 2 `0xA2`; 49168 bytes. -/
def three_bank_cart : CART :=
  { CART.blank with
      ROM_contents := List.replicate 16 0 ++ (List.replicate 0x4000 0xA0
        ++ (List.replicate 0x4000 0xA1 ++ List.replicate 0x4000 0xA2)),
      filesize := 49168, PRG_ROM_len := 3, mapper := 1, PRG_RAM_size := 1 }

/-- The mapper of `three_bank_cart` in 32 KiB mode (`control = 0`) with the
PRG-bank register equal to 2. -/
def three_bank_ctx : MMC1_ctx :=
  { MMC1_ctx.fresh three_bank_cart with control := 0, prg_bank := 2 }

/-- The number of bytes that the `case` of an opcode consumes, the opcode
included: one for the fetch and one for every `PC++` of the case; `none` for the
jump `0x4C`, which assigns the program counter, and for an opcode without a
case. -/
def instr_length (inst : Nat) : Option Nat :=
  if inst = 0x78 ∨ inst = 0x9A ∨ inst = 0xD8 then some 1
  else if inst = 0x05 ∨ inst = 0x49 ∨ inst = 0x85 ∨ inst = 0x95 ∨ inst = 0xA2 ∨ inst = 0xA5
      ∨ inst = 0xA6 ∨ inst = 0xA9 ∨ inst = 0xB5 ∨ inst = 0xB6 then some 2
  else if inst = 0x8D ∨ inst = 0x99 ∨ inst = 0x9D ∨ inst = 0xAD ∨ inst = 0xB9 ∨ inst = 0xBD
    then some 3
  else none

/-- A CPU at `0x0000` in work RAM before the two bytes `op 42`: an opcode with
the immediate operand `0x42`. -/
def cpu_immediate_in_ram (op : Nat) : CPU :=
  { A := 0x11, X := 0x22, Y := 0x33, F := 0x44, SP := 0x55, PC := 0x0000,
    mmu := { ram := fun i => if i = 0 then op else if i = 1 then 0x42 else 0x00,
             mmc := { ctx := MMC1_ctx.fresh header_only_cart, type := .MMC1 } },
    wait_cycles := 0 }

/-- A CPU at `0x0000` in work RAM before the bytes `85 10`, a store of the
accumulator `0x11` in the zero page at `0x10`; the cell `0x10` holds `0x20` and
every other cell of work RAM holds zero. -/
def cpu_sta_zero_page : CPU :=
  { A := 0x11, X := 0x22, Y := 0x33, F := 0x44, SP := 0x55, PC := 0x0000,
    mmu := { ram := fun i =>
               if i = 0 then 0x85 else if i = 1 then 0x10 else if i = 0x10 then 0x20 else 0x00,
             mmc := { ctx := MMC1_ctx.fresh header_only_cart, type := .MMC1 } },
    wait_cycles := 0 }

/-- A cartridge with battery-backed PRG RAM: `has_PRG_RAM` set and a PRG-RAM
size that is not zero. -/
def battery_cart : CART :=
  { CART.blank with has_PRG_RAM := true, PRG_RAM_size := 1, mapper := 1 }

/-- A file system that holds one file, `name`, with the bytes `content`. -/
def single_file (name : List Char) (content : List Nat) : List Char → Option (List Nat) :=
  fun n => if n = name then some content else none

/-- A run of bus writes `mmu_write(a, v)`, one after the other. -/
def mmu_write_all : List (Nat × Nat) → MMU → Except Fault MMU
  | [], mmu => .ok mmu
  | (a, v) :: rest, mmu =>
    match mmu_write a v mmu with
    | .ok mmu => mmu_write_all rest mmu
    | .error f => .error f

/-- A run of mapper writes `cpu_write(a, v, mmc)`, one after the other. -/
def cpu_write_all : List (Nat × Nat) → MMC → MMC
  | [], mmc => mmc
  | (a, v) :: rest, mmc => cpu_write_all rest (cpu_write a v mmc)

/-- The five data writes 1, 0, 1, 1, 0 and the commit at `0xE000`, the window of
`prg_bank`. -/
def bank_protocol : List (Nat × Nat) :=
  [(0xE000, 1), (0xE000, 0), (0xE000, 1), (0xE000, 1), (0xE000, 0), (0xE000, 0x80)]

/-- A CPU at `0x6000` in the save-RAM window, where the battery file holds the
bytes `8D 00 E0`, a store of the accumulator at `0xE000` in cartridge space. -/
def cpu_sta_cartridge : CPU :=
  { A := 0x11, X := 0x22, Y := 0x33, F := 0x44, SP := 0x55, PC := 0x6000,
    mmu := { ram := fun _ => 0,
             mmc := { ctx := { MMC1_ctx.fresh header_only_cart with fp := some [0x8D, 0x00, 0xE0] },
                      type := .MMC1 } },
    wait_cycles := 0 }

/-- A cartridge with a trainer and three PRG banks: a 16-byte header, the 512
bytes of the trainer and `3*0x4000` bytes of PRG ROM, 49680 bytes in all, where
the byte at offset `i` of the file is `i mod 251`. -/
def trainer_cart : CART :=
  { CART.blank with ROM_contents := (List.range 49680).map (fun i => i % 251),
                    filesize := 49680, PRG_ROM_len := 3, trainer_present := true,
                    mapper := 1, PRG_RAM_size := 1 }

/-- The two masks `F &= (0x7F | (r & 0x80)); F &= (0xFD | (r ? 0 : 0x2))` can only
clear bits: afterwards bit 7 of `F` is the old bit 7 and bit 7 of `r`, and bit 1 of
`F` is the old bit 1 and `r = 0`. -/
theorem flag_masks_bits (F r : Nat) :
    ((F &&& (0x7F ||| (r &&& 0x80))) &&& (0xFD ||| (if r ≠ 0 then 0 else 0x2))).testBit 7
        = (F.testBit 7 && r.testBit 7) ∧
    ((F &&& (0x7F ||| (r &&& 0x80))) &&& (0xFD ||| (if r ≠ 0 then 0 else 0x2))).testBit 1
        = (F.testBit 1 && decide (r = 0)) := by
  have h1 : Nat.testBit 127 7 = false := by decide
  have h2 : Nat.testBit 128 7 = true := by decide
  have h3 : Nat.testBit 253 7 = true := by decide
  have h4 : Nat.testBit 127 1 = true := by decide
  have h5 : Nat.testBit 253 1 = false := by decide
  have h6 : Nat.testBit 2 1 = true := by decide
  have h7 : Nat.testBit 0 1 = false := by decide
  have h8 : Nat.testBit 255 1 = true := by decide
  constructor
  · simp [Nat.testBit_and, Nat.testBit_or, h1, h2, h3]
  · by_cases hr : r = 0 <;> simp [Nat.testBit_and, Nat.testBit_or, h4, h5, h6, h7, h8, hr]

theorem LDA_flag_bits (cpu : CPU) (value : Nat) :
    (LDA cpu value).A = value ∧
    (LDA cpu value).F.testBit 7 = (cpu.F.testBit 7 && (LDA cpu value).A.testBit 7) ∧
    (LDA cpu value).F.testBit 1 = (cpu.F.testBit 1 && decide ((LDA cpu value).A = 0)) :=
  ⟨rfl, (flag_masks_bits cpu.F value).1, (flag_masks_bits cpu.F value).2⟩

theorem LDX_flag_bits (cpu : CPU) (value : Nat) :
    (LDX cpu value).X = value ∧
    (LDX cpu value).F.testBit 7 = (cpu.F.testBit 7 && (LDX cpu value).X.testBit 7) ∧
    (LDX cpu value).F.testBit 1 = (cpu.F.testBit 1 && decide ((LDX cpu value).X = 0)) :=
  ⟨rfl, (flag_masks_bits cpu.F value).1, (flag_masks_bits cpu.F value).2⟩

theorem ORA_flag_bits (cpu : CPU) (value : Nat) :
    (ORA cpu value).A = cpu.A ||| value ∧
    (ORA cpu value).F.testBit 7 = (cpu.F.testBit 7 && (ORA cpu value).A.testBit 7) ∧
    (ORA cpu value).F.testBit 1 = (cpu.F.testBit 1 && decide ((ORA cpu value).A = 0)) :=
  ⟨rfl, (flag_masks_bits cpu.F (cpu.A ||| value)).1, (flag_masks_bits cpu.F (cpu.A ||| value)).2⟩

theorem EOR_flag_bits (cpu : CPU) (value : Nat) :
    (EOR cpu value).A = cpu.A ^^^ value ∧
    (EOR cpu value).F.testBit 7 = (cpu.F.testBit 7 && (EOR cpu value).A.testBit 7) ∧
    (EOR cpu value).F.testBit 1 = (cpu.F.testBit 1 && decide ((EOR cpu value).A = 0)) :=
  ⟨rfl, (flag_masks_bits cpu.F (cpu.A ^^^ value)).1, (flag_masks_bits cpu.F (cpu.A ^^^ value)).2⟩

/-- C1, the code at the failing input.  From a flag byte of zero, which is
how `new_cpu` leaves it, none of `LDA`, `LDX`, `ORA`, `EOR` sets a flag: a
result of `0x00` leaves the zero flag (bit 1) clear and a result of `0x80`
leaves the negative flag (bit 7) clear; so does the step `A9 00` and the
step `A9 80` of `tick_cpu` run from work RAM. -/
theorem load_logic_flags_never_set (cpu : CPU) :
    (LDA { cpu with F := 0 } 0x00).A = 0x00 ∧ (LDA { cpu with F := 0 } 0x00).F.testBit 1 = false ∧
    (LDA { cpu with F := 0 } 0x80).A = 0x80 ∧ (LDA { cpu with F := 0 } 0x80).F.testBit 7 = false ∧
    (LDX { cpu with F := 0 } 0x00).X = 0x00 ∧ (LDX { cpu with F := 0 } 0x00).F.testBit 1 = false ∧
    (LDX { cpu with F := 0 } 0x80).X = 0x80 ∧ (LDX { cpu with F := 0 } 0x80).F.testBit 7 = false ∧
    (ORA { cpu with F := 0, A := 0 } 0x00).A = 0x00 ∧
    (ORA { cpu with F := 0, A := 0 } 0x00).F.testBit 1 = false ∧
    (ORA { cpu with F := 0, A := 0 } 0x80).A = 0x80 ∧
    (ORA { cpu with F := 0, A := 0 } 0x80).F.testBit 7 = false ∧
    (EOR { cpu with F := 0, A := 0x80 } 0x80).A = 0x00 ∧
    (EOR { cpu with F := 0, A := 0x80 } 0x80).F.testBit 1 = false ∧
    (EOR { cpu with F := 0, A := 0 } 0x80).A = 0x80 ∧
    (EOR { cpu with F := 0, A := 0 } 0x80).F.testBit 7 = false ∧
    (tick_cpu { cpu with F := 0, PC := 0,
                         mmu := { cpu.mmu with ram := fun i => if i = 0 then 0xA9 else 0x00 } }
      ).toOption.map (fun c => (c.A, c.F)) = some (0x00, 0) ∧
    (tick_cpu { cpu with F := 0, PC := 0,
                         mmu := { cpu.mmu with ram := fun i => if i = 0 then 0xA9 else 0x80 } }
      ).toOption.map (fun c => (c.A, c.F)) = some (0x80, 0) := by
  refine ⟨?_, ?_, ?_, ?_, ?_, ?_, ?_, ?_, ?_, ?_, ?_, ?_, ?_, ?_, ?_, ?_, ?_, ?_⟩ <;>
    simp [tick_cpu, mmu_read_pc, mmu_read, tick_cpu_switch, LDA, LDX, ORA, EOR, bind,
      Except.bind, pure, Except.pure, Except.toOption]

/-! ## The shift register of the mapper -/

theorem MMC1_data_write (ctx : MMC1_ctx) (a v : Nat) (ha : 0x8000 ≤ a) (hv : v &&& 0x80 = 0) :
    MMC1_cart_cpu_write a v ctx =
      { ctx with shift_register := ((ctx.shift_register <<< 1) % 256) ||| (v &&& 1) } := by
  have h1 : ¬ (0x6000 ≤ a ∧ a ≤ 0x7FFF) := by omega
  simp [MMC1_cart_cpu_write, h1, ha, hv]

/-- One data write, as arithmetic: the register is doubled modulo 256 and bit 0
of the value is added. -/
theorem shift_in_eq (s v : Nat) : ((s <<< 1) % 256) ||| (v &&& 1) = 2 * (s % 128) + v % 2 := by
  have h1 : (s <<< 1) % 256 = 2 ^ 1 * (s % 128) := by
    rw [Nat.shiftLeft_eq]; omega
  have h2 : v &&& 1 = v % 2 := Nat.and_one_is_mod v
  rw [h1, h2, ← Nat.mul_add_lt_is_or (by omega : v % 2 < 2 ^ 1)]

theorem five_bits_eq (b4 b3 b2 b1 b0 : Nat) (h4 : b4 < 2) (h3 : b3 < 2) (h2 : b2 < 2)
    (h1 : b1 < 2) (h0 : b0 < 2) :
    (b4 <<< 4) ||| (b3 <<< 3) ||| (b2 <<< 2) ||| (b1 <<< 1) ||| b0
      = 16 * b4 + 8 * b3 + 4 * b2 + 2 * b1 + b0 := by
  interval_cases b4 <;> interval_cases b3 <;> interval_cases b2 <;> interval_cases b1 <;>
    interval_cases b0 <;> rfl

theorem and_1F (x : Nat) : x &&& 0x1F = x % 32 := Nat.and_pow_two_sub_one_eq_mod x 5

/-- The register window of a commit write decides which banking register takes
the low five bits of the shift register. -/
theorem MMC1_commit_write (ctx : MMC1_ctx) (a v : Nat) (ha : 0x8000 ≤ a) (hv : v &&& 0x80 = 0x80) :
    (a ≤ 0x9FFF → (MMC1_cart_cpu_write a v ctx).control = ctx.shift_register &&& 0x1F) ∧
    (0xA000 ≤ a ∧ a ≤ 0xBFFF →
      (MMC1_cart_cpu_write a v ctx).chr_bank_0 = ctx.shift_register &&& 0x1F) ∧
    (0xC000 ≤ a ∧ a ≤ 0xDFFF →
      (MMC1_cart_cpu_write a v ctx).chr_bank_1 = ctx.shift_register &&& 0x1F) ∧
    (0xE000 ≤ a → (MMC1_cart_cpu_write a v ctx).prg_bank = ctx.shift_register &&& 0x1F) := by
  have h1 : ¬ (0x6000 ≤ a ∧ a ≤ 0x7FFF) := by omega
  refine ⟨?_, ?_, ?_, ?_⟩
  · intro h
    simp [MMC1_cart_cpu_write, h1, ha, hv, h]
  · intro h
    have h2 : ¬ (a ≤ 0x9FFF) := by omega
    simp [MMC1_cart_cpu_write, h1, ha, hv, h, h2]
  · intro h
    have h2 : ¬ (a ≤ 0x9FFF) := by omega
    have h3 : ¬ (0xA000 ≤ a ∧ a ≤ 0xBFFF) := by omega
    simp [MMC1_cart_cpu_write, h1, ha, hv, h, h2, h3]
  · intro h
    have h2 : ¬ (a ≤ 0x9FFF) := by omega
    have h3 : ¬ (0xA000 ≤ a ∧ a ≤ 0xBFFF) := by omega
    have h4 : ¬ (0xC000 ≤ a ∧ a ≤ 0xDFFF) := by omega
    simp [MMC1_cart_cpu_write, h1, ha, hv, h, h2, h3, h4]

/-- The shift register after five data writes, whatever it held before. -/
theorem five_data_writes (ctx : MMC1_ctx) (a4 a3 a2 a1 a0 v4 v3 v2 v1 v0 : Nat)
    (ha4 : 0x8000 ≤ a4) (ha3 : 0x8000 ≤ a3) (ha2 : 0x8000 ≤ a2) (ha1 : 0x8000 ≤ a1)
    (ha0 : 0x8000 ≤ a0)
    (hv4 : v4 &&& 0x80 = 0) (hv3 : v3 &&& 0x80 = 0) (hv2 : v2 &&& 0x80 = 0)
    (hv1 : v1 &&& 0x80 = 0) (hv0 : v0 &&& 0x80 = 0) :
    (MMC1_cart_cpu_write a0 v0 (MMC1_cart_cpu_write a1 v1 (MMC1_cart_cpu_write a2 v2
      (MMC1_cart_cpu_write a3 v3 (MMC1_cart_cpu_write a4 v4 ctx))))).shift_register &&& 0x1F
      = ((v4 &&& 1) <<< 4) ||| ((v3 &&& 1) <<< 3) ||| ((v2 &&& 1) <<< 2) |||
        ((v1 &&& 1) <<< 1) ||| (v0 &&& 1) := by
  rw [MMC1_data_write _ a0 v0 ha0 hv0, MMC1_data_write _ a1 v1 ha1 hv1,
    MMC1_data_write _ a2 v2 ha2 hv2, MMC1_data_write _ a3 v3 ha3 hv3,
    MMC1_data_write _ a4 v4 ha4 hv4]
  simp only [shift_in_eq, and_1F]
  rw [Nat.and_one_is_mod, Nat.and_one_is_mod, Nat.and_one_is_mod, Nat.and_one_is_mod,
    Nat.and_one_is_mod,
    five_bits_eq (v4 % 2) (v3 % 2) (v2 % 2) (v1 % 2) (v0 % 2) (by omega) (by omega) (by omega)
      (by omega) (by omega)]
  omega

/-- C3.  From every mapper state, five data writes (bit 7 clear) to addresses
from `0x8000` up, with values `v4, v3, v2, v1, v0`, then one commit write (bit 7
set) to an address of a register window, leave the banking register of that
window equal to `((v4&1)<<4)|((v3&1)<<3)|((v2&1)<<2)|((v1&1)<<1)|(v0&1)`:
`control` for `0x8000-0x9FFF`, `chr_bank_0` for `0xA000-0xBFFF`, `chr_bank_1`
for `0xC000-0xDFFF`, `prg_bank` from `0xE000` up. -/
theorem shift_register_protocol (ctx : MMC1_ctx) (a4 a3 a2 a1 a0 ac v4 v3 v2 v1 v0 vc : Nat)
    (ha4 : 0x8000 ≤ a4) (ha3 : 0x8000 ≤ a3) (ha2 : 0x8000 ≤ a2) (ha1 : 0x8000 ≤ a1)
    (ha0 : 0x8000 ≤ a0) (hac : 0x8000 ≤ ac)
    (hv4 : v4 &&& 0x80 = 0) (hv3 : v3 &&& 0x80 = 0) (hv2 : v2 &&& 0x80 = 0)
    (hv1 : v1 &&& 0x80 = 0) (hv0 : v0 &&& 0x80 = 0) (hvc : vc &&& 0x80 = 0x80) :
    (ac ≤ 0x9FFF →
      (MMC1_cart_cpu_write ac vc (MMC1_cart_cpu_write a0 v0 (MMC1_cart_cpu_write a1 v1
        (MMC1_cart_cpu_write a2 v2 (MMC1_cart_cpu_write a3 v3
          (MMC1_cart_cpu_write a4 v4 ctx)))))).control
        = ((v4 &&& 1) <<< 4) ||| ((v3 &&& 1) <<< 3) ||| ((v2 &&& 1) <<< 2) |||
          ((v1 &&& 1) <<< 1) ||| (v0 &&& 1)) ∧
    (0xA000 ≤ ac ∧ ac ≤ 0xBFFF →
      (MMC1_cart_cpu_write ac vc (MMC1_cart_cpu_write a0 v0 (MMC1_cart_cpu_write a1 v1
        (MMC1_cart_cpu_write a2 v2 (MMC1_cart_cpu_write a3 v3
          (MMC1_cart_cpu_write a4 v4 ctx)))))).chr_bank_0
        = ((v4 &&& 1) <<< 4) ||| ((v3 &&& 1) <<< 3) ||| ((v2 &&& 1) <<< 2) |||
          ((v1 &&& 1) <<< 1) ||| (v0 &&& 1)) ∧
    (0xC000 ≤ ac ∧ ac ≤ 0xDFFF →
      (MMC1_cart_cpu_write ac vc (MMC1_cart_cpu_write a0 v0 (MMC1_cart_cpu_write a1 v1
        (MMC1_cart_cpu_write a2 v2 (MMC1_cart_cpu_write a3 v3
          (MMC1_cart_cpu_write a4 v4 ctx)))))).chr_bank_1
        = ((v4 &&& 1) <<< 4) ||| ((v3 &&& 1) <<< 3) ||| ((v2 &&& 1) <<< 2) |||
          ((v1 &&& 1) <<< 1) ||| (v0 &&& 1)) ∧
    (0xE000 ≤ ac →
      (MMC1_cart_cpu_write ac vc (MMC1_cart_cpu_write a0 v0 (MMC1_cart_cpu_write a1 v1
        (MMC1_cart_cpu_write a2 v2 (MMC1_cart_cpu_write a3 v3
          (MMC1_cart_cpu_write a4 v4 ctx)))))).prg_bank
        = ((v4 &&& 1) <<< 4) ||| ((v3 &&& 1) <<< 3) ||| ((v2 &&& 1) <<< 2) |||
          ((v1 &&& 1) <<< 1) ||| (v0 &&& 1)) := by
  have h5 := five_data_writes ctx a4 a3 a2 a1 a0 v4 v3 v2 v1 v0 ha4 ha3 ha2 ha1 ha0
    hv4 hv3 hv2 hv1 hv0
  have hc := MMC1_commit_write (MMC1_cart_cpu_write a0 v0 (MMC1_cart_cpu_write a1 v1
    (MMC1_cart_cpu_write a2 v2 (MMC1_cart_cpu_write a3 v3
      (MMC1_cart_cpu_write a4 v4 ctx))))) ac vc hac hvc
  rw [h5] at hc
  exact hc

/-- C3, witness: the bits 1, 0, 1, 1, 0 written over a shift register that held
`0xFF`, then committed at `0xE000`, leave `prg_bank = 0x16`. -/
theorem shift_register_protocol_witness :
    (MMC1_cart_cpu_write 0xE000 0x80 (MMC1_cart_cpu_write 0x8000 0x00
      (MMC1_cart_cpu_write 0xFFFF 0x7F (MMC1_cart_cpu_write 0x8000 0x01
        (MMC1_cart_cpu_write 0xA000 0x02 (MMC1_cart_cpu_write 0x8000 0x01
          { MMC1_ctx.fresh CART.blank with shift_register := 0xFF })))))).prg_bank = 0x16 :=
  (shift_register_protocol { MMC1_ctx.fresh CART.blank with shift_register := 0xFF }
    0x8000 0xA000 0x8000 0xFFFF 0x8000 0xE000 0x01 0x02 0x01 0x7F 0x00 0x80
    (by decide) (by decide) (by decide) (by decide) (by decide) (by decide)
    (by decide) (by decide) (by decide) (by decide) (by decide) (by decide)).2.2.2 (by decide)

/-! ## Save RAM -/

theorem fputc_at_same (f : List Nat) (o v : Nat) : (fputc_at f o v)[o]? = some (v % 256) := by
  unfold fputc_at
  split
  · rename_i h
    simp [List.getElem?_set, h]
  · rename_i h
    have hlen : (f ++ List.replicate (o - f.length) 0).length = o := by
      simp; omega
    rw [List.getElem?_append_right (by omega), hlen]
    simp

theorem fputc_at_other (f : List Nat) (o v i : Nat) (hi : i < f.length) (hio : i ≠ o) :
    (fputc_at f o v)[i]? = f[i]? := by
  unfold fputc_at
  split
  · simp [List.getElem?_set, Ne.symm hio]
  · rw [List.append_assoc, List.getElem?_append_left hi]

/-- C5.  With a battery file open, for every offset `o < 0x2000` and every
byte `v`, the write `MMC1_cart_cpu_write(0x6000+o, v)` followed by the read
`MMC1_cart_cpu_read(0x6000+o)` returns `v`; the write puts `v` at offset `o` of
the file and leaves the other bytes of the file as they were. -/
theorem save_ram_round_trip (ctx : MMC1_ctx) (f : List Nat) (o v : Nat)
    (hfp : ctx.fp = some f) (ho : o < 0x2000) (hv : v < 256) :
    MMC1_cart_cpu_read (0x6000 + o) (MMC1_cart_cpu_write (0x6000 + o) v ctx) = .ok v ∧
    (∃ g, (MMC1_cart_cpu_write (0x6000 + o) v ctx).fp = some g ∧ g[o]? = some v ∧
      ∀ i, i < f.length → i ≠ o → g[i]? = f[i]?) := by
  have h1 : 0x6000 ≤ 0x6000 + o ∧ 0x6000 + o ≤ 0x7FFF := by omega
  have h2 : ¬ (0x6000 + o < 0x6000) := by omega
  have hw : MMC1_cart_cpu_write (0x6000 + o) v ctx = { ctx with fp := some (fputc_at f o v) } := by
    simp [MMC1_cart_cpu_write, h1, hfp]
  have hsame : (fputc_at f o v)[o]? = some v := by
    rw [fputc_at_same, Nat.mod_eq_of_lt hv]
  refine ⟨?_, fputc_at f o v, ?_, hsame, ?_⟩
  · rw [hw]
    simp [MMC1_cart_cpu_read, h1, h2, fgetc_at, hsame, Nat.mod_eq_of_lt hv]
  · rw [hw]
  · intro i hi hio
    exact fputc_at_other f o v i hi hio

/-- C5, witness: `0xAB` written at offset 5 of a three-byte battery file is read
back. -/
theorem save_ram_round_trip_witness :
    MMC1_cart_cpu_read (0x6000 + 5)
      (MMC1_cart_cpu_write (0x6000 + 5) 0xAB
        { MMC1_ctx.fresh CART.blank with fp := some [1, 2, 3] }) = .ok 0xAB :=
  (save_ram_round_trip { MMC1_ctx.fresh CART.blank with fp := some [1, 2, 3] } [1, 2, 3] 5 0xAB
    rfl (by decide) (by decide)).1

/-! ## The header parser -/

theorem rom_byte_lt (file : List Nat) (heap : Nat → Nat) (i : Nat) : rom_byte file heap i < 256 := by
  unfold rom_byte
  split <;> omega

theorem rom_byte_of_lt (file : List Nat) (heap : Nat → Nat) (i : Nat) (h : i < file.length) :
    rom_byte file heap i = file[i] % 256 := by
  simp [rom_byte, List.getElem?_eq_getElem h]

/-- A file that starts with the signature shows it to the parser. -/
theorem magic_word_of_take (file : List Nat) (heap : Nat → Nat) (h : file.take 4 = magic) :
    magic_word file heap = magic := by
  match file, h with
  | a :: b :: c :: d :: rest, h =>
    simp [magic] at h
    obtain ⟨ha, hb, hc, hd⟩ := h
    subst ha hb hc hd
    simp [magic_word, rom_byte, magic]
  | [], h => simp [magic] at h
  | [_], h => simp [magic] at h
  | [_, _], h => simp [magic] at h
  | [_, _, _], h => simp [magic] at h

set_option maxRecDepth 8192 in
/-- The two tests of `new_cart` on bits 2-3 of byte 7 are the same test. -/
theorem nes2_id_iff (b : Nat) (hb : b < 256) : b &&& 0x0C = 0x08 ↔ (b >>> 2) &&& 3 = 2 := by
  revert b
  decide

theorem nes2_PRG_ROM_len_eq (file : List Nat) (heap : Nat → Nat) :
    nes2_PRG_ROM_len file heap
      = rom_byte file heap 4 + ((rom_byte file heap 9 &&& 0xF) <<< 8) := by
  have h4 := rom_byte_lt file heap 4
  have h9 : rom_byte file heap 9 &&& 0xF < 16 := by
    have := Nat.and_pow_two_sub_one_eq_mod (rom_byte file heap 9) 4
    simp at this
    omega
  unfold nes2_PRG_ROM_len
  rw [Nat.shiftLeft_eq]
  omega

theorem nes2_CHR_ROM_len_eq (file : List Nat) (heap : Nat → Nat) :
    nes2_CHR_ROM_len file heap
      = rom_byte file heap 5 + ((rom_byte file heap 9 >>> 4) <<< 8) := by
  have h5 := rom_byte_lt file heap 5
  have h9 := rom_byte_lt file heap 9
  unfold nes2_CHR_ROM_len
  rw [Nat.shiftLeft_eq, Nat.shiftRight_eq_div_pow]
  omega

theorem new_cart_tail_fields (file : List Nat) (heap : Nat → Nat) (out : CART) :
    (new_cart_tail file heap out).type = out.type ∧
    (new_cart_tail file heap out).PRG_ROM_len = out.PRG_ROM_len ∧
    (new_cart_tail file heap out).CHR_ROM_len = out.CHR_ROM_len ∧
    (new_cart_tail file heap out).filesize = out.filesize ∧
    (new_cart_tail file heap out).ROM_contents = out.ROM_contents ∧
    (new_cart_tail file heap out).trainer_present = out.trainer_present ∧
    (new_cart_tail file heap out).uncertain_type = out.uncertain_type := by
  unfold new_cart_tail
  simp only
  split
  · split
    · simp
    · split <;> simp
  · simp

theorem new_cart_empty (heap : Nat → Nat) (raw : CART) :
    new_cart [] heap raw = .error .IoFailure := by
  simp [new_cart]

theorem new_cart_bad_magic (file : List Nat) (heap : Nat → Nat) (raw : CART)
    (hne : file ≠ []) (hm : magic_word file heap ≠ magic) :
    new_cart file heap raw = .error .InvalidImage := by
  have hlen : file.length ≠ 0 := by
    intro h; exact hne (List.length_eq_zero.mp h)
  simp [new_cart, hlen, hm]

/-- The header carries the NES 2.0 identifier and the predicted size exceeds the
file: the override block returns `NULL`, whatever the first switch chose. -/
theorem new_cart_corrupt (file : List Nat) (heap : Nat → Nat) (raw : CART)
    (hne : file ≠ []) (hm : magic_word file heap = magic)
    (h7 : rom_byte file heap 7 &&& 0x0C = 0x08) (hsz : file.length < filesize_pred file heap) :
    new_cart file heap raw = .error .CorruptImage := by
  have hlen : file.length ≠ 0 := by
    intro h; exact hne (List.length_eq_zero.mp h)
  have h7' := (nes2_id_iff _ (rom_byte_lt file heap 7)).mp h7
  simp [new_cart, hlen, hm, new_cart_override, h7', new_cart_type_switch, h7, hsz]

theorem new_cart_nes2 (file : List Nat) (heap : Nat → Nat) (raw : CART)
    (hne : file ≠ []) (hm : magic_word file heap = magic)
    (h7 : rom_byte file heap 7 &&& 0x0C = 0x08) (hsz : filesize_pred file heap ≤ file.length) :
    ∃ c, new_cart file heap raw = .ok c ∧ c.type = .NES2 ∧
      c.PRG_ROM_len = nes2_PRG_ROM_len file heap ∧ c.CHR_ROM_len = nes2_CHR_ROM_len file heap ∧
      c.filesize = file.length ∧ c.ROM_contents = file ∧
      c.trainer_present = decide (rom_byte file heap 6 &&& 4 ≠ 0) := by
  have hlen : file.length ≠ 0 := by
    intro h; exact hne (List.length_eq_zero.mp h)
  have h7' := (nes2_id_iff _ (rom_byte_lt file heap 7)).mp h7
  have hsz' : ¬ file.length < filesize_pred file heap := by omega
  simp [new_cart, hlen, hm, new_cart_override, h7', new_cart_type_switch, h7, hsz',
    new_cart_tail_fields]

/-- Without the NES 2.0 identifier in byte 7 nothing is checked after the
signature: a descriptor of a legacy dialect comes back, its ROM lengths the
bytes 4 and 5. -/
theorem new_cart_legacy (file : List Nat) (heap : Nat → Nat) (raw : CART)
    (hne : file ≠ []) (hm : magic_word file heap = magic)
    (h7 : rom_byte file heap 7 &&& 0x0C ≠ 0x08) :
    ∃ c, new_cart file heap raw = .ok c ∧ c.type ≠ .NES2 ∧
      c.PRG_ROM_len = rom_byte file heap 4 ∧ c.CHR_ROM_len = rom_byte file heap 5 ∧
      c.filesize = file.length ∧ c.ROM_contents = file ∧
      c.trainer_present = decide (rom_byte file heap 6 &&& 4 ≠ 0) := by
  have hlen : file.length ≠ 0 := by
    intro h; exact hne (List.length_eq_zero.mp h)
  have h7' : ¬ (rom_byte file heap 7 >>> 2 &&& 3 = 2) :=
    fun h => h7 ((nes2_id_iff _ (rom_byte_lt file heap 7)).mpr h)
  simp only [new_cart, hlen, hm, new_cart_override, h7', new_cart_type_switch, h7]
  simp only [ne_eq, not_true_eq_false, not_false_eq_true, ↓reduceIte, decide_False,
    Bool.false_eq_true, decide_not]
  split
  · simp [new_cart_tail_fields]
  · split
    · split <;> simp [new_cart_tail_fields]
    · simp [new_cart_tail_fields]

/-- The size check that `new_cart` does make: a NES 2.0 descriptor is returned
only when `512 + 8192*CHR_ROM_len + 16384*PRG_ROM_len` fits in the file. -/
theorem nes2_descriptor_fits (file : List Nat) (heap : Nat → Nat) (raw c : CART)
    (h : new_cart file heap raw = .ok c) (ht : c.type = .NES2) :
    512 + 8192 * c.CHR_ROM_len + 16384 * c.PRG_ROM_len ≤ c.filesize := by
  by_cases hne : file = []
  · rw [hne, new_cart_empty] at h
    cases h
  by_cases hm : magic_word file heap = magic
  · by_cases h7 : rom_byte file heap 7 &&& 0x0C = 0x08
    · by_cases hsz : file.length < filesize_pred file heap
      · rw [new_cart_corrupt file heap raw hne hm h7 hsz] at h
        cases h
      · obtain ⟨c', hc', _, hp, hch, hf, _⟩ :=
          new_cart_nes2 file heap raw hne hm h7 (by omega)
        rw [hc'] at h
        cases h
        rw [hp, hch, hf]
        unfold filesize_pred at hsz
        omega
    · obtain ⟨c', hc', ht', _⟩ := new_cart_legacy file heap raw hne hm h7
      rw [hc'] at h
      cases h
      exact absurd ht ht'
  · rw [new_cart_bad_magic file heap raw hne hm] at h
    cases h

/-! ## Claims on `new_cart` -/

/-- C6, counterexample.  The image `both_bits_image` starts with the signature,
has bits 2 and 3 of byte 7 both set and is as long as the predicted size, and
`new_cart` returns an archaic (`oldiNES`) descriptor marked uncertain for it, not
a NES 2.0 one. -/
theorem both_bits_image_is_archaic :
    both_bits_image.take 4 = magic ∧
    rom_byte both_bits_image zero_heap 7 &&& 0x0C = 0x0C ∧
    filesize_pred both_bits_image zero_heap ≤ both_bits_image.length ∧
    (new_cart both_bits_image zero_heap CART.blank).toOption.map
      (fun c => (c.type, c.uncertain_type)) = some (.oldiNES, true) := by
  set_option maxRecDepth 100000 in decide

/-- C6, amended.  For every image that starts with the signature, whose byte 7
has bit 3 set and bit 2 clear (`byte7 & 0x0C = 0x08`) and whose length is at
least `512 + 8192*CHR + 16384*PRG` with `PRG = byte4 + ((byte9 & 0x0F) << 8)` and
`CHR = byte5 + ((byte9 >> 4) << 8)`, `new_cart` returns a NES 2.0 descriptor with
PRG-ROM length `PRG` and CHR-ROM length `CHR`. -/
theorem nes2_selected (file : List Nat) (heap : Nat → Nat) (raw : CART)
    (hm : file.take 4 = magic)
    (h7 : rom_byte file heap 7 &&& 0x0C = 0x08)
    (hsz : 512 + 8192 * (rom_byte file heap 5 + ((rom_byte file heap 9 >>> 4) <<< 8))
            + 16384 * (rom_byte file heap 4 + ((rom_byte file heap 9 &&& 0x0F) <<< 8))
            ≤ file.length) :
    ∃ c, new_cart file heap raw = .ok c ∧ c.type = .NES2 ∧
      c.PRG_ROM_len = rom_byte file heap 4 + ((rom_byte file heap 9 &&& 0x0F) <<< 8) ∧
      c.CHR_ROM_len = rom_byte file heap 5 + ((rom_byte file heap 9 >>> 4) <<< 8) := by
  have hne : file ≠ [] := by
    intro h; rw [h] at hm; simp [magic] at hm
  have hsz' : filesize_pred file heap ≤ file.length := by
    unfold filesize_pred
    rw [nes2_PRG_ROM_len_eq, nes2_CHR_ROM_len_eq]
    exact hsz
  obtain ⟨c, hc, ht, hp, hch, _⟩ :=
    new_cart_nes2 file heap raw hne (magic_word_of_take file heap hm) h7 hsz'
  exact ⟨c, hc, ht, by rw [hp, nes2_PRG_ROM_len_eq], by rw [hch, nes2_CHR_ROM_len_eq]⟩

/-- C6, witness: the 512-byte image `nes2_image` is parsed as NES 2.0. -/
theorem nes2_selected_witness :
    ∃ c, new_cart nes2_image zero_heap CART.blank = .ok c ∧ c.type = .NES2 ∧
      c.PRG_ROM_len = 0 ∧ c.CHR_ROM_len = 0 := by
  set_option maxRecDepth 100000 in
  obtain ⟨c, hc, ht, hp, hch⟩ :=
    nes2_selected nes2_image zero_heap CART.blank (by decide) (by decide) (by decide)
  exact ⟨c, hc, ht, hp.trans (by decide), hch.trans (by decide)⟩

/-- C7, counterexample.  The image `nes2_header_only` starts with the signature,
carries the NES 2.0 identifier in byte 7 and is shorter than the predicted size;
`new_cart` fails on it with `CorruptImage` and returns no legacy descriptor. -/
theorem nes2_header_only_is_corrupt :
    nes2_header_only.take 4 = magic ∧
    rom_byte nes2_header_only zero_heap 7 &&& 0x0C = 0x08 ∧
    nes2_header_only.length < filesize_pred nes2_header_only zero_heap ∧
    new_cart nes2_header_only zero_heap CART.blank = .error .CorruptImage := by
  decide

/-- C7, amended.  For every image that starts with the signature, whose byte 7
carries the NES 2.0 identifier (`byte7 & 0x0C = 0x08`) and whose length is
smaller than the predicted size `512 + 8192*CHR + 16384*PRG`, `new_cart` fails
with `CorruptImage` and returns no descriptor: the demotion to iNES made by the
dialect switch does not survive the override check. -/
theorem nes2_too_short_is_corrupt (file : List Nat) (heap : Nat → Nat) (raw : CART)
    (hm : file.take 4 = magic)
    (h7 : rom_byte file heap 7 &&& 0x0C = 0x08)
    (hsz : file.length
            < 512 + 8192 * (rom_byte file heap 5 + ((rom_byte file heap 9 >>> 4) <<< 8))
              + 16384 * (rom_byte file heap 4 + ((rom_byte file heap 9 &&& 0x0F) <<< 8))) :
    new_cart file heap raw = .error .CorruptImage ∧
    ¬ ∃ c, new_cart file heap raw = .ok c := by
  have hne : file ≠ [] := by
    intro h; rw [h] at hm; simp [magic] at hm
  have hsz' : file.length < filesize_pred file heap := by
    unfold filesize_pred
    rw [nes2_PRG_ROM_len_eq, nes2_CHR_ROM_len_eq]
    exact hsz
  have h := new_cart_corrupt file heap raw hne (magic_word_of_take file heap hm) h7 hsz'
  refine ⟨h, ?_⟩
  rintro ⟨c, hc⟩
  rw [h] at hc
  cases hc

/-- C7, witness: the image `nes2_header_only`. -/
theorem nes2_too_short_is_corrupt_witness :
    new_cart nes2_header_only zero_heap CART.blank = .error .CorruptImage :=
  (nes2_too_short_is_corrupt nes2_header_only zero_heap CART.blank (by decide) (by decide)
    (by decide)).1

/-- What the signature check does hold to.  For every non-empty image whose
first four bytes, as `new_cart` reads them, are not `0x4E, 0x45, 0x53, 0x1A`,
`new_cart` fails with `InvalidImage` and returns no descriptor; and every image
for which it returns a descriptor shows those four bytes.  For an image of four
bytes or more, each a byte, the four bytes read are the first four bytes of the
image; for a shorter one they run past its end. -/
theorem magic_check (file : List Nat) (heap : Nat → Nat) (raw : CART) :
    (file ≠ [] → magic_word file heap ≠ magic →
      new_cart file heap raw = .error .InvalidImage ∧ ¬ ∃ c, new_cart file heap raw = .ok c) ∧
    (∀ c, new_cart file heap raw = .ok c → magic_word file heap = magic) ∧
    (4 ≤ file.length → (∀ b ∈ file, b < 256) → magic_word file heap = file.take 4) := by
  refine ⟨?_, ?_, ?_⟩
  · intro hne hm
    have h := new_cart_bad_magic file heap raw hne hm
    refine ⟨h, ?_⟩
    rintro ⟨c, hc⟩
    rw [h] at hc
    cases hc
  · intro c hc
    by_contra hm
    by_cases hne : file = []
    · rw [hne, new_cart_empty] at hc
      cases hc
    · rw [new_cart_bad_magic file heap raw hne hm] at hc
      cases hc
  · intro hlen hb
    match file, hlen, hb with
    | a :: b :: c :: d :: rest, _, hb =>
      have ha := hb a (by simp)
      have hb' := hb b (by simp)
      have hc := hb c (by simp)
      have hd := hb d (by simp)
      simp [magic_word, rom_byte, Nat.mod_eq_of_lt ha, Nat.mod_eq_of_lt hb',
        Nat.mod_eq_of_lt hc, Nat.mod_eq_of_lt hd]

/-- Five bytes whose fourth is `0x1B` are refused. -/
theorem magic_check_witness :
    new_cart [0x4E, 0x45, 0x53, 0x1B, 0x01] zero_heap CART.blank = .error .InvalidImage ∧
    ¬ ∃ c, new_cart [0x4E, 0x45, 0x53, 0x1B, 0x01] zero_heap CART.blank = .ok c :=
  (magic_check [0x4E, 0x45, 0x53, 0x1B, 0x01] zero_heap CART.blank).1 (by decide) (by decide)

/-- An image shorter than 512 bytes is shorter than every predicted size. -/
theorem lt_filesize_pred (file : List Nat) (heap : Nat → Nat) (h : file.length < 512) :
    file.length < filesize_pred file heap := by
  unfold filesize_pred
  omega

/-- C9, the code at the failing input.  The image `half_header` is 8 bytes
long and starts with the signature; `new_cart` does not fail on it: whatever
lies behind the buffer, it returns a legacy descriptor with one PRG bank for a
file of 8 bytes, built from header bytes 8 to 15 read past the end of the file. -/
theorem half_header_is_accepted (heap : Nat → Nat) (raw : CART) :
    half_header.length < 16 ∧ half_header.take 4 = magic ∧
    ∃ c, new_cart half_header heap raw = .ok c ∧ c.type ≠ .NES2 ∧ c.PRG_ROM_len = 1 ∧
      c.filesize = 8 := by
  obtain ⟨c, hc, ht, hp, _, hf, _⟩ := new_cart_legacy half_header heap raw (by decide)
    (by simp [magic_word, rom_byte, half_header, magic]) (by simp [rom_byte, half_header])
  refine ⟨by decide, by decide, c, hc, ht, ?_, ?_⟩
  · rw [hp]; simp [rom_byte, half_header]
  · rw [hf]; rfl

/-- What `new_cart` does with an image shorter than the 16-byte header.  It is
rejected in three cases: it is empty (read failure); the four bytes read at its
start are not the signature (`InvalidImage`); byte 7 as read carries the NES 2.0
identifier (`CorruptImage`).  In every other case a legacy descriptor is
returned. -/
theorem short_file_outcome (file : List Nat) (heap : Nat → Nat) (raw : CART)
    (hlen : file.length < 16) :
    (file = [] → new_cart file heap raw = .error .IoFailure) ∧
    (file ≠ [] → magic_word file heap ≠ magic →
      new_cart file heap raw = .error .InvalidImage) ∧
    (file ≠ [] → magic_word file heap = magic → rom_byte file heap 7 &&& 0x0C = 0x08 →
      new_cart file heap raw = .error .CorruptImage) ∧
    (file ≠ [] → magic_word file heap = magic → rom_byte file heap 7 &&& 0x0C ≠ 0x08 →
      ∃ c, new_cart file heap raw = .ok c ∧ c.type ≠ .NES2 ∧
        c.PRG_ROM_len = rom_byte file heap 4 ∧ c.CHR_ROM_len = rom_byte file heap 5 ∧
        c.filesize = file.length) := by
  refine ⟨?_, ?_, ?_, ?_⟩
  · intro h
    rw [h, new_cart_empty]
  · intro hne hm
    exact new_cart_bad_magic file heap raw hne hm
  · intro hne hm h7
    exact new_cart_corrupt file heap raw hne hm h7 (lt_filesize_pred file heap (by omega))
  · intro hne hm h7
    obtain ⟨c, hc, ht, hp, hch, hf, _⟩ := new_cart_legacy file heap raw hne hm h7
    exact ⟨c, hc, ht, hp, hch, hf⟩

/-- C10, the code at the failing input.  For the 16-byte image `header_only`
(one PRG bank declared, no dialect bit) `new_cart` returns an iNES descriptor
with `PRG_ROM_len = 1` and `filesize = 16`, whatever lies behind the buffer:
`PRG_ROM_len*16384 + CHR_ROM_len*8192 + 16` is 16400, more than the file size. -/
theorem header_only_breaks_size_invariant (heap : Nat → Nat) (raw : CART) :
    ∃ c, new_cart header_only heap raw = .ok c ∧ c.type ≠ .NES2 ∧
      c.PRG_ROM_len = 1 ∧ c.CHR_ROM_len = 0 ∧ c.trainer_present = false ∧ c.filesize = 16 ∧
      ¬ (c.PRG_ROM_len * 16384 + c.CHR_ROM_len * 8192 + 16 ≤ c.filesize) := by
  obtain ⟨c, hc, ht, hp, hch, hf, _, htr⟩ := new_cart_legacy header_only heap raw (by decide)
    (by simp [magic_word, rom_byte, header_only, magic]) (by simp [rom_byte, header_only])
  have hp' : c.PRG_ROM_len = 1 := by rw [hp]; simp [rom_byte, header_only]
  have hch' : c.CHR_ROM_len = 0 := by rw [hch]; simp [rom_byte, header_only]
  have hf' : c.filesize = 16 := by rw [hf]; rfl
  have h6 : rom_byte header_only heap 6 = 16 := by simp [rom_byte, header_only]
  have htr' : c.trainer_present = false := by rw [htr, h6]; decide
  refine ⟨c, hc, ht, hp', hch', htr', hf', ?_⟩
  rw [hp', hch', hf']
  decide

/-! ## Claims on the mapper reads and on the CPU step -/

/-- C4, the code at the failing input.  `new_cart` accepts the 16-byte image
`header_only` with mapper number 1 and `new_MMC` builds its mapper; the offset
`MMC1_cart_cpu_read` computes for address `0x8000` is 16, which is the file
size, so the bounds assertion fails; it fails as well for the read of the reset
vector at `0xFFFC`, where the offset is `16 + 0x3FFC`. -/
theorem header_only_read_fails_assert :
    new_cart header_only zero_heap CART.blank = .ok header_only_cart ∧
    header_only_cart.mapper = 1 ∧
    new_MMC header_only_cart [] (fun _ => none)
      = .ok { ctx := MMC1_ctx.fresh header_only_cart, type := .MMC1 } ∧
    prg_address_lo 0x8000 (MMC1_ctx.fresh header_only_cart) = .ok 16 ∧
    (MMC1_ctx.fresh header_only_cart).cart.filesize = 16 ∧
    MMC1_cart_cpu_read 0x8000 (MMC1_ctx.fresh header_only_cart)
      = .error .MapperAddressOverflow ∧
    prg_address_hi 0xFFFC (MMC1_ctx.fresh header_only_cart) = .ok (16 + 0x3FFC) ∧
    cpu_read16 0xFFFC { ctx := MMC1_ctx.fresh header_only_cart, type := .MMC1 }
      = .error .MapperAddressOverflow := by
  decide

/-- With no PRG bank declared the bank arithmetic of the first window takes a
remainder modulo zero. -/
theorem zero_banks_divide_by_zero (ctx : MMC1_ctx) (address : Nat)
    (h0 : ctx.cart.PRG_ROM_len = 0) (hmode : (ctx.control >>> 2) &&& 0x3 ≠ 2)
    (ha : 0x8000 ≤ address ∧ address ≤ 0xBFFF) :
    MMC1_cart_cpu_read address ctx = .error .DivideByZero := by
  have h1 : ¬ address < 0x6000 := by omega
  have h2 : ¬ (0x6000 ≤ address ∧ address ≤ 0x7FFF) := by omega
  have hm : (ctx.control >>> 2) &&& 0x3 < 4 := by
    have := Nat.and_pow_two_sub_one_eq_mod (ctx.control >>> 2) 2
    simp at this
    omega
  have hlo : prg_address_lo address ctx = .error .DivideByZero := by
    unfold prg_address_lo
    simp only [h0]
    by_cases hA : (ctx.control >>> 2) &&& 0x3 = 0 ∨ (ctx.control >>> 2) &&& 0x3 = 1
    · simp [hA]
    · have h3 : (ctx.control >>> 2) &&& 0x3 = 3 := by omega
      simp [h3]
  simp [MMC1_cart_cpu_read, h1, h2, ha, hlo]

/-- C2, the code at the failing input.  The CPU `cpu_at_7FFF` fetches `0xFF`,
which is no supported opcode, from the save-RAM window of the cartridge
`header_only_cart`; the step halts, but not with `IllegalOpcode`: the `default:`
reads the two bytes after the opcode for its message, and the first of these
reads, at `0x8000`, fails the bounds assertion of the mapper before the message
is printed. -/
theorem unknown_opcode_halts_on_mapper_fault :
    mmu_read cpu_at_7FFF.PC cpu_at_7FFF.mmu = .ok 0xFF ∧
    0xFF ∉ supported_opcodes ∧
    halt_fault (tick_cpu cpu_at_7FFF) = some .MapperAddressOverflow := by
  decide

theorem tick_cpu_switch_default (inst : Nat) (cpu : CPU) (h : inst ∉ supported_opcodes) :
    tick_cpu_switch inst cpu =
      (match mmu_read cpu.PC cpu.mmu with
       | .error f => .error ⟨f, cpu⟩
       | .ok next0 =>
         match mmu_read ((cpu.PC + 1) % 65536) cpu.mmu with
         | .error f => .error ⟨f, cpu⟩
         | .ok next1 => .error ⟨.IllegalOpcode cpu.PC inst next0 next1, cpu⟩) := by
  simp only [supported_opcodes, List.mem_cons, List.mem_singleton, not_or, List.not_mem_nil,
    or_false] at h
  obtain ⟨h1, h2, h3, h4, h5, h6, h7, h8, h9, h10, h11, h12, h13, h14, h15, h16, h17, h18,
    h19, h20⟩ := h
  unfold tick_cpu_switch
  simp only [h1, h2, h3, h4, h5, h6, h7, h8, h9, h10, h11, h12, h13, h14, h15, h16, h17, h18,
    h19, h20, ↓reduceIte]
  simp only [bind, Except.bind, mmu_read_at, throw, throwThe, MonadExceptOf.throw]
  cases mmu_read cpu.PC cpu.mmu with
  | error f => rfl
  | ok n0 =>
    cases mmu_read ((cpu.PC + 1) % 65536) cpu.mmu with
    | error f => rfl
    | ok n1 => rfl

/-- What the `default:` of `tick_cpu` does hold to.  For every CPU state in
which the bus read at the program counter gives a byte that is not a supported
opcode, `tick_cpu` halts and does not return; in the halted state `A`, `X`, `Y`,
the flag byte, the stack pointer, work RAM and the mapper are unchanged and the
program counter has advanced by 1 (modulo 65536).  When the bus can read the two
bytes after the opcode, the halt is `IllegalOpcode`, with the address after the
opcode, the opcode and those two bytes. -/
theorem unknown_opcode_is_fatal (cpu : CPU) (inst : Nat)
    (hfetch : mmu_read cpu.PC cpu.mmu = .ok inst) (hunk : inst ∉ supported_opcodes) :
    ∃ h, tick_cpu cpu = .error h ∧
      h.cpu.A = cpu.A ∧ h.cpu.X = cpu.X ∧ h.cpu.Y = cpu.Y ∧ h.cpu.F = cpu.F ∧
      h.cpu.SP = cpu.SP ∧ h.cpu.mmu = cpu.mmu ∧ h.cpu.PC = (cpu.PC + 1) % 65536 ∧
      (∀ next0 next1, mmu_read ((cpu.PC + 1) % 65536) cpu.mmu = .ok next0 →
        mmu_read ((cpu.PC + 2) % 65536) cpu.mmu = .ok next1 →
        h.fault = .IllegalOpcode ((cpu.PC + 1) % 65536) inst next0 next1) := by
  have h2 : ((cpu.PC + 1) % 65536 + 1) % 65536 = (cpu.PC + 2) % 65536 := by omega
  unfold tick_cpu mmu_read_pc
  simp only [hfetch, tick_cpu_switch_default _ _ hunk, h2]
  cases h0 : mmu_read ((cpu.PC + 1) % 65536) cpu.mmu with
  | error f =>
    refine ⟨_, rfl, rfl, rfl, rfl, rfl, rfl, rfl, rfl, ?_⟩
    intro n0 n1 hn0
    cases hn0
  | ok n0 =>
    cases h1 : mmu_read ((cpu.PC + 2) % 65536) cpu.mmu with
    | error f =>
      refine ⟨_, rfl, rfl, rfl, rfl, rfl, rfl, rfl, rfl, ?_⟩
      intro n0 n1 _ hn1
      cases hn1
    | ok n1 =>
      refine ⟨_, rfl, rfl, rfl, rfl, rfl, rfl, rfl, rfl, ?_⟩
      intro m0 m1 hm0 hm1
      cases hm0
      cases hm1
      rfl

/-- The byte `0xFF` fetched from work RAM at address 0 ends the run with
`IllegalOpcode`. -/
theorem unknown_opcode_is_fatal_witness :
    ∃ h, tick_cpu cpu_in_ram = .error h ∧ h.cpu.A = 0x11 ∧ h.cpu.F = 0x44 ∧ h.cpu.PC = 1 ∧
      h.fault = .IllegalOpcode 1 0xFF 0 0 := by
  obtain ⟨h, ht, ha, _, _, hf, _, _, hpc, hfault⟩ :=
    unknown_opcode_is_fatal cpu_in_ram 0xFF (by decide) (by decide)
  exact ⟨h, ht, ha, hf, hpc, hfault 0 0 (by decide) (by decide)⟩

/-! ## The bus -/

/-- A read of work RAM: addresses up to `0x1FFF` go to cell `address % 0x800`. -/
theorem mmu_read_ram (mmu : MMU) (a : Nat) (ha : a < 0x2000) :
    mmu_read a mmu = .ok (mmu.ram (a % 0x800) % 256) := by
  have h : a ≤ 0x1FFF := by omega
  simp [mmu_read, h]

/-- A write of work RAM: only cell `address % 0x800` changes, the mapper is not touched. -/
theorem mmu_write_ram (mmu : MMU) (a v : Nat) (ha : a < 0x2000) :
    mmu_write a v mmu
      = .ok { mmu with ram := fun i => if i = a % 0x800 then v else mmu.ram i } := by
  have h : a ≤ 0x1FFF := by omega
  simp [mmu_write, h]

/-- C11.  For all addresses `a` and `a'` below `0x2000` and every byte `v`, the
write `mmu_write(a, v)` succeeds, and afterwards `mmu_read(a')` returns `v` when
`a' mod 0x800 = a mod 0x800` and what it returned before the write otherwise. -/
theorem work_ram_mirror (mmu : MMU) (a a' v : Nat) (ha : a < 0x2000) (ha' : a' < 0x2000)
    (hv : v < 256) :
    ∃ mmu', mmu_write a v mmu = .ok mmu' ∧
      (a' % 0x800 = a % 0x800 → mmu_read a' mmu' = .ok v) ∧
      (a' % 0x800 ≠ a % 0x800 → mmu_read a' mmu' = mmu_read a' mmu) := by
  refine ⟨_, mmu_write_ram mmu a v ha, ?_, ?_⟩
  · intro h
    rw [mmu_read_ram _ a' ha']
    simp [h, Nat.mod_eq_of_lt hv]
  · intro h
    rw [mmu_read_ram _ a' ha', mmu_read_ram _ a' ha']
    simp [h]

/-- C11, witness: a write at `0x0005` is read back at the mirror `0x1805` and is
not seen at `0x1806`. -/
theorem work_ram_mirror_witness :
    ∃ mmu', mmu_write 0x0005 0xAB cpu_in_ram.mmu = .ok mmu' ∧
      mmu_read 0x1805 mmu' = .ok 0xAB ∧
      mmu_read 0x1806 mmu' = mmu_read 0x1806 cpu_in_ram.mmu := by
  obtain ⟨mmu', hw, hsame, _⟩ :=
    work_ram_mirror cpu_in_ram.mmu 0x0005 0x1805 0xAB (by decide) (by decide) (by decide)
  obtain ⟨mmu'', hw', _, hother⟩ :=
    work_ram_mirror cpu_in_ram.mmu 0x0005 0x1806 0xAB (by decide) (by decide) (by decide)
  rw [hw] at hw'
  cases hw'
  exact ⟨mmu', hw, hsame (by decide), hother (by decide)⟩

/-- C12.  For every address in `0x2000-0x3FFF` or `0x4000-0x401F`, whatever the
state, `mmu_read` returns `0xFF` and `mmu_write` with any value returns the bus as
it was: work RAM and the mapper (shift register, banking registers, battery
file) are unchanged. -/
theorem peripheral_windows_inert (mmu : MMU) (a v : Nat)
    (ha : (0x2000 ≤ a ∧ a ≤ 0x3FFF) ∨ (0x4000 ≤ a ∧ a ≤ 0x401F)) :
    mmu_read a mmu = .ok 0xFF ∧ mmu_write a v mmu = .ok mmu := by
  have h1 : ¬ a ≤ 0x1FFF := by omega
  by_cases h2 : 0x2000 ≤ a ∧ a ≤ 0x3FFF
  · simp [mmu_read, mmu_write, h1, h2]
  · by_cases h3 : 0x4000 ≤ a ∧ a ≤ 0x4017
    · simp [mmu_read, mmu_write, h1, h2, h3]
    · have h4 : 0x4018 ≤ a ∧ a ≤ 0x401F := by omega
      simp [mmu_read, mmu_write, h1, h2, h3, h4]

/-- C12, witness: the address `0x2002` on the bus of `cpu_in_ram`. -/
theorem peripheral_windows_inert_witness :
    mmu_read 0x2002 cpu_in_ram.mmu = .ok 0xFF ∧
    mmu_write 0x2002 0x80 cpu_in_ram.mmu = .ok cpu_in_ram.mmu :=
  peripheral_windows_inert cpu_in_ram.mmu 0x2002 0x80 (Or.inl (by decide))

/-- C14.  For every cartridge descriptor `new_MMC` yields a mapper if and only
if the mapper number is 1; for every other number it stops with
`UnsupportedMapper` and yields no mapper. -/
theorem new_MMC_iff (cart : CART) (filename : List Char)
    (fopen : List Char → Option (List Nat)) :
    ((∃ mmc, new_MMC cart filename fopen = .ok mmc) ↔ cart.mapper = 1) ∧
    (cart.mapper ≠ 1 →
      new_MMC cart filename fopen = .error (.UnsupportedMapper cart.mapper) ∧
      ¬ ∃ mmc, new_MMC cart filename fopen = .ok mmc) := by
  by_cases h : cart.mapper = 1
  · simp [new_MMC, h]
  · simp [new_MMC, h]

/-- C19.  For every mapper state, every address `a` from `0x8000` up and
every value with bit 7 set, `MMC1_cart_cpu_write` sets the banking register of
the window of `a` to the low five bits of the shift register (`control` for
`0x8000-0x9FFF`, `chr_bank_0` for `0xA000-0xBFFF`, `chr_bank_1` for
`0xC000-0xDFFF`, `prg_bank` for `0xE000-0xFFFF`), leaves the other three banking
registers, the cartridge and the battery file as they were, and leaves the shift
register equal to 0; a second commit to the same window then stores 0 there. -/
theorem commit_pulse (ctx : MMC1_ctx) (a v : Nat) (ha : 0x8000 ≤ a)
    (hv : v &&& 0x80 = 0x80) :
    (MMC1_cart_cpu_write a v ctx).shift_register = 0 ∧
    (MMC1_cart_cpu_write a v ctx).cart = ctx.cart ∧
    (MMC1_cart_cpu_write a v ctx).fp = ctx.fp ∧
    (a ≤ 0x9FFF →
      (MMC1_cart_cpu_write a v ctx).control = ctx.shift_register &&& 0x1F ∧
      (MMC1_cart_cpu_write a v ctx).chr_bank_0 = ctx.chr_bank_0 ∧
      (MMC1_cart_cpu_write a v ctx).chr_bank_1 = ctx.chr_bank_1 ∧
      (MMC1_cart_cpu_write a v ctx).prg_bank = ctx.prg_bank ∧
      (MMC1_cart_cpu_write a v (MMC1_cart_cpu_write a v ctx)).control = 0) ∧
    (0xA000 ≤ a ∧ a ≤ 0xBFFF →
      (MMC1_cart_cpu_write a v ctx).chr_bank_0 = ctx.shift_register &&& 0x1F ∧
      (MMC1_cart_cpu_write a v ctx).control = ctx.control ∧
      (MMC1_cart_cpu_write a v ctx).chr_bank_1 = ctx.chr_bank_1 ∧
      (MMC1_cart_cpu_write a v ctx).prg_bank = ctx.prg_bank ∧
      (MMC1_cart_cpu_write a v (MMC1_cart_cpu_write a v ctx)).chr_bank_0 = 0) ∧
    (0xC000 ≤ a ∧ a ≤ 0xDFFF →
      (MMC1_cart_cpu_write a v ctx).chr_bank_1 = ctx.shift_register &&& 0x1F ∧
      (MMC1_cart_cpu_write a v ctx).control = ctx.control ∧
      (MMC1_cart_cpu_write a v ctx).chr_bank_0 = ctx.chr_bank_0 ∧
      (MMC1_cart_cpu_write a v ctx).prg_bank = ctx.prg_bank ∧
      (MMC1_cart_cpu_write a v (MMC1_cart_cpu_write a v ctx)).chr_bank_1 = 0) ∧
    (0xE000 ≤ a →
      (MMC1_cart_cpu_write a v ctx).prg_bank = ctx.shift_register &&& 0x1F ∧
      (MMC1_cart_cpu_write a v ctx).control = ctx.control ∧
      (MMC1_cart_cpu_write a v ctx).chr_bank_0 = ctx.chr_bank_0 ∧
      (MMC1_cart_cpu_write a v ctx).chr_bank_1 = ctx.chr_bank_1 ∧
      (MMC1_cart_cpu_write a v (MMC1_cart_cpu_write a v ctx)).prg_bank = 0) := by
  have h1 : ¬ (0x6000 ≤ a ∧ a ≤ 0x7FFF) := by omega
  by_cases w1 : a ≤ 0x9FFF
  · have w2 : ¬ (0xA000 ≤ a ∧ a ≤ 0xBFFF) := by omega
    have w3 : ¬ (0xC000 ≤ a ∧ a ≤ 0xDFFF) := by omega
    have w4 : ¬ (0xE000 ≤ a) := by omega
    simp [MMC1_cart_cpu_write, h1, ha, hv, w1, w2, w3, w4]
  · by_cases w2 : 0xA000 ≤ a ∧ a ≤ 0xBFFF
    · have w3 : ¬ (0xC000 ≤ a ∧ a ≤ 0xDFFF) := by omega
      have w4 : ¬ (0xE000 ≤ a) := by omega
      simp [MMC1_cart_cpu_write, h1, ha, hv, w1, w2, w3, w4]
    · by_cases w3 : 0xC000 ≤ a ∧ a ≤ 0xDFFF
      · have w4 : ¬ (0xE000 ≤ a) := by omega
        simp [MMC1_cart_cpu_write, h1, ha, hv, w1, w2, w3, w4]
      · have w4 : 0xE000 ≤ a := by omega
        simp [MMC1_cart_cpu_write, h1, ha, hv, w1, w2, w3, w4]

/-- C19, witness: a commit at `0xA000` over a shift register holding `0x2B`. -/
theorem commit_pulse_witness :
    (MMC1_cart_cpu_write 0xA000 0x80
      { MMC1_ctx.fresh CART.blank with shift_register := 0x2B, prg_bank := 7 }).chr_bank_0 = 0x0B ∧
    (MMC1_cart_cpu_write 0xA000 0x80
      { MMC1_ctx.fresh CART.blank with shift_register := 0x2B, prg_bank := 7 }).prg_bank = 7 ∧
    (MMC1_cart_cpu_write 0xA000 0x80
      { MMC1_ctx.fresh CART.blank with shift_register := 0x2B, prg_bank := 7 }).shift_register
      = 0 := by
  have h := commit_pulse { MMC1_ctx.fresh CART.blank with shift_register := 0x2B, prg_bank := 7 }
    0xA000 0x80 (by decide) (by decide)
  obtain ⟨h0, _, _, _, h2, _⟩ := h
  obtain ⟨hc, _, _, hp, _⟩ := h2 (by decide)
  exact ⟨hc.trans (by decide), hp, h0⟩

/-! ## Jumps -/

/-- C15, counterexample.  The pointer of `cpu_jmp_indirect` is `0x00FF`, low
byte `0xFF`; the bus holds `0x34` at `0x00FF`, `0x56` at `0x0000`, the start of
the page, and `0x12` at `0x0100`.  `JMP` in indirect mode loads `0x1234`: the
high byte comes from `p + 1`, not from the start of the page. -/
theorem indirect_jump_crosses_page :
    mmu_read 0x0200 cpu_jmp_indirect.mmu = .ok 0xFF ∧
    mmu_read 0x0201 cpu_jmp_indirect.mmu = .ok 0x00 ∧
    mmu_read 0x00FF cpu_jmp_indirect.mmu = .ok 0x34 ∧
    mmu_read 0x0000 cpu_jmp_indirect.mmu = .ok 0x56 ∧
    mmu_read 0x0100 cpu_jmp_indirect.mmu = .ok 0x12 ∧
    (JMP cpu_jmp_indirect false).toOption.map (fun c => c.PC) = some 0x1234 := by
  decide

/-- C15, amended.  For every pointer `p`, read little-endian from the two bytes
at the program counter, `JMP` in indirect mode loads the program counter with
the low byte read from `p` and the high byte read from `p + 1` (modulo 65536),
also when the low byte of `p` is `0xFF`; nothing else of the CPU changes. -/
theorem indirect_jump_reads_next (cpu : CPU) (b0 b1 c0 c1 : Nat)
    (h0 : mmu_read cpu.PC cpu.mmu = .ok b0)
    (h1 : mmu_read ((cpu.PC + 1) % 65536) cpu.mmu = .ok b1)
    (hc0 : mmu_read (b0 + 256 * b1) cpu.mmu = .ok c0)
    (hc1 : mmu_read ((b0 + 256 * b1 + 1) % 65536) cpu.mmu = .ok c1) :
    JMP cpu false = .ok { cpu with PC := c0 + 256 * c1 } := by
  simp [JMP, mmu_read_pc, mmu_read_at, h0, h1, hc0, hc1]

/-- C15, witness: the jump of `cpu_jmp_indirect`. -/
theorem indirect_jump_reads_next_witness :
    JMP cpu_jmp_indirect false = .ok { cpu_jmp_indirect with PC := 0x34 + 256 * 0x12 } :=
  indirect_jump_reads_next cpu_jmp_indirect 0xFF 0x00 0x34 0x12 (by decide) (by decide)
    (by decide) (by decide)

/-- Every value the mapper returns is a byte. -/
theorem MMC1_cart_cpu_read_lt (address : Nat) (ctx : MMC1_ctx) (v : Nat)
    (h : MMC1_cart_cpu_read address ctx = .ok v) : v < 256 := by
  unfold MMC1_cart_cpu_read at h
  have hf : ∀ p, prg_fetch ctx.cart p = .ok v → v < 256 := by
    intro p hp
    unfold prg_fetch at hp
    split at hp
    · split at hp
      · cases hp
        omega
      · cases hp
    · cases hp
  split at h
  · cases h; decide
  · split at h
    · split at h
      · cases h
        unfold fgetc_at
        split <;> omega
      · cases h; decide
    · split at h
      · split at h
        · exact hf _ h
        · cases h
      · split at h
        · split at h
          · exact hf _ h
          · cases h
        · cases h; decide

/-- Every value the bus returns is a byte. -/
theorem mmu_read_lt (address : Nat) (mmu : MMU) (v : Nat)
    (h : mmu_read address mmu = .ok v) : v < 256 := by
  unfold mmu_read at h
  split at h
  · cases h; omega
  · split at h
    · cases h; decide
    · split at h
      · cases h; decide
      · split at h
        · cases h; decide
        · unfold cpu_read at h
          exact MMC1_cart_cpu_read_lt _ _ _ h

/-- Two bytes put together little-endian: `lo | (hi << 8)` is `lo + 256 * hi`. -/
theorem lor_shiftLeft_8 (lo hi : Nat) (hlo : lo < 256) : lo ||| (hi <<< 8) = lo + 256 * hi := by
  rw [Nat.shiftLeft_eq, Nat.lor_comm, Nat.mul_comm hi,
    ← Nat.mul_add_lt_is_or (by omega : lo < 2 ^ 8)]
  omega

/-- C16.  For every CPU state with the byte `0x4C` at the program counter `P`,
where `lo` and `hi` are the bus reads at `P+1` and `P+2` (addresses modulo
65536), one `tick_cpu` returns with the program counter equal to
`lo | (hi << 8)` and with `A`, `X`, `Y`, the flag byte, the stack pointer, work
RAM and the mapper unchanged. -/
theorem absolute_jump (cpu : CPU) (lo hi : Nat)
    (hop : mmu_read cpu.PC cpu.mmu = .ok 0x4C)
    (hlo : mmu_read ((cpu.PC + 1) % 65536) cpu.mmu = .ok lo)
    (hhi : mmu_read ((cpu.PC + 2) % 65536) cpu.mmu = .ok hi) :
    ∃ cpu', tick_cpu cpu = .ok cpu' ∧ cpu'.PC = lo ||| (hi <<< 8) ∧
      cpu'.A = cpu.A ∧ cpu'.X = cpu.X ∧ cpu'.Y = cpu.Y ∧ cpu'.F = cpu.F ∧ cpu'.SP = cpu.SP ∧
      cpu'.mmu = cpu.mmu := by
  have h2 : ((cpu.PC + 1) % 65536 + 1) % 65536 = (cpu.PC + 2) % 65536 := by omega
  refine ⟨{ cpu with PC := lo + 256 * hi, wait_cycles := 2 }, ?_, ?_, rfl, rfl, rfl, rfl, rfl, rfl⟩
  · simp [tick_cpu, tick_cpu_switch, mmu_read_pc, JMP, hop, hlo, hhi, h2, bind, Except.bind,
      pure, Except.pure]
  · exact (lor_shiftLeft_8 lo hi (mmu_read_lt _ _ _ hlo)).symm

/-- C16, witness: the bytes `4C 34 12` in work RAM send the program counter to
`0x1234`. -/
theorem absolute_jump_witness :
    ∃ cpu', tick_cpu cpu_jmp_absolute = .ok cpu' ∧ cpu'.PC = 0x1234 ∧ cpu'.A = 0x11 ∧
      cpu'.F = 0x44 ∧ cpu'.mmu = cpu_jmp_absolute.mmu := by
  obtain ⟨cpu', ht, hpc, ha, _, _, hf, _, hm⟩ :=
    absolute_jump cpu_jmp_absolute 0x34 0x12 (by decide) (by decide) (by decide)
  exact ⟨cpu', ht, hpc.trans (by decide), ha, hf, hm⟩

/-- A write to cartridge space goes through `cpu_write_on_ctx`. -/
theorem mmu_write_cart (mmu : MMU) (a v : Nat) (ha : 0x4020 ≤ a) :
    mmu_write a v mmu =
      (match cpu_write_on_ctx a v mmu.mmc.ctx with
       | .ok ctx => .ok { mmu with mmc := { mmu.mmc with ctx := ctx } }
       | .error f => .error f) := by
  have h1 : ¬ a ≤ 0x1FFF := by omega
  have h2 : ¬ (0x2000 ≤ a ∧ a ≤ 0x3FFF) := by omega
  have h3 : ¬ (0x4000 ≤ a ∧ a ≤ 0x4017) := by omega
  have h4 : ¬ (0x4018 ≤ a ∧ a ≤ 0x401F) := by omega
  simp only [mmu_write, h1, h2, h3, h4, if_false]

/-- The call with the wrong handle leaves the battery file and the five
registers of the mapper as they are: it writes to the `CART` or not at all. -/
theorem cpu_write_on_ctx_registers (a v : Nat) (ctx ctx' : MMC1_ctx)
    (h : cpu_write_on_ctx a v ctx = .ok ctx') :
    ctx'.fp = ctx.fp ∧ ctx'.shift_register = ctx.shift_register ∧
    ctx'.control = ctx.control ∧ ctx'.chr_bank_0 = ctx.chr_bank_0 ∧
    ctx'.chr_bank_1 = ctx.chr_bank_1 ∧ ctx'.prg_bank = ctx.prg_bank := by
  unfold cpu_write_on_ctx at h
  split at h
  · cases h
    exact ⟨rfl, rfl, rfl, rfl, rfl, rfl⟩
  · split at h
    · cases h
      exact ⟨rfl, rfl, rfl, rfl, rfl, rfl⟩
    · cases h

/-- A bus write returns, whatever the address, but for one case: a write to
the save-RAM window without a battery file, when `type` and the padding of the
`CART` do not read as a `NULL` pointer. -/
theorem mmu_write_returns (mmu : MMU) (a v : Nat)
    (h : ¬ (0x6000 ≤ a ∧ a ≤ 0x7FFF ∧ mmu.mmc.ctx.fp = none ∧ cart_fp_word mmu.mmc.ctx.cart ≠ 0)) :
    ∃ mmu', mmu_write a v mmu = .ok mmu' := by
  by_cases ha : 0x4020 ≤ a
  · rw [mmu_write_cart mmu a v ha]
    unfold cpu_write_on_ctx
    cases hfp : mmu.mmc.ctx.fp with
    | some f => exact ⟨_, rfl⟩
    | none =>
      simp only [MMC1_cart_cpu_write_on_cart]
      by_cases h6 : 0x6000 ≤ a ∧ a ≤ 0x7FFF
      · have hw : cart_fp_word mmu.mmc.ctx.cart = 0 := by
          by_contra hne
          exact h ⟨h6.1, h6.2, hfp, hne⟩
        simp only [h6, and_self, if_true, hw, ne_eq, not_true_eq_false, if_false]
        exact ⟨_, rfl⟩
      · simp only [h6, if_false]
        by_cases h8 : 0x8000 ≤ a
        · simp only [h8, if_true]
          exact ⟨_, rfl⟩
        · simp only [h8, if_false]
          exact ⟨_, rfl⟩
  · unfold mmu_write
    split
    · exact ⟨_, rfl⟩
    · split
      · exact ⟨_, rfl⟩
      · split
        · exact ⟨_, rfl⟩
        · split
          · exact ⟨_, rfl⟩
          · omega

/-- C13, the code at the failing input.  For every address from `0x4020` up a
bus read is the read of the bus's mapper, but a bus write is not the write of
that mapper.  `cpu_write` on the mapper runs `MMC1_cart_cpu_write` on the
mapper's context; `mmu_write` hands `cpu_write` the context in the place of the
mapper, and whenever it returns, the battery file and the five registers of the
bus's mapper are what they were.  Without a battery file a write from `0x8000`
up lands in the bytes of `filesize` of the `CART`.  With a battery file open the
mapper's own write to the save-RAM window stores the byte in the file, which a
bus write, by the third clause, leaves as it was. -/
theorem bus_write_misses_mapper (mmu : MMU) (a v : Nat) (ha : 0x4020 ≤ a) :
    mmu_read a mmu = MMC1_cart_cpu_read a mmu.mmc.ctx ∧
    (cpu_write a v mmu.mmc).ctx = MMC1_cart_cpu_write a v mmu.mmc.ctx ∧
    (∀ mmu', mmu_write a v mmu = .ok mmu' →
      mmu'.ram = mmu.ram ∧ mmu'.mmc.type = mmu.mmc.type ∧
      mmu'.mmc.ctx.fp = mmu.mmc.ctx.fp ∧
      mmu'.mmc.ctx.shift_register = mmu.mmc.ctx.shift_register ∧
      mmu'.mmc.ctx.control = mmu.mmc.ctx.control ∧
      mmu'.mmc.ctx.chr_bank_0 = mmu.mmc.ctx.chr_bank_0 ∧
      mmu'.mmc.ctx.chr_bank_1 = mmu.mmc.ctx.chr_bank_1 ∧
      mmu'.mmc.ctx.prg_bank = mmu.mmc.ctx.prg_bank) ∧
    (mmu.mmc.ctx.fp = none → 0x8000 ≤ a →
      ∃ mmu', mmu_write a v mmu = .ok mmu' ∧
        mmu'.mmc.ctx.cart = ctx_into_cart mmu.mmc.ctx.cart
          (MMC1_cart_cpu_write a v (cart_as_ctx mmu.mmc.ctx.cart))) ∧
    (∀ f, mmu.mmc.ctx.fp = some f → 0x6000 ≤ a → a ≤ 0x7FFF →
      (cpu_write a v mmu.mmc).ctx.fp = some (fputc_at f (a - 0x6000) v)) := by
  have h1 : ¬ a ≤ 0x1FFF := by omega
  have h2 : ¬ (0x2000 ≤ a ∧ a ≤ 0x3FFF) := by omega
  have h3 : ¬ (0x4000 ≤ a ∧ a ≤ 0x4017) := by omega
  have h4 : ¬ (0x4018 ≤ a ∧ a ≤ 0x401F) := by omega
  have hw := mmu_write_cart mmu a v ha
  refine ⟨?_, ?_, ?_, ?_, ?_⟩
  · simp only [mmu_read, h1, h2, h3, h4, if_false, cpu_read]
  · simp only [cpu_write]
  · intro mmu' h
    rw [hw] at h
    split at h
    · rename_i ctx' hc
      cases h
      exact ⟨rfl, rfl, cpu_write_on_ctx_registers a v _ ctx' hc⟩
    · cases h
  · intro hfp h8
    have h6 : ¬ (0x6000 ≤ a ∧ a ≤ 0x7FFF) := by omega
    refine ⟨{ mmu with mmc := { mmu.mmc with ctx := { mmu.mmc.ctx with
      cart := ctx_into_cart mmu.mmc.ctx.cart
        (MMC1_cart_cpu_write a v (cart_as_ctx mmu.mmc.ctx.cart)) } } }, ?_, rfl⟩
    rw [hw]
    simp only [cpu_write_on_ctx, hfp, MMC1_cart_cpu_write_on_cart, h6, h8, if_false, if_true]
  · intro f hfp h6 h7
    simp only [cpu_write, MMC1_cart_cpu_write, h6, h7, and_self, if_true, hfp]

/-- C13, witness: the data write `mmu_write(0x8000, 0x01)` on the bus of
`cpu_in_ram`, whose mapper has no battery file and a `CART` of 16 bytes.  The
mapper's own write shifts the bit into `shift_register`; the bus write leaves
`shift_register` at 0 and turns `filesize` from 16 into 33.  The five data
writes 1, 0, 1, 1, 0 and the commit at `0xE000` set `prg_bank` to `0x16` on the
mapper, and leave it 0 when issued through the bus. -/
theorem bus_write_misses_mapper_witness :
    (∃ mmu', mmu_write 0x8000 0x01 cpu_in_ram.mmu = .ok mmu' ∧
      mmu'.mmc.ctx.shift_register = 0 ∧ mmu'.mmc.ctx.cart.filesize = 33) ∧
    (cpu_write 0x8000 0x01 cpu_in_ram.mmu.mmc).ctx.shift_register = 1 ∧
    (cpu_write_all bank_protocol cpu_in_ram.mmu.mmc).ctx.prg_bank = 0x16 ∧
    (mmu_write_all bank_protocol cpu_in_ram.mmu).toOption.map
      (fun m => (m.mmc.ctx.prg_bank, m.mmc.ctx.shift_register)) = some (0, 0) := by
  have h := bus_write_misses_mapper cpu_in_ram.mmu 0x8000 0x01 (by decide)
  obtain ⟨mmu', hw, hc⟩ := h.2.2.2.1 rfl (by decide)
  refine ⟨⟨mmu', hw, (h.2.2.1 mmu' hw).2.2.2.1, ?_⟩, by decide, by decide, by decide⟩
  rw [hc]
  decide

/-! ## Timing of a legacy header -/

/-- The timing of a legacy header when byte 10 says PAL: `case 2` assigns
`RP2C07` whatever byte 9 says. -/
theorem legacy_timing_byte10_pal (b9 b10 : Nat) (h : b10 &&& 3 = 2) :
    new_cart_legacy_timing b9 b10 = .RP2C07 := by
  simp [new_cart_legacy_timing, h]

/-- The timing of a legacy header when byte 10 says NTSC: `RP2C02` whatever
byte 9 says. -/
theorem legacy_timing_byte10_ntsc (b9 b10 : Nat) (h : b10 &&& 3 = 0) :
    new_cart_legacy_timing b9 b10 = .RP2C02 := by
  unfold new_cart_legacy_timing
  simp only [h]
  split <;> simp

/-- C18, the code at the failing input.  The header `ntsc_pal_header` is parsed
as iNES; its byte 9 says NTSC and its byte 10 says PAL, and the descriptor's
timing is `RP2C07`, PAL.  In the other direction, `pal_ntsc_header`, the timing
is `RP2C02`, NTSC. -/
theorem legacy_timing_pal_wins :
    rom_byte ntsc_pal_header zero_heap 9 &&& 1 = 0 ∧
    rom_byte ntsc_pal_header zero_heap 10 &&& 3 = 2 ∧
    (new_cart ntsc_pal_header zero_heap CART.blank).toOption.map
      (fun c => (c.type, c.timing_type)) = some (.iNES, .RP2C07) ∧
    rom_byte pal_ntsc_header zero_heap 9 &&& 1 = 1 ∧
    rom_byte pal_ntsc_header zero_heap 10 &&& 3 = 0 ∧
    (new_cart pal_ntsc_header zero_heap CART.blank).toOption.map
      (fun c => (c.type, c.timing_type)) = some (.iNES, .RP2C02) := by
  decide

/-- The timing of every descriptor of a legacy dialect is the one
`new_cart_legacy_timing` computes from bytes 9 and 10. -/
theorem new_cart_legacy_timing_field (file : List Nat) (heap : Nat → Nat) (raw c : CART)
    (h : new_cart file heap raw = .ok c) (ht : c.type ≠ .NES2) :
    c.timing_type
      = new_cart_legacy_timing (rom_byte file heap 9) (rom_byte file heap 10) := by
  by_cases hne : file = []
  · rw [hne, new_cart_empty] at h
    cases h
  by_cases hm : magic_word file heap = magic
  · by_cases h7 : rom_byte file heap 7 &&& 0x0C = 0x08
    · by_cases hsz : file.length < filesize_pred file heap
      · rw [new_cart_corrupt file heap raw hne hm h7 hsz] at h
        cases h
      · obtain ⟨c', hc', ht', _⟩ := new_cart_nes2 file heap raw hne hm h7 (by omega)
        rw [hc'] at h
        cases h
        exact absurd ht' ht
    · have hlen : file.length ≠ 0 := by
        intro h0; exact hne (List.length_eq_zero.mp h0)
      have h7' : ¬ (rom_byte file heap 7 >>> 2 &&& 3 = 2) :=
        fun h2 => h7 ((nes2_id_iff _ (rom_byte_lt file heap 7)).mpr h2)
      simp only [new_cart, hlen, hm, new_cart_override, h7', new_cart_type_switch, h7] at h
      simp only [ne_eq, not_true_eq_false, not_false_eq_true, ↓reduceIte, decide_False,
        Bool.false_eq_true, decide_not] at h
      split at h
      · cases h
        simp [new_cart_tail]
      · split at h
        · split at h <;> (cases h; simp [new_cart_tail])
        · cases h
          simp [new_cart_tail]
  · rw [new_cart_bad_magic file heap raw hne hm] at h
    cases h

/-! ## Cycle costs -/

/-- C17, the code at the failing input.  The step `8D 00 02` (store the
accumulator at `0x0200`) returns with the wait-cycle counter it was entered
with, 7 when entered with 7 and 9 when entered with 9: the case `0x8D` assigns
no cost. -/
theorem sta_absolute_keeps_wait_cycles :
    mmu_read (cpu_sta_absolute 7).PC (cpu_sta_absolute 7).mmu = .ok 0x8D ∧
    (tick_cpu (cpu_sta_absolute 7)).toOption.map (fun c => (c.PC, c.wait_cycles))
      = some (0x6003, 7) ∧
    (tick_cpu (cpu_sta_absolute 9)).toOption.map (fun c => (c.PC, c.wait_cycles))
      = some (0x6003, 9) := by
  decide

/-- What a successful `mmu_read(cpu->PC++, cpu->mmu)` leaves: the value read at
the old program counter and the CPU with the counter advanced. -/
theorem mmu_read_pc_ok (cpu c : CPU) (v : Nat) (h : mmu_read_pc cpu = .ok (v, c)) :
    mmu_read cpu.PC cpu.mmu = .ok v ∧ c = { cpu with PC := (cpu.PC + 1) % 65536 } := by
  unfold mmu_read_pc at h
  simp only at h
  split at h
  · rename_i value hv
    cases h
    exact ⟨hv, rfl⟩
  · cases h

theorem cpu_read_pc_ok (cpu c : CPU) (v : Nat) (h : cpu_read_pc cpu = .ok (v, c)) :
    cpu_read cpu.PC cpu.mmu.mmc = .ok v ∧ c = { cpu with PC := (cpu.PC + 1) % 65536 } := by
  unfold cpu_read_pc at h
  simp only at h
  split at h
  · rename_i value hv
    cases h
    exact ⟨hv, rfl⟩
  · cases h

theorem cpu_read16_pc_ok (cpu c : CPU) (v : Nat) (h : cpu_read16_pc cpu = .ok (v, c)) :
    cpu_read16 cpu.PC cpu.mmu.mmc = .ok v ∧ c = { cpu with PC := (cpu.PC + 1) % 65536 } := by
  unfold cpu_read16_pc at h
  simp only at h
  split at h
  · rename_i value hv
    cases h
    exact ⟨hv, rfl⟩
  · cases h

theorem mmu_read_at_ok (address : Nat) (cpu : CPU) (v : Nat)
    (h : mmu_read_at address cpu = .ok v) : mmu_read address cpu.mmu = .ok v := by
  unfold mmu_read_at at h
  split at h
  · rename_i value hv
    cases h
    exact hv
  · cases h

/-- What a successful `zpg_read` leaves: the operand `z` read at the program
counter, the value read at address `z`, and the counter advanced. -/
theorem zpg_read_ok (cpu c : CPU) (v : Nat) (h : zpg_read cpu = .ok (v, c)) :
    ∃ z, mmu_read cpu.PC cpu.mmu = .ok z ∧ mmu_read z cpu.mmu = .ok v ∧
      c = { cpu with PC := (cpu.PC + 1) % 65536 } := by
  unfold zpg_read at h
  split at h
  · cases h
  · rename_i addr c1 h1
    obtain ⟨hz, hc1⟩ := mmu_read_pc_ok _ _ _ h1
    split at h
    · cases h
    · rename_i value hv
      cases h
      have hv' := mmu_read_at_ok _ _ _ hv
      rw [hc1] at hv'
      exact ⟨addr, hz, hv', hc1⟩

theorem zpg_read_offset_ok (cpu c : CPU) (offset v : Nat)
    (h : zpg_read_offset cpu offset = .ok (v, c)) :
    ∃ z, mmu_read cpu.PC cpu.mmu = .ok z ∧ mmu_read ((z + offset) % 65536) cpu.mmu = .ok v ∧
      c = { cpu with PC := (cpu.PC + 1) % 65536 } := by
  unfold zpg_read_offset at h
  split at h
  · cases h
  · rename_i addr c1 h1
    obtain ⟨hz, hc1⟩ := mmu_read_pc_ok _ _ _ h1
    simp only at h
    split at h
    · cases h
    · rename_i value hv
      cases h
      have hv' := mmu_read_at_ok _ _ _ hv
      rw [hc1] at hv'
      exact ⟨addr, hz, hv', hc1⟩

/-- What a successful `STA` leaves: the bus after the write of the accumulator. -/
theorem STA_ok (cpu c : CPU) (address : Nat) (h : STA cpu address = .ok c) :
    ∃ mmu', mmu_write (address % 65536) cpu.A cpu.mmu = .ok mmu' ∧ c = { cpu with mmu := mmu' } := by
  unfold STA at h
  split at h
  · rename_i mmu' hm
    cases h
    exact ⟨mmu', hm, rfl⟩
  · cases h

theorem JMP_wait_cycles (cpu c : CPU) (is_absolute : Bool) (h : JMP cpu is_absolute = .ok c) :
    c.wait_cycles = cpu.wait_cycles := by
  unfold JMP at h
  split at h
  · cases h
  · rename_i b0 c1 h1
    obtain ⟨_, hc1⟩ := mmu_read_pc_ok _ _ _ h1
    split at h
    · cases h
    · rename_i b1 c2 h2
      obtain ⟨_, hc2⟩ := mmu_read_pc_ok _ _ _ h2
      split at h
      · cases h
        rw [hc2, hc1]
      · simp only at h
        split at h
        · cases h
        · split at h
          · cases h
          · cases h
            rw [hc2, hc1]

/-- The wait-cycle counter after a step that returns: the cost `cycle_cost`
gives for the opcode, and for `0x8D` the value the counter held before. -/
theorem tick_cpu_switch_wait_cycles (inst : Nat) (cpu cpu' : CPU)
    (h : tick_cpu_switch inst cpu = .ok cpu') :
    cpu'.wait_cycles = (cycle_cost inst).getD cpu.wait_cycles := by
  by_cases hs : inst ∈ supported_opcodes
  · simp only [supported_opcodes, List.mem_cons, List.mem_singleton, List.not_mem_nil,
      or_false] at hs
    rcases hs with rfl | rfl | rfl | rfl | rfl | rfl | rfl | rfl | rfl | rfl | rfl | rfl | rfl |
      rfl | rfl | rfl | rfl | rfl | rfl | rfl
    all_goals simp only [tick_cpu_switch, bind, Except.bind, pure, Except.pure,
      Nat.reduceEqDiff, if_false, if_true] at h
    all_goals simp only [cycle_cost, Nat.reduceEqDiff, if_false, if_true, Option.getD]
    all_goals first
      | (cases h; rfl)
      | (split at h
         · cases h
         · cases h; rfl)
      | (split at h
         · cases h
         · split at h
           · cases h
           · cases h; rfl)
      | skip
    -- the case `0x8D`
    split at h
    · cases h
    · rename_i v hv
      split at h
      · cases h
      · rename_i c hc
        cases h
        obtain ⟨_, h1⟩ := cpu_read16_pc_ok cpu v.2 v.1 hv
        obtain ⟨mmu', _, h2⟩ := STA_ok v.2 c v.1 hc
        simp only [h2, h1]
  · rw [tick_cpu_switch_default _ _ hs] at h
    split at h
    · cases h
    · split at h <;> cases h

/-- The same for the whole step: the opcode is the byte fetched at the program
counter. -/
theorem tick_cpu_wait_cycles (cpu cpu' : CPU) (h : tick_cpu cpu = .ok cpu') :
    ∃ inst, mmu_read cpu.PC cpu.mmu = .ok inst ∧
      cpu'.wait_cycles = (cycle_cost inst).getD cpu.wait_cycles := by
  unfold tick_cpu at h
  split at h
  · cases h
  · rename_i inst c hf
    obtain ⟨hr, hc⟩ := mmu_read_pc_ok cpu c inst hf
    refine ⟨inst, hr, ?_⟩
    rw [tick_cpu_switch_wait_cycles inst c cpu' h, hc]

/-! ## PRG banking -/

/-- The read that ends both PRG branches succeeds for an offset inside the file
and returns the byte of the ROM image at that offset. -/
theorem prg_fetch_ok (cart : CART) (p : Nat) (hp : p < cart.filesize)
    (hfs : cart.filesize = cart.ROM_contents.length) :
    ∃ b, cart.ROM_contents[p]? = some b ∧ prg_fetch cart p = .ok (b % 256) := by
  have hp' : p < cart.ROM_contents.length := by omega
  refine ⟨cart.ROM_contents[p], List.getElem?_eq_getElem hp', ?_⟩
  simp [prg_fetch, hp, List.getElem?_eq_getElem hp']

theorem prg_base_le (cart : CART) : prg_base cart ≤ 528 := by
  unfold prg_base
  split <;> omega

/-- A read in the first window goes through `prg_address_lo`. -/
theorem MMC1_read_lo (ctx : MMC1_ctx) (a : Nat) (h1 : 0x8000 ≤ a) (h2 : a ≤ 0xBFFF) :
    MMC1_cart_cpu_read a ctx =
      (match prg_address_lo a ctx with
       | .ok prg_address => prg_fetch ctx.cart prg_address
       | .error e => .error e) := by
  have g1 : ¬ a < 0x6000 := by omega
  have g2 : ¬ (0x6000 ≤ a ∧ a ≤ 0x7FFF) := by omega
  simp only [MMC1_cart_cpu_read, g1, g2, h1, h2, and_self, if_true, if_false]

/-- A read in the second window goes through `prg_address_hi`. -/
theorem MMC1_read_hi (ctx : MMC1_ctx) (a : Nat) (h1 : 0xC000 ≤ a) :
    MMC1_cart_cpu_read a ctx =
      (match prg_address_hi a ctx with
       | .ok prg_address => prg_fetch ctx.cart prg_address
       | .error e => .error e) := by
  have g1 : ¬ a < 0x6000 := by omega
  have g2 : ¬ (0x6000 ≤ a ∧ a ≤ 0x7FFF) := by omega
  have g3 : ¬ (0x8000 ≤ a ∧ a ≤ 0xBFFF) := by omega
  simp only [MMC1_cart_cpu_read, g1, g2, g3, h1, if_true, if_false]

/-- Mode 2, first window: the first bank, `prg_bank` is not looked at. -/
theorem prg_address_lo_mode2 (ctx : MMC1_ctx) (a : Nat) (hm : (ctx.control >>> 2) &&& 0x3 = 2) :
    prg_address_lo a ctx = .ok (prg_base ctx.cart + (a - 0x8000)) := by
  simp [prg_address_lo, hm]

/-- Mode 3, first window: the bank `prg_bank & 0xF`, modulo the PRG size. -/
theorem prg_address_lo_mode3 (ctx : MMC1_ctx) (a : Nat) (hm : (ctx.control >>> 2) &&& 0x3 = 3)
    (hlen : 1 ≤ ctx.cart.PRG_ROM_len) :
    prg_address_lo a ctx = .ok (prg_base ctx.cart
      + ((ctx.prg_bank &&& 0xF) * 0x4000 + (a - 0x8000)) % (ctx.cart.PRG_ROM_len * 0x4000)) := by
  have h0 : ctx.cart.PRG_ROM_len ≠ 0 := by omega
  simp [prg_address_lo, hm, h0]

/-- Mode 2, second window: the bank `prg_bank & 0xF`, modulo the PRG size. -/
theorem prg_address_hi_mode2 (ctx : MMC1_ctx) (a : Nat) (hm : (ctx.control >>> 2) &&& 0x3 = 2)
    (hlen : 1 ≤ ctx.cart.PRG_ROM_len) :
    prg_address_hi a ctx = .ok (prg_base ctx.cart
      + ((ctx.prg_bank &&& 0xF) * 0x4000 + (a - 0xC000)) % (ctx.cart.PRG_ROM_len * 0x4000)) := by
  have h0 : ctx.cart.PRG_ROM_len ≠ 0 := by omega
  simp [prg_address_hi, hm, h0]

/-- Mode 3, second window: the last bank, `prg_bank` is not looked at. -/
theorem prg_address_hi_mode3 (ctx : MMC1_ctx) (a : Nat) (hm : (ctx.control >>> 2) &&& 0x3 = 3)
    (ha : 0xC000 ≤ a) (ha' : a ≤ 0xFFFF)
    (hlen : 1 ≤ ctx.cart.PRG_ROM_len) (hu16 : ctx.cart.PRG_ROM_len < 65536) :
    prg_address_hi a ctx
      = .ok (prg_base ctx.cart + (ctx.cart.PRG_ROM_len - 1) * 0x4000 + (a - 0xC000)) := by
  have hb := prg_base_le ctx.cart
  simp only [prg_address_hi, hm]
  simp only [Nat.reduceEqDiff, or_self, if_false, if_true, Except.ok.injEq]
  omega

/-- The reads of the two 16 KiB modes, with the offsets counted from
`prg_base`: mode 2 locks the first window to the first bank, mode 3 locks the
second window to the last bank, and the other window is switched by
`prg_bank & 0xF`, modulo the PRG size. -/
theorem MMC1_read_16k (ctx : MMC1_ctx)
    (hlen : 1 ≤ ctx.cart.PRG_ROM_len) (hu16 : ctx.cart.PRG_ROM_len < 65536)
    (hfit : prg_base ctx.cart + ctx.cart.PRG_ROM_len * 0x4000 ≤ ctx.cart.filesize)
    (hfs : ctx.cart.filesize = ctx.cart.ROM_contents.length) :
    ((ctx.control >>> 2) &&& 0x3 = 2 →
      (∀ a p, 0x8000 ≤ a → a ≤ 0xBFFF →
        ∃ b, ctx.cart.ROM_contents[prg_base ctx.cart + (a - 0x8000)]? = some b ∧
          MMC1_cart_cpu_read a { ctx with prg_bank := p } = .ok (b % 256)) ∧
      (∀ a, 0xC000 ≤ a → a ≤ 0xFFFF →
        ∃ b, ctx.cart.ROM_contents[prg_base ctx.cart
              + ((ctx.prg_bank &&& 0xF) * 0x4000 + (a - 0xC000))
                  % (ctx.cart.PRG_ROM_len * 0x4000)]? = some b ∧
          MMC1_cart_cpu_read a ctx = .ok (b % 256))) ∧
    ((ctx.control >>> 2) &&& 0x3 = 3 →
      (∀ a p, 0xC000 ≤ a → a ≤ 0xFFFF →
        ∃ b, ctx.cart.ROM_contents[prg_base ctx.cart + (ctx.cart.PRG_ROM_len - 1) * 0x4000
              + (a - 0xC000)]? = some b ∧
          MMC1_cart_cpu_read a { ctx with prg_bank := p } = .ok (b % 256)) ∧
      (∀ a, 0x8000 ≤ a → a ≤ 0xBFFF →
        ∃ b, ctx.cart.ROM_contents[prg_base ctx.cart
              + ((ctx.prg_bank &&& 0xF) * 0x4000 + (a - 0x8000))
                  % (ctx.cart.PRG_ROM_len * 0x4000)]? = some b ∧
          MMC1_cart_cpu_read a ctx = .ok (b % 256))) := by
  have hS : 0 < ctx.cart.PRG_ROM_len * 0x4000 := by omega
  refine ⟨fun hm => ⟨?_, ?_⟩, fun hm => ⟨?_, ?_⟩⟩
  · intro a p h1 h2
    obtain ⟨b, hb, hf⟩ := prg_fetch_ok ctx.cart (prg_base ctx.cart + (a - 0x8000))
      (by omega) hfs
    refine ⟨b, hb, ?_⟩
    rw [MMC1_read_lo _ a h1 h2, prg_address_lo_mode2 { ctx with prg_bank := p } a hm]
    exact hf
  · intro a h1 h2
    have hlt := Nat.mod_lt ((ctx.prg_bank &&& 0xF) * 0x4000 + (a - 0xC000)) hS
    obtain ⟨b, hb, hf⟩ := prg_fetch_ok ctx.cart _ (Nat.lt_of_lt_of_le
      (Nat.add_lt_add_left hlt (prg_base ctx.cart)) hfit) hfs
    refine ⟨b, hb, ?_⟩
    rw [MMC1_read_hi _ a h1, prg_address_hi_mode2 _ a hm hlen]
    exact hf
  · intro a p h1 h2
    obtain ⟨b, hb, hf⟩ := prg_fetch_ok ctx.cart
      (prg_base ctx.cart + (ctx.cart.PRG_ROM_len - 1) * 0x4000 + (a - 0xC000)) (by omega) hfs
    refine ⟨b, hb, ?_⟩
    rw [MMC1_read_hi _ a h1,
      prg_address_hi_mode3 { ctx with prg_bank := p } a hm h1 h2 hlen hu16]
    exact hf
  · intro a h1 h2
    have hlt := Nat.mod_lt ((ctx.prg_bank &&& 0xF) * 0x4000 + (a - 0x8000)) hS
    obtain ⟨b, hb, hf⟩ := prg_fetch_ok ctx.cart _ (Nat.lt_of_lt_of_le
      (Nat.add_lt_add_left hlt (prg_base ctx.cart)) hfit) hfs
    refine ⟨b, hb, ?_⟩
    rw [MMC1_read_lo _ a h1 h2, prg_address_lo_mode3 _ a hm hlen]
    exact hf

/-- C20.  For every cartridge with `PRG_ROM_len >= 1` whose PRG region fits in
the file, with `H = 16` without a trainer and `H = 16 + 512` with one, and
`S = PRG_ROM_len*0x4000`.  When bits 2-3 of `control` equal 2: every read at `a`
in `0x8000-0xBFFF` returns the ROM byte at `H + (a - 0x8000)`, whatever
`prg_bank` holds, and every read at `a` in `0xC000-0xFFFF` returns the byte at
`H + (((prg_bank & 0xF)*0x4000 + (a - 0xC000)) mod S)`.  When they equal 3: every
read at `a` in `0xC000-0xFFFF` returns the byte at
`H + (PRG_ROM_len - 1)*0x4000 + (a - 0xC000)`, whatever `prg_bank` holds, and
every read at `a` in `0x8000-0xBFFF` returns the byte at
`H + (((prg_bank & 0xF)*0x4000 + (a - 0x8000)) mod S)`. -/
theorem banking_16k (ctx : MMC1_ctx)
    (hlen : 1 ≤ ctx.cart.PRG_ROM_len) (hu16 : ctx.cart.PRG_ROM_len < 65536)
    (hfit : (if ctx.cart.trainer_present = true then 16 + 512 else 16)
              + ctx.cart.PRG_ROM_len * 0x4000 ≤ ctx.cart.filesize)
    (hfs : ctx.cart.filesize = ctx.cart.ROM_contents.length) :
    ((ctx.control >>> 2) &&& 0x3 = 2 →
      (∀ a p, 0x8000 ≤ a → a ≤ 0xBFFF →
        ∃ b, ctx.cart.ROM_contents[(if ctx.cart.trainer_present = true then 16 + 512 else 16)
              + (a - 0x8000)]? = some b ∧
          MMC1_cart_cpu_read a { ctx with prg_bank := p } = .ok (b % 256)) ∧
      (∀ a, 0xC000 ≤ a → a ≤ 0xFFFF →
        ∃ b, ctx.cart.ROM_contents[(if ctx.cart.trainer_present = true then 16 + 512 else 16)
              + ((ctx.prg_bank &&& 0xF) * 0x4000 + (a - 0xC000))
                  % (ctx.cart.PRG_ROM_len * 0x4000)]? = some b ∧
          MMC1_cart_cpu_read a ctx = .ok (b % 256))) ∧
    ((ctx.control >>> 2) &&& 0x3 = 3 →
      (∀ a p, 0xC000 ≤ a → a ≤ 0xFFFF →
        ∃ b, ctx.cart.ROM_contents[(if ctx.cart.trainer_present = true then 16 + 512 else 16)
              + (ctx.cart.PRG_ROM_len - 1) * 0x4000 + (a - 0xC000)]? = some b ∧
          MMC1_cart_cpu_read a { ctx with prg_bank := p } = .ok (b % 256)) ∧
      (∀ a, 0x8000 ≤ a → a ≤ 0xBFFF →
        ∃ b, ctx.cart.ROM_contents[(if ctx.cart.trainer_present = true then 16 + 512 else 16)
              + ((ctx.prg_bank &&& 0xF) * 0x4000 + (a - 0x8000))
                  % (ctx.cart.PRG_ROM_len * 0x4000)]? = some b ∧
          MMC1_cart_cpu_read a ctx = .ok (b % 256))) :=
  MMC1_read_16k ctx hlen hu16 hfit hfs

/-- The byte of `trainer_cart` at offset `i` is `i mod 251`. -/
theorem trainer_cart_byte (i : Nat) (h : i < 49680) :
    trainer_cart.ROM_contents[i]? = some (i % 251) := by
  simp only [trainer_cart, List.getElem?_map, List.getElem?_range h, Option.map_some']

theorem trainer_cart_length : trainer_cart.filesize = trainer_cart.ROM_contents.length := by
  simp only [trainer_cart, List.length_map, List.length_range]

/-- C20, witness: on `trainer_cart` (a trainer, three PRG banks, the byte at
offset `i` equal to `i mod 251`).  In mode 2 with `prg_bank = 5` the read at
`0x8123` returns the byte at `528 + 0x123`, which is 66, and the read at
`0xC123` the byte at `528 + 2*0x4000 + 0x123` (bank `5 mod 3`), which is 204.
In mode 3 with `prg_bank = 4` the read at `0xC123` returns the byte at
`528 + 2*0x4000 + 0x123`, which is 204, and the read at `0x8123` the byte at
`528 + 0x4000 + 0x123` (bank `4 mod 3`), which is 135. -/
theorem banking_16k_witness :
    MMC1_cart_cpu_read 0x8123
      { MMC1_ctx.fresh trainer_cart with control := 0x08, prg_bank := 5 } = .ok 66 ∧
    MMC1_cart_cpu_read 0xC123
      { MMC1_ctx.fresh trainer_cart with control := 0x08, prg_bank := 5 } = .ok 204 ∧
    MMC1_cart_cpu_read 0xC123
      { MMC1_ctx.fresh trainer_cart with control := 0x0C, prg_bank := 4 } = .ok 204 ∧
    MMC1_cart_cpu_read 0x8123
      { MMC1_ctx.fresh trainer_cart with control := 0x0C, prg_bank := 4 } = .ok 135 := by
  have h2 := (banking_16k { MMC1_ctx.fresh trainer_cart with control := 0x08, prg_bank := 5 }
    (by decide) (by decide) (by decide) trainer_cart_length).1 (by decide)
  have h3 := (banking_16k { MMC1_ctx.fresh trainer_cart with control := 0x0C, prg_bank := 4 }
    (by decide) (by decide) (by decide) trainer_cart_length).2 (by decide)
  refine ⟨?_, ?_, ?_, ?_⟩
  · obtain ⟨b, hb, hr⟩ := h2.1 0x8123 5 (by decide) (by decide)
    have hb' : b = 66 := Option.some.inj (hb.symm.trans (trainer_cart_byte 819 (by decide)))
    rw [hb'] at hr
    exact hr
  · obtain ⟨b, hb, hr⟩ := h2.2 0xC123 (by decide) (by decide)
    have hb' : b = 204 := Option.some.inj (hb.symm.trans (trainer_cart_byte 33587 (by decide)))
    rw [hb'] at hr
    exact hr
  · obtain ⟨b, hb, hr⟩ := h3.1 0xC123 4 (by decide) (by decide)
    have hb' : b = 204 := Option.some.inj (hb.symm.trans (trainer_cart_byte 33587 (by decide)))
    rw [hb'] at hr
    exact hr
  · obtain ⟨b, hb, hr⟩ := h3.2 0x8123 (by decide) (by decide)
    have hb' : b = 135 := Option.some.inj (hb.symm.trans (trainer_cart_byte 17203 (by decide)))
    rw [hb'] at hr
    exact hr

/-! ## Mapper number and dialect of a descriptor -/

theorem new_cart_tail_mapper_nes2 (file : List Nat) (heap : Nat → Nat) (out : CART)
    (h : out.type = .NES2) :
    (new_cart_tail file heap out).mapper
      = (out.mapper + ((rom_byte file heap 8 &&& 0xF) <<< 8) % 65536) % 65536 := by
  unfold new_cart_tail
  simp only [h, if_true]
  split
  · rfl
  · split <;> rfl

theorem new_cart_tail_submapper_nes2 (file : List Nat) (heap : Nat → Nat) (out : CART)
    (h : out.type = .NES2) :
    (new_cart_tail file heap out).submapper = rom_byte file heap 8 >>> 4 := by
  unfold new_cart_tail
  simp only [h, if_true]
  split
  · rfl
  · split <;> rfl

theorem new_cart_tail_mapper_legacy (file : List Nat) (heap : Nat → Nat) (out : CART)
    (h : out.type ≠ .NES2) :
    (new_cart_tail file heap out).mapper = out.mapper &&& 0xFF := by
  unfold new_cart_tail
  simp only [h, if_false]

/-- The mapper number and the submapper that `new_cart` leaves in a descriptor,
as the code computes them: the nibble of byte 6 plus the high nibble of byte 7,
then for NES 2.0 plus the low nibble of byte 8 shifted by 8, and for a legacy
dialect masked with `0xFF`. -/
theorem new_cart_mapper_field (file : List Nat) (heap : Nat → Nat) (raw c : CART)
    (h : new_cart file heap raw = .ok c) :
    (c.type = .NES2 →
      c.mapper = (((rom_byte file heap 6 >>> 4) + (rom_byte file heap 7 &&& 0xF0)) % 65536
                  + ((rom_byte file heap 8 &&& 0xF) <<< 8) % 65536) % 65536 ∧
      c.submapper = rom_byte file heap 8 >>> 4) ∧
    (c.type ≠ .NES2 →
      c.mapper = (((rom_byte file heap 6 >>> 4) + (rom_byte file heap 7 &&& 0xF0)) % 65536)
                  &&& 0xFF) := by
  by_cases hne : file = []
  · rw [hne, new_cart_empty] at h
    cases h
  have hlen : file.length ≠ 0 := by
    intro h0; exact hne (List.length_eq_zero.mp h0)
  by_cases hm : magic_word file heap = magic
  · by_cases h7 : rom_byte file heap 7 &&& 0x0C = 0x08
    · by_cases hsz : file.length < filesize_pred file heap
      · rw [new_cart_corrupt file heap raw hne hm h7 hsz] at h
        cases h
      · have h7' := (nes2_id_iff _ (rom_byte_lt file heap 7)).mp h7
        simp only [new_cart, hlen, hm, new_cart_override, h7', new_cart_type_switch, h7, hsz] at h
        simp only [ne_eq, not_true_eq_false, not_false_eq_true, ↓reduceIte, decide_True,
          decide_False, Bool.false_eq_true, decide_not, hsz] at h
        cases h
        simp [new_cart_tail_mapper_nes2, new_cart_tail_submapper_nes2, new_cart_tail_fields]
    · have h7' : ¬ (rom_byte file heap 7 >>> 2 &&& 3 = 2) :=
        fun h2 => h7 ((nes2_id_iff _ (rom_byte_lt file heap 7)).mpr h2)
      simp only [new_cart, hlen, hm, new_cart_override, h7', new_cart_type_switch, h7] at h
      simp only [ne_eq, not_true_eq_false, not_false_eq_true, ↓reduceIte, decide_False,
        Bool.false_eq_true, decide_not] at h
      split at h
      · cases h
        simp [new_cart_tail]
      · split at h
        · split at h <;> (cases h; simp [new_cart_tail])
        · cases h
          simp [new_cart_tail]
  · rw [new_cart_bad_magic file heap raw hne hm] at h
    cases h

set_option maxRecDepth 8192 in
/-- The high nibble of a byte, as a multiple of 16. -/
theorem and_F0_eq (b : Nat) (hb : b < 256) : b &&& 0xF0 = 16 * (b / 16) := by
  revert b
  decide

/-- The two nibbles that make the low byte of the mapper number do not
overlap: their sum is their bitwise or, and it is a byte. -/
theorem mapper_low_byte (b6 b7 : Nat) (h6 : b6 < 256) (h7 : b7 < 256) :
    (b6 >>> 4) + (b7 &&& 0xF0) = (b6 >>> 4) ||| (b7 &&& 0xF0) ∧
    (b6 >>> 4) + (b7 &&& 0xF0) < 256 := by
  have hlo : b6 >>> 4 < 2 ^ 4 := by
    rw [Nat.shiftRight_eq_div_pow]; omega
  rw [and_F0_eq b7 h7]
  constructor
  · rw [Nat.lor_comm, ← Nat.mul_add_lt_is_or hlo (b7 / 16)]
    omega
  · omega

/-- The low nibble of byte 8, shifted by 8, does not overlap a byte: the sum
is the bitwise or, and it is below 4096. -/
theorem mapper_high_nibble (m b8 : Nat) (hm : m < 256) :
    m + ((b8 &&& 0xF) <<< 8) = m ||| ((b8 &&& 0x0F) <<< 8) ∧
    m + ((b8 &&& 0xF) <<< 8) < 4096 := by
  have h8 : b8 &&& 0xF = b8 % 16 := Nat.and_pow_two_sub_one_eq_mod b8 4
  rw [h8, Nat.shiftLeft_eq]
  constructor
  · rw [Nat.lor_comm, Nat.mul_comm, ← Nat.mul_add_lt_is_or (by omega : m < 2 ^ 8) (b8 % 16)]
    omega
  · omega

/-- C21.  For every accepted header: under the NES 2.0 dialect the mapper
number of the descriptor is `(byte6 >> 4) | (byte7 & 0xF0) | ((byte8 & 0x0F) << 8)`
and the submapper is `byte8 >> 4`; under the legacy dialects the mapper number
is `(byte6 >> 4) | (byte7 & 0xF0)`; the mapper number is always below 4096, and
below 256 for the legacy dialects. -/
theorem mapper_number_composition (file : List Nat) (heap : Nat → Nat) (raw c : CART)
    (h : new_cart file heap raw = .ok c) :
    (c.type = .NES2 →
      c.mapper = (rom_byte file heap 6 >>> 4) ||| (rom_byte file heap 7 &&& 0xF0)
                  ||| ((rom_byte file heap 8 &&& 0x0F) <<< 8) ∧
      c.submapper = rom_byte file heap 8 >>> 4) ∧
    (c.type ≠ .NES2 →
      c.mapper = (rom_byte file heap 6 >>> 4) ||| (rom_byte file heap 7 &&& 0xF0) ∧
      c.mapper < 256) ∧
    c.mapper < 4096 := by
  obtain ⟨hn, hl⟩ := new_cart_mapper_field file heap raw c h
  obtain ⟨hsum, hlt⟩ := mapper_low_byte (rom_byte file heap 6) (rom_byte file heap 7)
    (rom_byte_lt file heap 6) (rom_byte_lt file heap 7)
  obtain ⟨hsum2, hlt2⟩ := mapper_high_nibble
    ((rom_byte file heap 6 >>> 4) + (rom_byte file heap 7 &&& 0xF0)) (rom_byte file heap 8) hlt
  have hnes : c.type = .NES2 →
      c.mapper = (rom_byte file heap 6 >>> 4) ||| (rom_byte file heap 7 &&& 0xF0)
                  ||| ((rom_byte file heap 8 &&& 0x0F) <<< 8) ∧ c.mapper < 4096 := by
    intro ht
    have hm := (hn ht).1
    rw [Nat.mod_eq_of_lt (by omega : _ < 65536),
      Nat.mod_eq_of_lt (by omega : (rom_byte file heap 8 &&& 0xF) <<< 8 < 65536),
      Nat.mod_eq_of_lt (by omega : _ < 65536)] at hm
    constructor
    · rw [hm, hsum2, hsum]
    · omega
  have hleg : c.type ≠ .NES2 →
      c.mapper = (rom_byte file heap 6 >>> 4) ||| (rom_byte file heap 7 &&& 0xF0) ∧
      c.mapper < 256 := by
    intro ht
    have hm := hl ht
    have hand : ∀ x, x &&& 0xFF = x % 256 := fun x => Nat.and_pow_two_sub_one_eq_mod x 8
    rw [Nat.mod_eq_of_lt (by omega : _ < 65536), hand, Nat.mod_eq_of_lt hlt] at hm
    constructor
    · rw [hm, hsum]
    · omega
  refine ⟨fun ht => ⟨(hnes ht).1, (hn ht).2⟩, hleg, ?_⟩
  by_cases ht : c.type = .NES2
  · exact (hnes ht).2
  · have := (hleg ht).2
    omega

/-- The NES 2.0 path never marks the descriptor uncertain. -/
theorem new_cart_nes2_certain (file : List Nat) (heap : Nat → Nat) (raw : CART)
    (hne : file ≠ []) (hm : magic_word file heap = magic)
    (h7 : rom_byte file heap 7 &&& 0x0C = 0x08) (hsz : filesize_pred file heap ≤ file.length) :
    ∃ c, new_cart file heap raw = .ok c ∧ c.type = .NES2 ∧ c.uncertain_type = false := by
  have hlen : file.length ≠ 0 := by
    intro h; exact hne (List.length_eq_zero.mp h)
  have h7' := (nes2_id_iff _ (rom_byte_lt file heap 7)).mp h7
  have hsz' : ¬ file.length < filesize_pred file heap := by omega
  simp [new_cart, hlen, hm, new_cart_override, h7', new_cart_type_switch, h7, hsz',
    new_cart_tail_fields]

/-- The dialect of a descriptor whose header lacks the NES 2.0 identifier, case
by case of the switch on `byte7 & 0x0C`. -/
theorem new_cart_legacy_dialect (file : List Nat) (heap : Nat → Nat) (raw : CART)
    (hne : file ≠ []) (hm : magic_word file heap = magic)
    (h7 : rom_byte file heap 7 &&& 0x0C ≠ 0x08) :
    ∃ c, new_cart file heap raw = .ok c ∧
      (rom_byte file heap 7 &&& 0x0C = 0x04 → c.type = .oldiNES ∧ c.uncertain_type = false) ∧
      (rom_byte file heap 7 &&& 0x0C = 0x00 →
        ((rom_byte file heap 12 = 0 ∧ rom_byte file heap 13 = 0 ∧ rom_byte file heap 14 = 0 ∧
            rom_byte file heap 15 = 0) → c.type = .iNES ∧ c.uncertain_type = false) ∧
        (¬ (rom_byte file heap 12 = 0 ∧ rom_byte file heap 13 = 0 ∧ rom_byte file heap 14 = 0 ∧
            rom_byte file heap 15 = 0) → c.type = .oldiNES ∧ c.uncertain_type = true)) ∧
      (rom_byte file heap 7 &&& 0x0C ≠ 0x04 → rom_byte file heap 7 &&& 0x0C ≠ 0x00 →
        c.type = .oldiNES ∧ c.uncertain_type = true) ∧
      (c.uncertain_type = true → c.type = .oldiNES) := by
  have hlen : file.length ≠ 0 := by
    intro h; exact hne (List.length_eq_zero.mp h)
  have h7' : ¬ (rom_byte file heap 7 >>> 2 &&& 3 = 2) :=
    fun h => h7 ((nes2_id_iff _ (rom_byte_lt file heap 7)).mpr h)
  simp only [new_cart, hlen, hm, new_cart_override, h7', new_cart_type_switch, h7]
  simp only [ne_eq, not_true_eq_false, not_false_eq_true, ↓reduceIte, decide_False,
    Bool.false_eq_true, decide_not]
  split
  · rename_i h4
    simp [new_cart_tail_fields, h4]
  · rename_i h4
    split
    · rename_i h0
      split
      · rename_i hz
        simp [new_cart_tail_fields, h4, h0, hz]
      · rename_i hz
        simp only [not_and] at hz
        simpa [new_cart_tail_fields, h4, h0] using hz
    · rename_i h0
      simp [new_cart_tail_fields, h4, h0]

/-- C21, witness: the image `nes2_mapper_image` (bytes 6, 7, 8 equal to `0x10`,
`0x28`, `0x31`) is parsed as NES 2.0 with mapper `0x121` and submapper 3. -/
theorem mapper_number_composition_witness :
    ∃ c, new_cart nes2_mapper_image zero_heap CART.blank = .ok c ∧ c.type = .NES2 ∧
      c.mapper = 0x121 ∧ c.submapper = 3 ∧ c.mapper < 4096 := by
  set_option maxRecDepth 100000 in
  obtain ⟨c, hc, ht, _⟩ :=
    new_cart_nes2 nes2_mapper_image zero_heap CART.blank (by decide) (by decide) (by decide)
      (by decide)
  have h := mapper_number_composition nes2_mapper_image zero_heap CART.blank c hc
  exact ⟨c, hc, ht, (h.1 ht).1.trans (by decide), (h.1 ht).2.trans (by decide), h.2.2⟩

/-! ## The dialect of a header without indicator bits -/

/-- An image of four bytes or more shows its first four bytes to the parser. -/
theorem magic_word_eq_take (file : List Nat) (heap : Nat → Nat) (hlen : 4 ≤ file.length)
    (hb : ∀ b ∈ file, b < 256) : magic_word file heap = file.take 4 := by
  match file, hlen, hb with
  | a :: b :: c :: d :: rest, _, hb =>
    have ha := hb a (by simp)
    have hb' := hb b (by simp)
    have hc := hb c (by simp)
    have hd := hb d (by simp)
    simp [magic_word, rom_byte, Nat.mod_eq_of_lt ha, Nat.mod_eq_of_lt hb',
      Nat.mod_eq_of_lt hc, Nat.mod_eq_of_lt hd]

/-- C22.  For every image of at least 16 bytes that starts with the signature
and whose byte 7 has bits 2 and 3 both clear, `new_cart` returns a descriptor
whose PRG-ROM length is byte 4 and whose CHR-ROM length is byte 5; the
descriptor is `iNES` and not uncertain when bytes 12-15 are all zero, and
`oldiNES` and uncertain when one of them is not zero. -/
theorem dialect_without_indicator_bits (file : List Nat) (heap : Nat → Nat) (raw : CART)
    (hlen : 16 ≤ file.length) (hm : file.take 4 = magic)
    (h7 : rom_byte file heap 7 &&& 0x0C = 0x00) :
    ∃ c, new_cart file heap raw = .ok c ∧
      c.PRG_ROM_len = rom_byte file heap 4 ∧ c.CHR_ROM_len = rom_byte file heap 5 ∧
      ((rom_byte file heap 12 = 0 ∧ rom_byte file heap 13 = 0 ∧ rom_byte file heap 14 = 0 ∧
          rom_byte file heap 15 = 0) → c.type = .iNES ∧ c.uncertain_type = false) ∧
      (¬ (rom_byte file heap 12 = 0 ∧ rom_byte file heap 13 = 0 ∧ rom_byte file heap 14 = 0 ∧
          rom_byte file heap 15 = 0) → c.type = .oldiNES ∧ c.uncertain_type = true) ∧
      (∀ i, i < 16 → rom_byte file heap i = file.getD i 0 % 256) := by
  have hne : file ≠ [] := by
    intro h; rw [h] at hm; simp [magic] at hm
  have hmw := magic_word_of_take file heap hm
  have h7' : rom_byte file heap 7 &&& 0x0C ≠ 0x08 := by rw [h7]; decide
  obtain ⟨c, hc, _, hp, hch, _⟩ := new_cart_legacy file heap raw hne hmw h7'
  obtain ⟨c', hc', _, h0, _⟩ := new_cart_legacy_dialect file heap raw hne hmw h7'
  rw [hc] at hc'
  cases hc'
  refine ⟨c, hc, hp, hch, (h0 h7).1, (h0 h7).2, ?_⟩
  intro i hi
  have hi' : i < file.length := by omega
  rw [rom_byte_of_lt file heap i hi']
  simp [List.getD_eq_getElem?_getD, List.getElem?_eq_getElem hi']

/-- C22, witness: the header `4E 45 53 1A 02 01 00 00` followed by zeros gives
the `iNES` dialect, not uncertain, with lengths 2 and 1. -/
theorem dialect_without_indicator_bits_witness :
    ∃ c, new_cart two_one_header zero_heap CART.blank = .ok c ∧
      c.PRG_ROM_len = 2 ∧ c.CHR_ROM_len = 1 ∧ c.type = .iNES ∧ c.uncertain_type = false := by
  obtain ⟨c, hc, hp, hch, hz, _⟩ :=
    dialect_without_indicator_bits two_one_header zero_heap CART.blank (by decide) (by decide)
      (by decide)
  exact ⟨c, hc, hp.trans (by decide), hch.trans (by decide), (hz (by decide)).1,
    (hz (by decide)).2⟩

/-! ## The NES 2.0 dialect -/

/-- C29.  For every image of at least 16 bytes: `new_cart` returns a NES 2.0
descriptor if and only if the image starts with the signature, `byte7 & 0x0C` is
`0x08` and the image is at least `512 + 8192*CHR + 16384*PRG` bytes long, with
`PRG = byte4 + ((byte9 & 0x0F) << 8)` and `CHR = byte5 + ((byte9 >> 4) << 8)`;
every NES 2.0 descriptor it returns carries those two lengths and is not marked
uncertain; and every descriptor it marks uncertain is `oldiNES`. -/
theorem nes2_characterisation (file : List Nat) (heap : Nat → Nat) (raw : CART)
    (hlen : 16 ≤ file.length) (hb : ∀ b ∈ file, b < 256) :
    ((∃ c, new_cart file heap raw = .ok c ∧ c.type = .NES2) ↔
      (file.take 4 = magic ∧ rom_byte file heap 7 &&& 0x0C = 0x08 ∧
        512 + 8192 * (rom_byte file heap 5 + ((rom_byte file heap 9 >>> 4) <<< 8))
          + 16384 * (rom_byte file heap 4 + ((rom_byte file heap 9 &&& 0x0F) <<< 8))
          ≤ file.length)) ∧
    (∀ c, new_cart file heap raw = .ok c → c.type = .NES2 →
      c.PRG_ROM_len = rom_byte file heap 4 + ((rom_byte file heap 9 &&& 0x0F) <<< 8) ∧
      c.CHR_ROM_len = rom_byte file heap 5 + ((rom_byte file heap 9 >>> 4) <<< 8) ∧
      c.filesize = file.length ∧ c.uncertain_type = false) ∧
    (∀ c, new_cart file heap raw = .ok c → c.uncertain_type = true → c.type = .oldiNES) := by
  have hne : file ≠ [] := by
    intro h; rw [h] at hlen; simp at hlen
  have htake := magic_word_eq_take file heap (by omega) hb
  have hpred : filesize_pred file heap
      = 512 + 8192 * (rom_byte file heap 5 + ((rom_byte file heap 9 >>> 4) <<< 8))
          + 16384 * (rom_byte file heap 4 + ((rom_byte file heap 9 &&& 0x0F) <<< 8)) := by
    unfold filesize_pred
    rw [nes2_PRG_ROM_len_eq, nes2_CHR_ROM_len_eq]
  by_cases hm : magic_word file heap = magic
  · by_cases h7 : rom_byte file heap 7 &&& 0x0C = 0x08
    · by_cases hsz : file.length < filesize_pred file heap
      · have herr := new_cart_corrupt file heap raw hne hm h7 hsz
        refine ⟨⟨?_, ?_⟩, ?_, ?_⟩
        · rintro ⟨c, hc, _⟩
          rw [herr] at hc
          cases hc
        · rintro ⟨_, _, h⟩
          rw [hpred] at hsz
          omega
        · intro c hc
          rw [herr] at hc
          cases hc
        · intro c hc
          rw [herr] at hc
          cases hc
      · obtain ⟨c, hc, ht, hp, hch, hf, _⟩ := new_cart_nes2 file heap raw hne hm h7 (by omega)
        obtain ⟨c', hc', _, hu⟩ := new_cart_nes2_certain file heap raw hne hm h7 (by omega)
        rw [hc] at hc'
        cases hc'
        refine ⟨⟨fun _ => ⟨htake ▸ hm, h7, ?_⟩, fun _ => ⟨c, hc, ht⟩⟩, ?_, ?_⟩
        · rw [← hpred]
          omega
        · intro d hd _
          rw [hc] at hd
          cases hd
          exact ⟨by rw [hp, nes2_PRG_ROM_len_eq], by rw [hch, nes2_CHR_ROM_len_eq], hf, hu⟩
        · intro d hd hdu
          rw [hc] at hd
          cases hd
          rw [hu] at hdu
          cases hdu
    · obtain ⟨c, hc, ht, _⟩ := new_cart_legacy file heap raw hne hm h7
      obtain ⟨c', hc', _, _, _, hu⟩ := new_cart_legacy_dialect file heap raw hne hm h7
      rw [hc] at hc'
      cases hc'
      refine ⟨⟨?_, fun h => absurd h.2.1 h7⟩, ?_, ?_⟩
      · rintro ⟨d, hd, hdt⟩
        rw [hc] at hd
        cases hd
        exact absurd hdt ht
      · intro d hd hdt
        rw [hc] at hd
        cases hd
        exact absurd hdt ht
      · intro d hd hdu
        rw [hc] at hd
        cases hd
        exact hu hdu
  · have herr := new_cart_bad_magic file heap raw hne hm
    refine ⟨⟨?_, fun h => absurd (htake ▸ h.1) hm⟩, ?_, ?_⟩
    · rintro ⟨c, hc, _⟩
      rw [herr] at hc
      cases hc
    · intro c hc
      rw [herr] at hc
      cases hc
    · intro c hc
      rw [herr] at hc
      cases hc

/-- C29, witness: the 512-byte image `nes2_image` meets the three conditions and
is parsed as NES 2.0. -/
theorem nes2_characterisation_witness :
    ∃ c, new_cart nes2_image zero_heap CART.blank = .ok c ∧ c.type = .NES2 := by
  set_option maxRecDepth 100000 in
  exact (nes2_characterisation nes2_image zero_heap CART.blank (by decide) (by decide)).1.mpr
    (by decide)

/-! ## The 32 KiB mode and the bounds of the bank arithmetic -/

/-- The banking mode `(control >> 2) & 3` is one of 0, 1, 2, 3. -/
theorem mode_cases (c : Nat) :
    (c >>> 2) &&& 0x3 = 0 ∨ (c >>> 2) &&& 0x3 = 1 ∨ (c >>> 2) &&& 0x3 = 2 ∨
      (c >>> 2) &&& 0x3 = 3 := by
  have h : (c >>> 2) &&& 0x3 = (c >>> 2) % 4 := Nat.and_pow_two_sub_one_eq_mod (c >>> 2) 2
  rw [h]
  omega

/-- Modes 0 and 1, first window: the block `prg_bank & 0xE` of `0x8000` bytes,
modulo the PRG size. -/
theorem prg_address_lo_mode01 (ctx : MMC1_ctx) (a : Nat)
    (hm : (ctx.control >>> 2) &&& 0x3 = 0 ∨ (ctx.control >>> 2) &&& 0x3 = 1)
    (hlen : 1 ≤ ctx.cart.PRG_ROM_len) :
    prg_address_lo a ctx = .ok (prg_base ctx.cart
      + ((ctx.prg_bank &&& 0xE) * 0x8000 + (a - 0x8000)) % (ctx.cart.PRG_ROM_len * 0x4000)) := by
  have h0 : ctx.cart.PRG_ROM_len ≠ 0 := by omega
  simp [prg_address_lo, hm, h0]

/-- Modes 0 and 1, second window: the same expression as in the first window. -/
theorem prg_address_hi_mode01 (ctx : MMC1_ctx) (a : Nat)
    (hm : (ctx.control >>> 2) &&& 0x3 = 0 ∨ (ctx.control >>> 2) &&& 0x3 = 1)
    (hlen : 1 ≤ ctx.cart.PRG_ROM_len) :
    prg_address_hi a ctx = .ok (prg_base ctx.cart
      + ((ctx.prg_bank &&& 0xE) * 0x8000 + (a - 0x8000)) % (ctx.cart.PRG_ROM_len * 0x4000)) := by
  have h0 : ctx.cart.PRG_ROM_len ≠ 0 := by omega
  simp [prg_address_hi, hm, h0]

/-- The offset that `MMC1_cart_cpu_read` computes for an address of the two PRG
windows: `prg_address_lo` up to `0xBFFF`, `prg_address_hi` from `0xC000`. -/
theorem MMC1_read_prg (ctx : MMC1_ctx) (a : Nat) (h1 : 0x8000 ≤ a) :
    MMC1_cart_cpu_read a ctx =
      (match (if a ≤ 0xBFFF then prg_address_lo a ctx else prg_address_hi a ctx) with
       | .ok prg_address => prg_fetch ctx.cart prg_address
       | .error e => .error e) := by
  by_cases h2 : a ≤ 0xBFFF
  · rw [MMC1_read_lo ctx a h1 h2, if_pos h2]
  · rw [MMC1_read_hi ctx a (by omega), if_neg h2]

/-- With one PRG bank or more, the offset computed for an address of the PRG
windows lies in the PRG region of the file, in every banking mode. -/
theorem prg_address_in_region (ctx : MMC1_ctx) (a : Nat)
    (hlen : 1 ≤ ctx.cart.PRG_ROM_len) (hu16 : ctx.cart.PRG_ROM_len < 65536)
    (h1 : 0x8000 ≤ a) (h2 : a ≤ 0xFFFF) :
    ∃ o, (if a ≤ 0xBFFF then prg_address_lo a ctx else prg_address_hi a ctx) = .ok o ∧
      prg_base ctx.cart ≤ o ∧ o < prg_base ctx.cart + ctx.cart.PRG_ROM_len * 0x4000 := by
  have hS : 0 < ctx.cart.PRG_ROM_len * 0x4000 := by omega
  by_cases hw : a ≤ 0xBFFF
  · rw [if_pos hw]
    rcases mode_cases ctx.control with hm | hm | hm | hm
    · have hlt := Nat.mod_lt ((ctx.prg_bank &&& 0xE) * 0x8000 + (a - 0x8000)) hS
      exact ⟨_, prg_address_lo_mode01 ctx a (Or.inl hm) hlen, by omega, by omega⟩
    · have hlt := Nat.mod_lt ((ctx.prg_bank &&& 0xE) * 0x8000 + (a - 0x8000)) hS
      exact ⟨_, prg_address_lo_mode01 ctx a (Or.inr hm) hlen, by omega, by omega⟩
    · exact ⟨_, prg_address_lo_mode2 ctx a hm, by omega, by omega⟩
    · have hlt := Nat.mod_lt ((ctx.prg_bank &&& 0xF) * 0x4000 + (a - 0x8000)) hS
      exact ⟨_, prg_address_lo_mode3 ctx a hm hlen, by omega, by omega⟩
  · rw [if_neg hw]
    rcases mode_cases ctx.control with hm | hm | hm | hm
    · have hlt := Nat.mod_lt ((ctx.prg_bank &&& 0xE) * 0x8000 + (a - 0x8000)) hS
      exact ⟨_, prg_address_hi_mode01 ctx a (Or.inl hm) hlen, by omega, by omega⟩
    · have hlt := Nat.mod_lt ((ctx.prg_bank &&& 0xE) * 0x8000 + (a - 0x8000)) hS
      exact ⟨_, prg_address_hi_mode01 ctx a (Or.inr hm) hlen, by omega, by omega⟩
    · have hlt := Nat.mod_lt ((ctx.prg_bank &&& 0xF) * 0x4000 + (a - 0xC000)) hS
      exact ⟨_, prg_address_hi_mode2 ctx a hm hlen, by omega, by omega⟩
    · exact ⟨_, prg_address_hi_mode3 ctx a hm (by omega) h2 hlen hu16, by omega, by omega⟩

/-- C27.  For every cartridge with `PRG_ROM_len >= 1` and
`16 (+512 with a trainer) + PRG_ROM_len*16384 <= filesize`, every value of the
control and PRG-bank registers and every address in `0x8000-0xFFFF`: the bank
arithmetic of `MMC1_cart_cpu_read` does not divide by zero and yields an offset
`o` with `H <= o < H + PRG_ROM_len*16384 <= filesize`, the assertion
`prg_address < filesize` holds, and the read returns the byte of the image at
`o`. -/
theorem bank_math_safe (ctx : MMC1_ctx) (a : Nat)
    (hlen : 1 ≤ ctx.cart.PRG_ROM_len) (hu16 : ctx.cart.PRG_ROM_len < 65536)
    (hfit : (if ctx.cart.trainer_present = true then 16 + 512 else 16)
              + ctx.cart.PRG_ROM_len * 16384 ≤ ctx.cart.filesize)
    (hfs : ctx.cart.filesize = ctx.cart.ROM_contents.length)
    (h1 : 0x8000 ≤ a) (h2 : a ≤ 0xFFFF) :
    ∃ o b, (if a ≤ 0xBFFF then prg_address_lo a ctx else prg_address_hi a ctx) = .ok o ∧
      (if ctx.cart.trainer_present = true then 16 + 512 else 16) ≤ o ∧
      o < (if ctx.cart.trainer_present = true then 16 + 512 else 16)
            + ctx.cart.PRG_ROM_len * 16384 ∧
      o < ctx.cart.filesize ∧
      ctx.cart.ROM_contents[o]? = some b ∧
      MMC1_cart_cpu_read a ctx = .ok (b % 256) := by
  obtain ⟨o, ho, hlo, hhi⟩ := prg_address_in_region ctx a hlen hu16 h1 h2
  have hfit' : prg_base ctx.cart + ctx.cart.PRG_ROM_len * 16384 ≤ ctx.cart.filesize := hfit
  have hof : o < ctx.cart.filesize := by omega
  obtain ⟨b, hb, hf⟩ := prg_fetch_ok ctx.cart o hof hfs
  refine ⟨o, b, ho, hlo, hhi, hof, hb, ?_⟩
  rw [MMC1_read_prg ctx a h1, ho]
  exact hf

/-- C27, witness: on the cartridge `one_bank_cart`, with `control = 0x0C` and
`prg_bank = 0x1F`, the read at `0xFFFF` succeeds. -/
theorem bank_math_safe_witness :
    ∃ o b, o < one_bank_cart.filesize ∧
      MMC1_cart_cpu_read 0xFFFF
        { MMC1_ctx.fresh one_bank_cart with control := 0x0C, prg_bank := 0x1F }
        = .ok (b % 256) := by
  obtain ⟨o, b, _, _, _, hof, _, hr⟩ :=
    bank_math_safe { MMC1_ctx.fresh one_bank_cart with control := 0x0C, prg_bank := 0x1F } 0xFFFF
      (by decide) (by decide) (by decide) (List.length_replicate 16400 0xEA).symm
      (by decide) (by decide)
  exact ⟨o, b, hof, hr⟩

/-- Modes 0 and 1: a read in either window returns the byte of the image at
`H + (((prg_bank & 0xE)*0x8000 + (a - 0x8000)) mod (PRG_ROM_len*0x4000))`. -/
theorem MMC1_read_mode01 (ctx : MMC1_ctx) (a : Nat)
    (hm : (ctx.control >>> 2) &&& 0x3 = 0 ∨ (ctx.control >>> 2) &&& 0x3 = 1)
    (hlen : 1 ≤ ctx.cart.PRG_ROM_len)
    (hfit : prg_base ctx.cart + ctx.cart.PRG_ROM_len * 0x4000 ≤ ctx.cart.filesize)
    (hfs : ctx.cart.filesize = ctx.cart.ROM_contents.length)
    (h1 : 0x8000 ≤ a) :
    ∃ b, ctx.cart.ROM_contents[prg_base ctx.cart
          + ((ctx.prg_bank &&& 0xE) * 0x8000 + (a - 0x8000))
              % (ctx.cart.PRG_ROM_len * 0x4000)]? = some b ∧
      MMC1_cart_cpu_read a ctx = .ok (b % 256) := by
  have hS : 0 < ctx.cart.PRG_ROM_len * 0x4000 := by omega
  have hlt := Nat.mod_lt ((ctx.prg_bank &&& 0xE) * 0x8000 + (a - 0x8000)) hS
  obtain ⟨b, hb, hf⟩ := prg_fetch_ok ctx.cart _ (Nat.lt_of_lt_of_le
    (Nat.add_lt_add_left hlt (prg_base ctx.cart)) hfit) hfs
  refine ⟨b, hb, ?_⟩
  rw [MMC1_read_prg ctx a h1]
  by_cases hw : a ≤ 0xBFFF
  · rw [if_pos hw, prg_address_lo_mode01 ctx a hm hlen]
    exact hf
  · rw [if_neg hw, prg_address_hi_mode01 ctx a hm hlen]
    exact hf

theorem three_bank_cart_length : three_bank_cart.filesize = three_bank_cart.ROM_contents.length := by
  simp only [three_bank_cart, List.length_append, List.length_replicate]

/-- The byte of `three_bank_cart` at offset `16 + 0x4000`, the first of bank 1. -/
theorem three_bank_cart_bank1 : three_bank_cart.ROM_contents[16 + 0x4000]? = some 0xA1 := by
  show (List.replicate 16 0 ++ (List.replicate 0x4000 0xA0
        ++ (List.replicate 0x4000 0xA1 ++ List.replicate 0x4000 0xA2)))[16 + 0x4000]? = some 0xA1
  rw [List.getElem?_append_right (by simp only [List.length_replicate]; decide)]
  rw [List.getElem?_append_right (by simp only [List.length_replicate]; decide)]
  rw [List.getElem?_append_left (by simp only [List.length_replicate]; decide)]
  rw [List.getElem?_replicate]
  simp only [List.length_replicate]
  decide

/-- The byte of `three_bank_cart` at offset `16 + 0x8000`, the first of bank 2. -/
theorem three_bank_cart_bank2 : three_bank_cart.ROM_contents[16 + 0x8000]? = some 0xA2 := by
  show (List.replicate 16 0 ++ (List.replicate 0x4000 0xA0
        ++ (List.replicate 0x4000 0xA1 ++ List.replicate 0x4000 0xA2)))[16 + 0x8000]? = some 0xA2
  rw [List.getElem?_append_right (by simp only [List.length_replicate]; decide)]
  rw [List.getElem?_append_right (by simp only [List.length_replicate]; decide)]
  rw [List.getElem?_append_right (by simp only [List.length_replicate]; decide)]
  rw [List.getElem?_replicate]
  simp only [List.length_replicate]
  decide

/-- C25, counterexample.  On the cartridge `three_bank_cart` (three PRG banks,
the PRG region fits in the file) in mode 0 with `prg_bank = 2`, the read at
`0x8000` returns `0xA1`, the byte at offset `16 + 0x4000`, while the byte at
`H + (((prg_bank & 0xE)*0x4000 + (a - 0x8000)) mod (PRG_ROM_len*0x4000))`, offset
`16 + 0x8000`, is `0xA2`. -/
theorem banking_32k_not_16k_index :
    (three_bank_ctx.control >>> 2) &&& 0x3 = 0 ∧
    1 ≤ three_bank_ctx.cart.PRG_ROM_len ∧
    prg_base three_bank_ctx.cart + three_bank_ctx.cart.PRG_ROM_len * 0x4000
      ≤ three_bank_ctx.cart.filesize ∧
    three_bank_ctx.cart.filesize = three_bank_ctx.cart.ROM_contents.length ∧
    MMC1_cart_cpu_read 0x8000 three_bank_ctx = .ok 0xA1 ∧
    three_bank_ctx.cart.ROM_contents[prg_base three_bank_ctx.cart
      + ((three_bank_ctx.prg_bank &&& 0xE) * 0x4000 + (0x8000 - 0x8000))
          % (three_bank_ctx.cart.PRG_ROM_len * 0x4000)]? = some 0xA2 := by
  refine ⟨by decide, by decide, by decide, three_bank_cart_length, ?_, three_bank_cart_bank2⟩
  obtain ⟨b, hb, hr⟩ := MMC1_read_mode01 three_bank_ctx 0x8000 (Or.inl (by decide)) (by decide)
    (by decide) three_bank_cart_length (by decide)
  have h3 : three_bank_ctx.cart.ROM_contents[prg_base three_bank_ctx.cart
      + ((three_bank_ctx.prg_bank &&& 0xE) * 0x8000 + (0x8000 - 0x8000))
          % (three_bank_ctx.cart.PRG_ROM_len * 0x4000)]? = some 0xA1 := three_bank_cart_bank1
  have hb' : b = 0xA1 := Option.some.inj (hb.symm.trans h3)
  rw [hb'] at hr
  exact hr

/-- C25, amended.  For every cartridge with `PRG_ROM_len >= 1` whose PRG region
fits in the file, when bits 2-3 of `control` equal 0 or 1, every read at `a` in
`0x8000-0xFFFF` returns the ROM byte at
`H + (((prg_bank & 0xE)*0x8000 + (a - 0x8000)) mod (PRG_ROM_len*0x4000))`, with
`H = 16` (`+512` with a trainer): the PRG-bank register with its low bit masked
off is multiplied by `0x8000`, one expression serves both windows, and bit 0 of
the PRG-bank register has no effect. -/
theorem banking_32k (ctx : MMC1_ctx)
    (hm : (ctx.control >>> 2) &&& 0x3 = 0 ∨ (ctx.control >>> 2) &&& 0x3 = 1)
    (hlen : 1 ≤ ctx.cart.PRG_ROM_len)
    (hfit : (if ctx.cart.trainer_present = true then 16 + 512 else 16)
              + ctx.cart.PRG_ROM_len * 0x4000 ≤ ctx.cart.filesize)
    (hfs : ctx.cart.filesize = ctx.cart.ROM_contents.length) :
    ∀ a, 0x8000 ≤ a → a ≤ 0xFFFF →
      (∃ b, ctx.cart.ROM_contents[(if ctx.cart.trainer_present = true then 16 + 512 else 16)
            + ((ctx.prg_bank &&& 0xE) * 0x8000 + (a - 0x8000))
                % (ctx.cart.PRG_ROM_len * 0x4000)]? = some b ∧
        MMC1_cart_cpu_read a ctx = .ok (b % 256)) ∧
      MMC1_cart_cpu_read a { ctx with prg_bank := ctx.prg_bank ^^^ 1 }
        = MMC1_cart_cpu_read a ctx := by
  intro a h1 _
  refine ⟨MMC1_read_mode01 ctx a hm hlen hfit hfs h1, ?_⟩
  have hbit : (ctx.prg_bank ^^^ 1) &&& 0xE = ctx.prg_bank &&& 0xE := by
    rw [Nat.and_xor_distrib_right]
    have : (1 : Nat) &&& 0xE = 0 := by decide
    rw [this, Nat.xor_zero]
  rw [MMC1_read_prg _ a h1, MMC1_read_prg ctx a h1]
  rw [prg_address_lo_mode01 { ctx with prg_bank := ctx.prg_bank ^^^ 1 } a hm hlen,
    prg_address_hi_mode01 { ctx with prg_bank := ctx.prg_bank ^^^ 1 } a hm hlen,
    prg_address_lo_mode01 ctx a hm hlen, prg_address_hi_mode01 ctx a hm hlen]
  simp only [hbit]

/-- C25, witness: on `three_bank_cart` in mode 0 with `prg_bank = 2`, the read
at `0xC000` returns `0xA2`, the byte at offset
`16 + ((2*0x8000 + 0x4000) mod 0xC000) = 16 + 0x8000`. -/
theorem banking_32k_witness : MMC1_cart_cpu_read 0xC000 three_bank_ctx = .ok 0xA2 := by
  obtain ⟨b, hb, hr⟩ := ((banking_32k three_bank_ctx (Or.inl (by decide)) (by decide)
    (by decide) three_bank_cart_length) 0xC000 (by decide) (by decide)).1
  have h3 : three_bank_ctx.cart.ROM_contents[prg_base three_bank_ctx.cart
      + ((three_bank_ctx.prg_bank &&& 0xE) * 0x8000 + (0xC000 - 0x8000))
          % (three_bank_ctx.cart.PRG_ROM_len * 0x4000)]? = some 0xA2 := three_bank_cart_bank2
  have hb' : b = 0xA2 := Option.some.inj (hb.symm.trans h3)
  rw [hb'] at hr
  exact hr

/-! ## The program counter -/

theorem mmu_read_pc_PC (cpu : CPU) (v : Nat × CPU) (h : mmu_read_pc cpu = .ok v) :
    v.2.PC = (cpu.PC + 1) % 65536 := by
  rw [(mmu_read_pc_ok cpu v.2 v.1 h).2]

theorem cpu_read_pc_PC (cpu : CPU) (v : Nat × CPU) (h : cpu_read_pc cpu = .ok v) :
    v.2.PC = (cpu.PC + 1) % 65536 := by
  rw [(cpu_read_pc_ok cpu v.2 v.1 h).2]

theorem cpu_read16_pc_PC (cpu : CPU) (v : Nat × CPU) (h : cpu_read16_pc cpu = .ok v) :
    v.2.PC = (cpu.PC + 1) % 65536 := by
  rw [(cpu_read16_pc_ok cpu v.2 v.1 h).2]

theorem zpg_read_PC (cpu : CPU) (v : Nat × CPU) (h : zpg_read cpu = .ok v) :
    v.2.PC = (cpu.PC + 1) % 65536 := by
  obtain ⟨_, _, _, h1⟩ := zpg_read_ok cpu v.2 v.1 h
  rw [h1]

theorem zpg_read_offset_PC (cpu : CPU) (offset : Nat) (v : Nat × CPU)
    (h : zpg_read_offset cpu offset = .ok v) : v.2.PC = (cpu.PC + 1) % 65536 := by
  obtain ⟨_, _, _, h1⟩ := zpg_read_offset_ok cpu v.2 offset v.1 h
  rw [h1]

theorem STA_PC (cpu c : CPU) (address : Nat) (h : STA cpu address = .ok c) : c.PC = cpu.PC := by
  obtain ⟨_, _, h1⟩ := STA_ok cpu c address h
  rw [h1]

/-- The program counter after the `switch` of a step that returns, for an
opcode other than the jump: the counter at the entry of the `switch` plus the
operand bytes of the opcode. -/
theorem tick_cpu_switch_PC (inst : Nat) (cpu cpu' : CPU)
    (h : tick_cpu_switch inst cpu = .ok cpu') (hj : inst ≠ 0x4C) (hpc : cpu.PC < 65536) :
    ∃ L, instr_length inst = some L ∧ cpu'.PC = (cpu.PC + (L - 1)) % 65536 := by
  by_cases hs : inst ∈ supported_opcodes
  · simp only [supported_opcodes, List.mem_cons, List.mem_singleton, List.not_mem_nil,
      or_false] at hs
    rcases hs with rfl | rfl | rfl | rfl | rfl | rfl | rfl | rfl | rfl | rfl | rfl | rfl | rfl |
      rfl | rfl | rfl | rfl | rfl | rfl | rfl
    all_goals simp only [tick_cpu_switch, bind, Except.bind, pure, Except.pure,
      Nat.reduceEqDiff, if_false, if_true] at h
    all_goals first
      | exact absurd rfl hj
      | refine ⟨_, rfl, ?_⟩
    all_goals first
      | (cases h
         show cpu.PC = _
         omega)
      | (split at h
         · cases h
         · rename_i v hv
           cases h
           show v.2.PC = _
           first
             | exact mmu_read_pc_PC cpu v hv
             | exact cpu_read_pc_PC cpu v hv
             | exact zpg_read_PC cpu v hv
             | exact zpg_read_offset_PC cpu _ v hv)
      | (split at h
         · cases h
         · rename_i v hv
           split at h
           · cases h
           · rename_i c hc
             cases h
             show c.PC = _
             rw [STA_PC v.2 c _ hc]
             first
               | exact zpg_read_PC cpu v hv
               | exact zpg_read_offset_PC cpu _ v hv)
      | (split at h
         · cases h
         · rename_i v hv
           split at h
           · cases h
           · rename_i c hc
             cases h
             show (c.PC + 1) % 65536 = _
             rw [STA_PC v.2 c _ hc, cpu_read16_pc_PC cpu v hv]
             omega)
      | (split at h
         · cases h
         · rename_i v hv
           split at h
           · cases h
           · cases h
             show (v.2.PC + 1) % 65536 = _
             rw [cpu_read16_pc_PC cpu v hv]
             omega)
  · rw [tick_cpu_switch_default _ _ hs] at h
    split at h
    · cases h
    · split at h <;> cases h

/-- C28.  For every CPU state, a `tick_cpu` that returns on an opcode other than
the jump `0x4C` leaves the program counter equal to the old value plus `L`
modulo 65536, where `L = 1` for `0x78`, `0x9A`, `0xD8`; `L = 2` for `0x05`,
`0x49`, `0x85`, `0x95`, `0xA2`, `0xA5`, `0xA6`, `0xA9`, `0xB5`, `0xB6`; and
`L = 3` for `0x8D`, `0x99`, `0x9D`, `0xAD`, `0xB9`, `0xBD`. -/
theorem pc_advances_by_length (cpu cpu' : CPU) (inst : Nat)
    (hf : mmu_read cpu.PC cpu.mmu = .ok inst) (hj : inst ≠ 0x4C)
    (h : tick_cpu cpu = .ok cpu') :
    ∃ L, instr_length inst = some L ∧ cpu'.PC = (cpu.PC + L) % 65536 ∧
      (inst = 0x78 ∨ inst = 0x9A ∨ inst = 0xD8 → L = 1) ∧
      (inst = 0x05 ∨ inst = 0x49 ∨ inst = 0x85 ∨ inst = 0x95 ∨ inst = 0xA2 ∨ inst = 0xA5
        ∨ inst = 0xA6 ∨ inst = 0xA9 ∨ inst = 0xB5 ∨ inst = 0xB6 → L = 2) ∧
      (inst = 0x8D ∨ inst = 0x99 ∨ inst = 0x9D ∨ inst = 0xAD ∨ inst = 0xB9 ∨ inst = 0xBD
        → L = 3) ∧
      (L = 1 ∨ L = 2 ∨ L = 3) := by
  unfold tick_cpu at h
  split at h
  · cases h
  · rename_i i c hfetch
    obtain ⟨hr, hc⟩ := mmu_read_pc_ok cpu c i hfetch
    rw [hf] at hr
    cases hr
    have hpc : c.PC < 65536 := by
      rw [hc]
      exact Nat.mod_lt _ (by decide)
    obtain ⟨L, hL, hPC⟩ := tick_cpu_switch_PC inst c cpu' h hj hpc
    have hL1 : L = 1 ∨ L = 2 ∨ L = 3 := by
      unfold instr_length at hL
      split at hL
      · cases hL; exact Or.inl rfl
      · split at hL
        · cases hL; exact Or.inr (Or.inl rfl)
        · split at hL
          · cases hL; exact Or.inr (Or.inr rfl)
          · cases hL
    refine ⟨L, hL, ?_, ?_, ?_, ?_, hL1⟩
    · rw [hPC, hc]
      show ((cpu.PC + 1) % 65536 + (L - 1)) % 65536 = _
      omega
    · intro hk
      rcases hk with rfl | rfl | rfl <;> exact Option.some.inj (hL.symm.trans (by decide))
    · intro hk
      rcases hk with rfl | rfl | rfl | rfl | rfl | rfl | rfl | rfl | rfl | rfl <;>
        exact Option.some.inj (hL.symm.trans (by decide))
    · intro hk
      rcases hk with rfl | rfl | rfl | rfl | rfl | rfl <;>
        exact Option.some.inj (hL.symm.trans (by decide))

/-- C28, witness: three stores `8D` that return three bytes further.  The
step `8D 00 02` at `0x6000` stores in work RAM; the step `8D 00 E0` at `0x6000`
stores at `0xE000` in cartridge space, with the battery file open; the step
`8D` at `0x0000` in work RAM, whose operand the mapper reads as `0xFFFF`, stores
in cartridge space without a battery file. -/
theorem pc_advances_by_length_witness :
    (∃ cpu', tick_cpu (cpu_sta_absolute 7) = .ok cpu' ∧ cpu'.PC = 0x6003) ∧
    (∃ cpu', tick_cpu cpu_sta_cartridge = .ok cpu' ∧ cpu'.PC = 0x6003) ∧
    (∃ cpu', tick_cpu (cpu_immediate_in_ram 0x8D) = .ok cpu' ∧ cpu'.PC = 0x0003) := by
  refine ⟨?_, ?_, ?_⟩
  · cases hT : tick_cpu (cpu_sta_absolute 7) with
    | error e =>
      have hs : (tick_cpu (cpu_sta_absolute 7)).toOption.isSome = true := by decide
      rw [hT] at hs
      cases hs
    | ok cpu' =>
      obtain ⟨L, _, hPC, _, _, h3, _⟩ :=
        pc_advances_by_length (cpu_sta_absolute 7) cpu' 0x8D (by decide) (by decide) hT
      rw [h3 (Or.inl rfl)] at hPC
      exact ⟨cpu', rfl, hPC.trans (by decide)⟩
  · cases hT : tick_cpu cpu_sta_cartridge with
    | error e =>
      have hs : (tick_cpu cpu_sta_cartridge).toOption.isSome = true := by decide
      rw [hT] at hs
      cases hs
    | ok cpu' =>
      obtain ⟨L, _, hPC, _, _, h3, _⟩ :=
        pc_advances_by_length cpu_sta_cartridge cpu' 0x8D (by decide) (by decide) hT
      rw [h3 (Or.inl rfl)] at hPC
      exact ⟨cpu', rfl, hPC.trans (by decide)⟩
  · cases hT : tick_cpu (cpu_immediate_in_ram 0x8D) with
    | error e =>
      have hs : (tick_cpu (cpu_immediate_in_ram 0x8D)).toOption.isSome = true := by decide
      rw [hT] at hs
      cases hs
    | ok cpu' =>
      obtain ⟨L, _, hPC, _, _, h3, _⟩ :=
        pc_advances_by_length (cpu_immediate_in_ram 0x8D) cpu' 0x8D (by decide) (by decide) hT
      rw [h3 (Or.inl rfl)] at hPC
      exact ⟨cpu', rfl, hPC.trans (by decide)⟩

/-! ## Operand fetches -/

/-- C24, the code at the failing input.  The CPU stands at `0x0000` in work RAM
before the bytes `A2 42`: the opcode is fetched by the bus from work RAM, the
operand is read by `cpu_read` on the mapper, which answers `0xFF` below
`0x6000`, and `X` is loaded with `0xFF`, not with the work-RAM byte `0x42`.  The
sibling `A9 42` at the same place, whose case reads the operand with `mmu_read`,
loads `A` with `0x42`. -/
theorem ldx_immediate_bypasses_bus :
    mmu_read (cpu_immediate_in_ram 0xA2).PC (cpu_immediate_in_ram 0xA2).mmu = .ok 0xA2 ∧
    mmu_read ((cpu_immediate_in_ram 0xA2).PC + 1) (cpu_immediate_in_ram 0xA2).mmu = .ok 0x42 ∧
    cpu_read ((cpu_immediate_in_ram 0xA2).PC + 1) (cpu_immediate_in_ram 0xA2).mmu.mmc = .ok 0xFF ∧
    (tick_cpu (cpu_immediate_in_ram 0xA2)).toOption.map (fun c => (c.X, c.PC)) = some (0xFF, 2) ∧
    (tick_cpu (cpu_immediate_in_ram 0xA9)).toOption.map (fun c => (c.A, c.PC)) = some (0x42, 2) := by
  decide

/-- C26, the code at the failing input.  The CPU stands at `0x0000` in work RAM
before the bytes `85 10` with `A = 0x11`, and the cell `0x10` holds `0x20`.
After the step the cell `0x10` still holds `0x20` and the accumulator has been
written to the cell `0x20`: the case `0x85` hands `STA` the byte that `zpg_read`
read at the operand address, not the operand address. -/
theorem sta_zero_page_stores_at_value :
    mmu_read cpu_sta_zero_page.PC cpu_sta_zero_page.mmu = .ok 0x85 ∧
    mmu_read (cpu_sta_zero_page.PC + 1) cpu_sta_zero_page.mmu = .ok 0x10 ∧
    cpu_sta_zero_page.A = 0x11 ∧
    mmu_read 0x10 cpu_sta_zero_page.mmu = .ok 0x20 ∧
    mmu_read 0x20 cpu_sta_zero_page.mmu = .ok 0x00 ∧
    (tick_cpu cpu_sta_zero_page).toOption.map
      (fun c => (mmu_read 0x10 c.mmu, mmu_read 0x20 c.mmu, c.A)) = some (.ok 0x20, .ok 0x11, 0x11) := by
  decide

/-! ## The name of the battery file -/

/-- A scan for a character that the string does not hold finds nothing. -/
theorem scan_down_none (s : List Char) (tgt : Char) (h : tgt ∉ s) (n : Nat) :
    scan_down s tgt n = none := by
  induction n with
  | zero => rfl
  | succ i ih =>
    have hne : s[i]? ≠ some tgt := fun e => h (List.getElem?_mem e)
    simp only [scan_down, hne, if_false, ih]

/-- A scan that starts above cells without the character goes down through them. -/
theorem scan_down_skip (s : List Char) (tgt : Char) (n m : Nat)
    (h : ∀ j, n ≤ j → j < n + m → s[j]? ≠ some tgt) :
    scan_down s tgt (n + m) = scan_down s tgt n := by
  induction m with
  | zero => rfl
  | succ k ih =>
    have hne : s[n + k]? ≠ some tgt := h (n + k) (by omega) (by omega)
    have ih' := ih (fun j h1 h2 => h j h1 (by omega))
    show scan_down s tgt ((n + k) + 1) = _
    simp only [scan_down, hne, if_false, ih']

/-- The last appearance of a character: in `l ++ tgt :: r` with `tgt` not in
`r`, a scan from the end or from one cell past the end stops at `l.length`. -/
theorem scan_down_last (l r : List Char) (tgt : Char) (h : tgt ∉ r) (m : Nat) :
    scan_down (l ++ tgt :: r) tgt (l.length + 1 + m) = some l.length := by
  rw [scan_down_skip]
  · have hat : (l ++ tgt :: r)[l.length]? = some tgt := by
      rw [List.getElem?_append_right (Nat.le_refl _)]
      simp
    simp only [scan_down, hat, if_true]
  · intro j h1 _ e
    rw [List.getElem?_append_right (by omega)] at e
    have hj : j - l.length = (j - l.length - 1) + 1 := by omega
    rw [hj, List.getElem?_cons_succ] at e
    exact h (List.getElem?_mem e)

/-- The directory part goes: for a path `dir ++ "/" ++ name` whose `name` is not
empty and holds no slash, `strip_before` returns `name`. -/
theorem strip_before_slash (dir name : List Char) (hn : name ≠ []) (hs : '/' ∉ name) :
    strip_before (dir ++ '/' :: name) '/' = some name := by
  have hpos : 0 < name.length := List.length_pos.mpr hn
  have hlen : (dir ++ '/' :: name).length = dir.length + 1 + name.length := by
    simp only [List.length_append, List.length_cons]
    omega
  have hlast : (dir ++ '/' :: name)[(dir ++ '/' :: name).length + 1 - 2]? ≠ some '/' := by
    intro e
    rw [List.getElem?_append_right (by omega)] at e
    have hj : (dir ++ '/' :: name).length + 1 - 2 - dir.length
        = (name.length - 1) + 1 := by omega
    rw [hj, List.getElem?_cons_succ] at e
    exact hs (List.getElem?_mem e)
  have hshort : ¬ (dir ++ '/' :: name).length + 1 < 3 := by omega
  have hscan : scan_down (dir ++ '/' :: name) '/' ((dir ++ '/' :: name).length + 1 - 1)
      = some dir.length := by
    have : (dir ++ '/' :: name).length + 1 - 1 = dir.length + 1 + name.length := by omega
    rw [this]
    exact scan_down_last dir name '/' hs name.length
  have hdrop : List.drop (dir.length + 1) (dir ++ '/' :: name) = name := by
    have : dir ++ '/' :: name = (dir ++ ['/']) ++ name := by simp
    rw [this]
    exact List.drop_left' (by simp)
  simp only [strip_before, hshort, hlast, false_or, if_false, hscan, hdrop]

/-- A path without a slash is kept whole. -/
theorem strip_before_no_slash (name : List Char) (hs : '/' ∉ name) :
    strip_before name '/' = none := by
  unfold strip_before
  simp only
  split
  · rfl
  · rw [scan_down_none name '/' hs]

/-- The extension goes: for a file name `base ++ "." ++ ext` whose `ext` holds
no dot, the scan for the dot stops at `base.length`. -/
theorem scan_down_dot (base ext : List Char) (hd : '.' ∉ ext) :
    scan_down (base ++ '.' :: ext) '.' ((base ++ '.' :: ext).length + 1) = some base.length := by
  have : (base ++ '.' :: ext).length + 1 = base.length + 1 + (ext.length + 1) := by
    simp only [List.length_append, List.length_cons]
    omega
  rw [this]
  exact scan_down_last base ext '.' hd (ext.length + 1)

theorem take_base (base ext : List Char) :
    List.take (base.length + 1) (base ++ '.' :: ext) = base ++ ['.'] := by
  have : base ++ '.' :: ext = (base ++ ['.']) ++ ext := by simp
  rw [this]
  exact List.take_left' (by simp)

/-- C23, counterexample.  For the path `roms/game.nes` the name of the battery
file is `game.sav`, not `roms/game.sav`: with a battery file `roms/game.sav`
beside the ROM image and none in the working directory `MMC1_new_ctx` opens no
file, and it opens `game.sav` of the working directory when that file is there. -/
theorem sav_filename_drops_directory :
    sav_filename "roms/game.nes".toList = "game.sav".toList ∧
    sav_filename "roms/game.nes".toList ≠ "roms/game.sav".toList ∧
    (MMC1_new_ctx battery_cart "roms/game.nes".toList
      (single_file "roms/game.sav".toList [0x42])).fp = none ∧
    (MMC1_new_ctx battery_cart "roms/game.nes".toList
      (single_file "game.sav".toList [0x42])).fp = some [0x42] := by
  decide

/-- C23, amended.  For every path `dir/name` whose file name `name` is not empty
and holds no slash, and for the bare file name `name` alike, the name of the
battery file is `name` without its directory part, with the extension (the part
after the last dot) replaced by `sav`, or with `.sav` appended when `name` holds
no dot; and `MMC1_new_ctx` opens the file of that name for a cartridge with
PRG RAM. -/
theorem sav_filename_spec (dir name : List Char) (hn : name ≠ []) (hs : '/' ∉ name) :
    (∀ base ext, name = base ++ '.' :: ext → '.' ∉ ext →
      sav_filename (dir ++ '/' :: name) = base ++ ['.', 's', 'a', 'v'] ∧
      sav_filename name = base ++ ['.', 's', 'a', 'v']) ∧
    ('.' ∉ name →
      sav_filename (dir ++ '/' :: name) = name ++ ['.', 's', 'a', 'v'] ∧
      sav_filename name = name ++ ['.', 's', 'a', 'v']) ∧
    (∀ cart fopen, cart.has_PRG_RAM = true → cart.PRG_RAM_size ≠ 0 →
      (MMC1_new_ctx cart (dir ++ '/' :: name) fopen).fp
        = fopen (sav_filename (dir ++ '/' :: name))) := by
  have h1 := strip_before_slash dir name hn hs
  have h2 := strip_before_no_slash name hs
  refine ⟨?_, ?_, ?_⟩
  · intro base ext he hd
    have h3 := scan_down_dot base ext hd
    have h4 := take_base base ext
    subst he
    constructor
    · simp only [sav_filename, h1, h3, h4, List.append_assoc, List.singleton_append]
    · simp only [sav_filename, h2, h3, h4, List.append_assoc, List.singleton_append]
  · intro hd
    have h3 := scan_down_none name '.' hd (name.length + 1)
    constructor
    · simp only [sav_filename, h1, h3, List.append_assoc, List.singleton_append]
    · simp only [sav_filename, h2, h3, List.append_assoc, List.singleton_append]
  · intro cart fopen hp hsz
    simp only [MMC1_new_ctx, hp, hsz, ne_eq, not_false_eq_true, and_self, if_true]

/-- C23, witness: `my.roms/nes/game.nes` gives `game.sav`. -/
theorem sav_filename_spec_witness :
    sav_filename "my.roms/nes/game.nes".toList = "game.sav".toList :=
  ((sav_filename_spec "my.roms/nes".toList "game.nes".toList (by decide) (by decide)).1
    "game".toList "nes".toList (by decide) (by decide)).1

end NES
